import Mathlib

/-!
piMotionTracker: circular frame queue and track lifecycle engine.

A shallow embedding of `source_pi/CircularFrameBuf.{h,cpp}` (the circular queues
`QueueMat` / `QueuePkt`), of `source_pc/MotionTracker.{h,cpp}` (the track
association and lifecycle engine), of `VideoCapturePi::read` and the codec field of
the camera settings record (`source_pc/VideoCapturePi.{h,cpp}`) and of the server
loop of `source_pi/cameraServer_v010.cpp`, followed by theorems about them.

Conventions.
* C `int` indices (`front`, `rear`, `size`) are integers; all values stay within
  `[-2, size]`, so no 32-bit wrap-around is involved.
* An operation whose C++ behaviour is undefined (a zero divisor, an out-of-range
  vector index) returns `none`.
* The `unsigned long` counters (`id`, `age`, `totalVisibleCount`,
  `consecutiveInvisibleCount`, `numTracks`) are modelled twice. In `Tracking` they
  are natural numbers; this model is used for statements about one call or a fixed
  number of cycles. In `Tracking.Wrap` every `++` wraps around at `range` values
  (`counterRange = 2^32` for the Windows target of the PC program); statements about
  runs of arbitrary length are made on this model. The two models agree on every
  run from the empty tracker in which the number of cycles plus the number of
  detections is below `range` (`wrap_runCycles_eq`).
* OpenCV (Kalman filter arithmetic, `norm`, `KeyPoint`) is outside the repository
  and is taken as a parameter (`CvOps`).
* The recursion of `deleteLostTracks` is given twice: as a function of the track
  list (`deleteLostList`) and with an explicit bound on the recursion depth and a
  record of the recursive calls (`deleteLostCalls`); the two agree.
* The socket is the environment: `recv` is described by the list of values that its
  successive calls return and by the byte stream it delivers; the server's system
  and library calls are described by the values they return (`Connection`). The
  FFmpeg decoder is a parameter (`DecoderOps`).
-/

namespace CircularFrameBuf

/-- Circular queue of `CircularFrameBuf.h`. `QueueMat` (items are `cv::Mat` frames)
and `QueuePkt` (items are packets) have the same fields and the same control flow;
the item type is the parameter `α`. -/
structure QueueMat (α : Type) where
  rear : Int
  front : Int
  size : Int
  buffer : List α
deriving DecidableEq

/-- The packet queue: same structure, packets as items. -/
abbrev QueuePkt (α : Type) := QueueMat α

/-- Constructor `QueueMat(int s)`: `front = rear = -1; size = s; buffer.resize(size)`.
`dflt` is the default-constructed item that `resize` fills the vector with. -/
def QueueMat.init {α : Type} (dflt : α) (s : Nat) : QueueMat α :=
  { rear := -1, front := -1, size := s, buffer := List.replicate s dflt }

/-- Assignment `buffer[i] = x`; an index outside the vector is undefined behaviour. -/
def writeAt {α : Type} (buf : List α) (i : Int) (x : α) : Option (List α) :=
  if 0 ≤ i ∧ i < buf.length then some (buf.set i.toNat x) else none

/-- Read of `buffer[i]`; an index outside the vector is undefined behaviour. -/
def readAt {α : Type} (buf : List α) (i : Int) : Option α :=
  if 0 ≤ i then buf[i.toNat]? else none

/-- Method `QueueMat::enQueue` (and `QueuePkt::enQueue`). The C operator `%` truncates
towards zero (`Int.tmod`) and is undefined for a zero divisor; `||` and `&&`
short-circuit, so the modulus is evaluated only when the first disjunct is false. -/
def enQueue {α : Type} (q : QueueMat α) (frame : α) : Option (Bool × QueueMat α) :=
  if q.front = 0 ∧ q.rear = q.size - 1 then some (false, q)
  else if q.size - 1 = 0 then none
  else if q.rear = Int.tmod (q.front - 1) (q.size - 1) then some (false, q)
  else if q.front = -1 then
    (writeAt q.buffer 0 frame).map
      fun b => (true, { q with front := 0, rear := 0, buffer := b })
  else if q.rear = q.size - 1 ∧ q.front ≠ 0 then
    (writeAt q.buffer 0 frame).map
      fun b => (true, { q with rear := 0, buffer := b })
  else
    (writeAt q.buffer (q.rear + 1) frame).map
      fun b => (true, { q with rear := q.rear + 1, buffer := b })

/-- Method `QueueMat::deQueue` (and `QueuePkt::deQueue`). `frame` is the caller's
output variable; the result carries the boolean, the value of the caller's
variable after the call, and the queue after the call. -/
def deQueue {α : Type} (q : QueueMat α) (frame : α) : Option (Bool × α × QueueMat α) :=
  if q.front = -1 then some (false, frame, q)
  else
    match readAt q.buffer q.front with
    | none => none
    | some x =>
      if q.front = q.rear then some (true, x, { q with front := -1, rear := -1 })
      else if q.front = q.size - 1 then some (true, x, { q with front := 0 })
      else some (true, x, { q with front := q.front + 1 })

/-- One call on a queue: `enQ x` is `enQueue(x)`, `deQ out` is `deQueue(out)` with
`out` the contents of the caller's variable before the call. -/
inductive Call (α : Type) where
  | enQ (frame : α)
  | deQ (frame : α)
deriving DecidableEq

/-- Executes one call: the returned boolean, the caller's variable after the call,
and the queue after the call. -/
def call {α : Type} (q : QueueMat α) : Call α → Option ((Bool × α) × QueueMat α)
  | .enQ x =>
    match enQueue q x with
    | none => none
    | some (b, q') => some ((b, x), q')
  | .deQ x =>
    match deQueue q x with
    | none => none
    | some (b, y, q') => some ((b, y), q')

/-- Executes a sequence of calls in order, collecting the results. -/
def runCalls {α : Type} (q : QueueMat α) : List (Call α) → Option (List (Bool × α) × QueueMat α)
  | [] => some ([], q)
  | c :: cs =>
    match call q c with
    | none => none
    | some (r, q') =>
      match runCalls q' cs with
      | none => none
      | some (rs, q'') => some (r :: rs, q'')

/-- The items stored after a history of calls and their results, oldest first,
starting from the stored items `g`: an `enQueue` that returned true stores its item
last, a `deQueue` that returned true removes the earliest stored item. -/
def storedFrom {α : Type} (g : List α) : List (Call α) → List (Bool × α) → List α
  | .enQ x :: cs, (true, _) :: rs => storedFrom (g ++ [x]) cs rs
  | .deQ _ :: cs, (true, _) :: rs => storedFrom g.tail cs rs
  | _ :: cs, _ :: rs => storedFrom g cs rs
  | _, _ => g

/-- The items held between `front` and `rear`, oldest first, read off the buffer. -/
def contents {α : Type} (q : QueueMat α) : List α :=
  if q.front = -1 then []
  else if q.front ≤ q.rear then
    (q.buffer.drop q.front.toNat).take (q.rear - q.front + 1).toNat
  else q.buffer.drop q.front.toNat ++ q.buffer.take (q.rear + 1).toNat

/-- Reference FIFO of the specification, bounded at `C` items: enqueue appends at
the tail unless the length is `C`, dequeue removes the head unless the list is
empty. -/
def fifoCall {α : Type} (C : Nat) (l : List α) : Call α → (Bool × α) × List α
  | .enQ x => if l.length = C then ((false, x), l) else ((true, x), l ++ [x])
  | .deQ out =>
    match l with
    | [] => ((false, out), [])
    | y :: t => ((true, y), t)

/-- Runs the reference FIFO over a sequence of calls. -/
def fifoRun {α : Type} (C : Nat) (l : List α) : List (Call α) → List (Bool × α) × List α
  | [] => ([], l)
  | c :: cs =>
    let r := fifoCall C l c
    let rest := fifoRun C r.2 cs
    (r.1 :: rest.1, rest.2)

/-- Number of items a queue built with size `C` accepts before `enQueue` reports
full: for `C = 2` the full test `rear == (front - 1) % (size - 1)` already holds
with one item stored. -/
def effectiveCapacity (C : Nat) : Nat := if C = 2 then 1 else C

/-- Shape of the states reached from a fresh queue of size `C`. -/
def Inv {α : Type} (C : Nat) (q : QueueMat α) : Prop :=
  q.size = C ∧ q.buffer.length = C ∧
    ((q.front = -1 ∧ q.rear = -1) ∨
      (0 ≤ q.front ∧ q.front < C ∧ 0 ≤ q.rear ∧ q.rear < C ∧
        (C = 2 → q.front = 0 ∧ q.rear = 0)))

/-- The calls of a round trip: `enQueue` on each item in order, then as many
`deQueue` calls, each into a variable holding `out`. -/
def roundTripCalls {α : Type} (items : List α) (out : α) : List (Call α) :=
  items.map Call.enQ ++ List.replicate items.length (Call.deQ out)

end CircularFrameBuf

namespace Tracking

/-- OpenCV `Point2f` over a coordinate type `F` (C++ `float`). -/
structure Point2f (F : Type) where
  x : F
  y : F
deriving DecidableEq

/-- OpenCV `KeyPoint`. Only `pt` is read or written field by field in the tracker;
the remaining OpenCV fields (size, angle, response, octave, class_id) are copied
along with the key point and never inspected, and are left out. -/
structure KeyPoint (F : Type) where
  pt : Point2f F
deriving DecidableEq

/-- The 6x1 state vector of the filter: position, velocity, acceleration. -/
structure State6 (F : Type) where
  x : F
  y : F
  vx : F
  vy : F
  ax : F
  ay : F
deriving DecidableEq

/-- OpenCV `KalmanFilter` object: the corrected state `statePost`, which the
tracker reads and writes directly, and the rest of the object (`statePre`, the
transition, measurement, noise and covariance matrices), kept abstract in `mats`. -/
structure KalmanFilter (F M : Type) where
  statePost : State6 F
  mats : M
deriving DecidableEq

/-- The OpenCV operations the tracker calls, taken as parameters.
* `zero` is the float `0`;
* `configured` is the matrix part of the filter set up by `createNewTrack`
  (`KalmanFilter kf(6, 2, 0)`, `dt = 2`, the transition matrix, `setIdentity` of the
  measurement matrix and of the noise and error covariances);
* `predict kf` is the filter after `kf.predict()` and the returned prediction;
* `correct kf z` is the filter after `kf.correct(z)` for the 2x1 measurement `z`;
* `normLt a b d` is the test `norm(a - b) < d`. -/
structure CvOps (F M D : Type) where
  zero : F
  configured : M
  predict : KalmanFilter F M → KalmanFilter F M × State6 F
  correct : KalmanFilter F M → Point2f F → KalmanFilter F M
  normLt : Point2f F → Point2f F → D → Bool

/-- Record `struct track` of `MotionTracker.h`. -/
structure track (F M : Type) where
  id : Nat
  centroid : KeyPoint F
  kalmanFilter : KalmanFilter F M
  age : Nat
  totalVisibleCount : Nat
  consecutiveInvisibleCount : Nat
  flag : Bool
deriving DecidableEq

/-- The motion-tracking members of `class MotionTracker`: `tracks` and `numTracks`.
`history` is a ghost variable that is not part of the C++ class and is read by no
operation: it lists, oldest first, the ids handed out by `createNewTrack`. -/
structure MotionTracker (F M : Type) where
  tracks : List (track F M)
  numTracks : Nat
  history : List Nat
deriving DecidableEq

/-- Both constructors: `numTracks(0)` and an empty `tracks` vector. -/
def MotionTracker.empty {F M : Type} : MotionTracker F M :=
  { tracks := [], numTracks := 0, history := [] }

/-- Method `predictNewLocationsOfTracks`: every track's filter is stepped by
`predict()` and the first two entries of the prediction become `centroid.pt`. -/
def predictNewLocationsOfTracks {F M D : Type} (ops : CvOps F M D) (s : MotionTracker F M) :
    MotionTracker F M :=
  { s with tracks := s.tracks.map fun t =>
      let p := ops.predict t.kalmanFilter
      { t with kalmanFilter := p.1, centroid := { t.centroid with pt := { x := p.2.x, y := p.2.y } } } }

/-- Method `createNewTrack`. `track newTrack;` default-constructs the centroid
(`KeyPoint()`, point `(0, 0)`), which the method never assigns. -/
def createNewTrack {F M D : Type} (ops : CvOps F M D) (s : MotionTracker F M)
    (centroid : KeyPoint F) : MotionTracker F M :=
  let kf : KalmanFilter F M :=
    { statePost :=
        { x := centroid.pt.x, y := centroid.pt.y, vx := ops.zero, vy := ops.zero, ax := ops.zero, ay := ops.zero },
      mats := ops.configured }
  let newTrack : track F M :=
    { id := s.numTracks,
      centroid := { pt := { x := ops.zero, y := ops.zero } },
      kalmanFilter := kf,
      age := 1,
      totalVisibleCount := 1,
      consecutiveInvisibleCount := 0,
      flag := true }
  { tracks := s.tracks ++ [newTrack], numTracks := s.numTracks + 1,
    history := s.history ++ [s.numTracks] }

/-- Conversion of an unsigned quotient to C `int` (32 bits, two's complement). -/
def toInt32 (n : Nat) : Int := (((n + 2 ^ 31) % 2 ^ 32 : Nat) : Int) - 2 ^ 31

/-- The comparison `visibility < 0.6` for an `int` value: the `int` converts to
`double` exactly and the `double` literal `0.6` is exactly
`5404319552844595 / 2^53` (`2^53 = 9007199254740992`), so the comparison holds
exactly when `visibility * 2^53 < 5404319552844595`. -/
def ltDoubleZeroPointSix (visibility : Int) : Bool :=
  decide (visibility * 9007199254740992 < 5404319552844595)

/-- The deletion test of `deleteLostTracks` for one track:
`int visibility = totalVisibleCount / age;` followed by
`(age < ageThreshold && visibility < 0.6) || consecutiveInvisibleCount >= invisibleForTooLong`
with `ageThreshold = 8` and `invisibleForTooLong = 20`. The unsigned division is
undefined for `age = 0`. -/
def deletionTest {F M : Type} (t : track F M) : Option Bool :=
  if t.age = 0 then none
  else
    let visibility : Int := toInt32 (t.totalVisibleCount / t.age)
    some ((decide (t.age < 8) && ltDoubleZeroPointSix visibility)
      || decide (t.consecutiveInvisibleCount ≥ 20))

/-- The `for` loop of `deleteLostTracks` from index `i` on: the index of the first
track that meets the deletion test, if there is one. -/
def scanLost {F M : Type} : List (track F M) → Nat → Option (Option Nat)
  | [], _ => some none
  | t :: ts, i =>
    match deletionTest t with
    | none => none
    | some true => some (some i)
    | some false => scanLost ts (i + 1)

/-- Method `deleteLostTracks` on the track vector: the first track that meets the
test is erased and the method calls itself on the shortened vector, then returns. -/
def deleteLostList {F M : Type} (l : List (track F M)) : Option (List (track F M)) :=
  match h : scanLost l 0 with
  | none => none
  | some none => some l
  | some (some idx) => deleteLostList (l.eraseIdx idx)
termination_by l.length
decreasing_by
  have key : ∀ (ts : List (track F M)) (i j : Nat),
      scanLost ts i = some (some j) → j < i + ts.length := by
    intro ts
    induction ts with
    | nil => intro i j hj; simp [scanLost] at hj
    | cons t ts ih =>
      intro i j hj
      simp only [scanLost] at hj
      split at hj
      · simp at hj
      · simp only [Option.some.injEq] at hj
        subst hj
        simp
      · have := ih (i + 1) j hj
        simp only [List.length_cons]
        omega
  have h1 := key l 0 idx h
  rw [List.length_eraseIdx]
  split <;> omega

/-- Method `deleteLostTracks`. -/
def deleteLostTracks {F M : Type} (s : MotionTracker F M) : Option (MotionTracker F M) :=
  match deleteLostList s.tracks with
  | none => none
  | some l => some { s with tracks := l }

/-- Method `getCentroids`: `pts.resize(tracks.size())` creates one default key point
per track, then every track's centroid is appended with `push_back`. -/
def getCentroids {F M D : Type} (ops : CvOps F M D) (s : MotionTracker F M) : List (KeyPoint F) :=
  List.replicate s.tracks.length { pt := { x := ops.zero, y := ops.zero } }
    ++ s.tracks.map fun t => t.centroid

/-- The point `curPoint(st.at<float>(0), st.at<float>(1))` read from `statePost`. -/
def curPoint {F M : Type} (t : track F M) : Point2f F :=
  { x := t.kalmanFilter.statePost.x, y := t.kalmanFilter.statePost.y }

/-- The inner loop of `assignDetectionsToTracks` over the tracks for one detection:
the first track whose `statePost` position is within `distCutoff` is corrected and
updated and the loop breaks. Returns the tracks and the value of `assigned`. -/
def tryAssign {F M D : Type} (ops : CvOps F M D) (centroid : KeyPoint F) (distCutoff : D) :
    List (track F M) → List (track F M) × Bool
  | [] => ([], false)
  | t :: ts =>
    if ops.normLt (curPoint t) centroid.pt distCutoff then
      ({ t with
          kalmanFilter := ops.correct t.kalmanFilter centroid.pt,
          centroid := centroid,
          age := t.age + 1,
          totalVisibleCount := t.totalVisibleCount + 1,
          consecutiveInvisibleCount := 0,
          flag := true } :: ts, true)
    else
      let r := tryAssign ops centroid distCutoff ts
      (t :: r.1, r.2)

/-- The body of the loop over detections in `assignDetectionsToTracks`. -/
def assignOne {F M D : Type} (ops : CvOps F M D) (distCutoff : D) (s : MotionTracker F M)
    (centroid : KeyPoint F) : MotionTracker F M :=
  if s.tracks.length > 0 then
    let r := tryAssign ops centroid distCutoff s.tracks
    let s1 : MotionTracker F M := { s with tracks := r.1 }
    if !r.2 then createNewTrack ops s1 centroid else s1
  else createNewTrack ops s centroid

/-- The last loop of `assignDetectionsToTracks`: a track whose flag is still false
gets `age++` and `consecutiveInvisibleCount++`. -/
def penalize {F M : Type} (t : track F M) : track F M :=
  if !t.flag then
    { t with age := t.age + 1, consecutiveInvisibleCount := t.consecutiveInvisibleCount + 1 }
  else t

/-- The first loop of `assignDetectionsToTracks`: every flag is set to false. -/
def resetFlags {F M : Type} (s : MotionTracker F M) : MotionTracker F M :=
  { s with tracks := s.tracks.map fun t => { t with flag := false } }

/-- Method `assignDetectionsToTracks`. -/
def assignDetectionsToTracks {F M D : Type} (ops : CvOps F M D) (s : MotionTracker F M)
    (centroids : List (KeyPoint F)) (distCutoff : D) : MotionTracker F M :=
  let s0 := resetFlags s
  let s1 := centroids.foldl (assignOne ops distCutoff) s0
  { s1 with tracks := s1.tracks.map penalize }

/-- The tracker state inside `assignDetectionsToTracks` at the moment the detection
that follows the detections `earlier` is processed. -/
def stateAtDetection {F M D : Type} (ops : CvOps F M D) (s : MotionTracker F M)
    (earlier : List (KeyPoint F)) (distCutoff : D) : MotionTracker F M :=
  earlier.foldl (assignOne ops distCutoff) (resetFlags s)

/-- One processing cycle of `processVideo`: predict, assign, delete. -/
def processCycle {F M D : Type} (ops : CvOps F M D) (s : MotionTracker F M)
    (frame : List (KeyPoint F) × D) : Option (MotionTracker F M) :=
  deleteLostTracks (assignDetectionsToTracks ops (predictNewLocationsOfTracks ops s) frame.1 frame.2)

/-- A finite sequence of processing cycles. -/
def runCycles {F M D : Type} (ops : CvOps F M D) (s : MotionTracker F M) :
    List (List (KeyPoint F) × D) → Option (MotionTracker F M)
  | [] => some s
  | c :: cs =>
    match processCycle ops s c with
    | none => none
    | some s' => runCycles ops s' cs

/-- The number of detections in a sequence of frames. -/
def detectionCount {F D : Type} : List (List (KeyPoint F) × D) → Nat
  | [] => 0
  | f :: fs => f.1.length + detectionCount fs

/-- Bound on the counters: every age is at most `B` and at most `N` ids were
handed out. -/
def CountersBelow {F M : Type} (B N : Nat) (s : MotionTracker F M) : Prop :=
  (∀ t ∈ s.tracks, t.age ≤ B) ∧ s.numTracks ≤ N

/-- An instance of the OpenCV operations on integer coordinates, used to evaluate
concrete runs: the distance test is exact (`norm(a - b) < d` iff `0 < d` and the
squared distance is below `d * d`); prediction keeps the state and correction moves
the position to the measurement. -/
def gridOps : CvOps Int Unit Int :=
  { zero := 0,
    configured := (),
    predict := fun kf => (kf, kf.statePost),
    correct := fun kf z => { kf with statePost := { kf.statePost with x := z.x, y := z.y } },
    normLt := fun a b d => decide (0 < d ∧ (a.x - b.x) * (a.x - b.x) + (a.y - b.y) * (a.y - b.y) < d * d) }

/-- Counter invariant of one track: the age is positive and bounds the visible count. -/
def TrackOk {F M : Type} (t : track F M) : Prop :=
  1 ≤ t.age ∧ t.totalVisibleCount ≤ t.age

/-- Invariant of the tracker states reached by processing cycles: the counters of
every track are in order, every id is below `numTracks`, the ids increase along
the track list, and the ids handed out so far are `0, 1, ..., numTracks - 1`. -/
def StateInv {F M : Type} (s : MotionTracker F M) : Prop :=
  (∀ t ∈ s.tracks, TrackOk t) ∧
  (∀ t ∈ s.tracks, t.id < s.numTracks) ∧
  (s.tracks.map fun t => t.id).Pairwise (fun a b => a < b) ∧
  s.history = List.range s.numTracks

/-- Deletion rule in the words of the specification: a track is deleted if
`consecutiveInvisibleCount >= 20`, or `age < 8` and the visibility ratio
`totalVisibleCount / age`, taken as an exact rational number, is below `0.6`. -/
def specDeletionRule {F M : Type} (t : track F M) : Bool :=
  decide (t.consecutiveInvisibleCount ≥ 20 ∨
    (t.age < 8 ∧ (t.totalVisibleCount : ℚ) / (t.age : ℚ) < 6 / 10))

/-- A track created at `(10, 10)`, matched in the next cycle and missed in the one
after: age 3, seen twice, invisible once. -/
def missedOnceTrack : track Int Unit :=
  { id := 0,
    centroid := { pt := { x := 10, y := 10 } },
    kalmanFilter := { statePost := { x := 10, y := 10, vx := 0, vy := 0, ax := 0, ay := 0 }, mats := () },
    age := 3,
    totalVisibleCount := 2,
    consecutiveInvisibleCount := 1,
    flag := false }

/-- One stable filtering pass in the words of the specification: the deletion test
is applied once to every track, in list order, and exactly the tracks that do not
meet it are kept, in their original order and unchanged. The pass has no result
when the test of some track is undefined (age 0). -/
def stableFilterPass {F M : Type} : List (track F M) → Option (List (track F M))
  | [] => some []
  | t :: ts =>
    match deletionTest t, stableFilterPass ts with
    | some b, some r => some (if b then r else t :: r)
    | _, _ => none

/-- A track that has been invisible for 19 cycles: age 27, seen 8 times. -/
def fadingTrack : track Int Unit :=
  { id := 0,
    centroid := { pt := { x := 10, y := 10 } },
    kalmanFilter := { statePost := { x := 10, y := 10, vx := 0, vy := 0, ax := 0, ay := 0 }, mats := () },
    age := 27,
    totalVisibleCount := 8,
    consecutiveInvisibleCount := 19,
    flag := false }

/-- Relation between a tracker state and a later one: the counter has not decreased
and every track id of the later state is an id of the earlier state or at least
the earlier value of the counter. -/
def IdsExtend {F M : Type} (s s' : MotionTracker F M) : Prop :=
  s.numTracks ≤ s'.numTracks ∧
    ∀ u ∈ s'.tracks, u.id ∈ s.tracks.map (fun t => t.id) ∨ s.numTracks ≤ u.id

/-- The update that `assignDetectionsToTracks` applies to the track a detection is
assigned to (lines 225 to 230). -/
def matched {F M D : Type} (ops : CvOps F M D) (centroid : KeyPoint F) (t : track F M) :
    track F M :=
  { t with
    kalmanFilter := ops.correct t.kalmanFilter centroid.pt,
    centroid := centroid,
    age := t.age + 1,
    totalVisibleCount := t.totalVisibleCount + 1,
    consecutiveInvisibleCount := 0,
    flag := true }

/-- The track `fadingTrack` after one more cycle without a detection. -/
def fadedTrack : track Int Unit :=
  { fadingTrack with age := 28, consecutiveInvisibleCount := 20 }

/-- A tracker state holding only `fadingTrack`. -/
def fadingState : MotionTracker Int Unit :=
  { tracks := [fadingTrack], numTracks := 1, history := [0] }

/-- A frame without detections, cutoff 5. -/
def emptyFrame : List (KeyPoint Int) × Int := ([], 5)

/-- A frame with one detection at (10, 10), cutoff 5. -/
def singleFrame : List (KeyPoint Int) × Int := ([{ pt := { x := 10, y := 10 } }], 5)

/-- The index of the track that the inner loop of `assignDetectionsToTracks` assigns
the detection `centroid` to: the first track within `distCutoff`; the length of the
list when there is none. -/
def hitIndex {F M D : Type} (ops : CvOps F M D) (centroid : KeyPoint F) (distCutoff : D)
    (l : List (track F M)) : Nat :=
  l.findIdx fun t => ops.normLt (curPoint t) centroid.pt distCutoff

/-- The number of detections of `centroids` that the loop of
`assignDetectionsToTracks`, started in state `s`, assigns to the track at index `k`. -/
def matchCount {F M D : Type} (ops : CvOps F M D) (distCutoff : D) (k : Nat) :
    MotionTracker F M → List (KeyPoint F) → Nat
  | _, [] => 0
  | s, c :: cs =>
    (if hitIndex ops c distCutoff s.tracks = k then 1 else 0)
      + matchCount ops distCutoff k (assignOne ops distCutoff s c) cs

/-- The track that `createNewTrack` makes for a detection at (10, 10) on the empty
tracker. -/
def freshTrack : track Int Unit :=
  { id := 0,
    centroid := { pt := { x := 0, y := 0 } },
    kalmanFilter := { statePost := { x := 10, y := 10, vx := 0, vy := 0, ax := 0, ay := 0 }, mats := () },
    age := 1,
    totalVisibleCount := 1,
    consecutiveInvisibleCount := 0,
    flag := true }

/-- A tracker state holding only `freshTrack`. -/
def freshState : MotionTracker Int Unit :=
  { tracks := [freshTrack], numTracks := 1, history := [0] }

/-- A frame with two detections at (10, 10), cutoff 5. -/
def doubleFrame : List (KeyPoint Int) × Int :=
  ([{ pt := { x := 10, y := 10 } }, { pt := { x := 10, y := 10 } }], 5)

/-- Outcome of running a recursive method under a bound on the depth of the
recursion: it finished with a result, it ran into undefined behaviour, or it would
have needed a deeper recursion than the bound allows. -/
inductive Run (α : Type) where
  | finished (a : α)
  | undefined
  | tooDeep
deriving DecidableEq

/-- Method `deleteLostTracks` on the track vector with its recursion spelled out:
`depth` bounds the number of nested invocations (the outermost one included). The
result is the final vector together with the vectors on which the recursive calls
were made, outermost call first. -/
def deleteLostCalls {F M : Type} :
    Nat → List (track F M) → Run (List (track F M) × List (List (track F M)))
  | 0, _ => Run.tooDeep
  | depth + 1, l =>
    match scanLost l 0 with
    | none => Run.undefined
    | some none => Run.finished (l, [])
    | some (some idx) =>
      match deleteLostCalls depth (l.eraseIdx idx) with
      | Run.finished (r, calls) => Run.finished (r, l.eraseIdx idx :: calls)
      | Run.undefined => Run.undefined
      | Run.tooDeep => Run.tooDeep

/-- A frame with a detection at (14, 10) followed by one at (6, 10), cutoff 5: both
are at distance 4 from (10, 10) and at distance 8 from each other. -/
def driftFrame : List (KeyPoint Int) × Int :=
  ([{ pt := { x := 14, y := 10 } }, { pt := { x := 6, y := 10 } }], 5)

/-- A frame with one detection at (30, 10), cutoff 5. -/
def farFrame : List (KeyPoint Int) × Int := ([{ pt := { x := 30, y := 10 } }], 5)

/-- A detection at (10, 10). -/
def pointA : KeyPoint Int := { pt := { x := 10, y := 10 } }

/-- A detection at (11, 9). -/
def pointB : KeyPoint Int := { pt := { x := 11, y := 9 } }

/-- The track `freshTrack` after the detection at (14, 10) was assigned to it. -/
def driftedTrack : track Int Unit :=
  { id := 0,
    centroid := { pt := { x := 14, y := 10 } },
    kalmanFilter := { statePost := { x := 14, y := 10, vx := 0, vy := 0, ax := 0, ay := 0 }, mats := () },
    age := 2,
    totalVisibleCount := 2,
    consecutiveInvisibleCount := 0,
    flag := true }

/-- The track that `createNewTrack` makes for a detection at (6, 10) when one id has
been handed out. -/
def strayTrack : track Int Unit :=
  { id := 1,
    centroid := { pt := { x := 0, y := 0 } },
    kalmanFilter := { statePost := { x := 6, y := 10, vx := 0, vy := 0, ax := 0, ay := 0 }, mats := () },
    age := 1,
    totalVisibleCount := 1,
    consecutiveInvisibleCount := 0,
    flag := true }

/-- Number of values of the type `unsigned long` of the counters `id`, `age`,
`totalVisibleCount`, `consecutiveInvisibleCount` and `numTracks` in the PC program:
the type has 32 bits with the compiler of its Windows target (`winsock2.h`). -/
def counterRange : Nat := 4294967296

namespace Wrap

/-- The operator `++` on an `unsigned long` counter that has `range` values:
unsigned arithmetic wraps around. -/
def increment (range n : Nat) : Nat := (n + 1) % range

/-- Method `createNewTrack` with the counter `numTracks` wrapping around at `range`. -/
def createNewTrack {F M D : Type} (range : Nat) (ops : CvOps F M D) (s : MotionTracker F M)
    (centroid : KeyPoint F) : MotionTracker F M :=
  let kf : KalmanFilter F M :=
    { statePost :=
        { x := centroid.pt.x, y := centroid.pt.y, vx := ops.zero, vy := ops.zero, ax := ops.zero, ay := ops.zero },
      mats := ops.configured }
  let newTrack : track F M :=
    { id := s.numTracks,
      centroid := { pt := { x := ops.zero, y := ops.zero } },
      kalmanFilter := kf,
      age := 1,
      totalVisibleCount := 1,
      consecutiveInvisibleCount := 0,
      flag := true }
  { tracks := s.tracks ++ [newTrack], numTracks := increment range s.numTracks,
    history := s.history ++ [s.numTracks] }

/-- The inner loop of `assignDetectionsToTracks` over the tracks for one detection,
with `age++` and `totalVisibleCount++` wrapping around at `range`. -/
def tryAssign {F M D : Type} (range : Nat) (ops : CvOps F M D) (centroid : KeyPoint F)
    (distCutoff : D) : List (track F M) → List (track F M) × Bool
  | [] => ([], false)
  | t :: ts =>
    if ops.normLt (curPoint t) centroid.pt distCutoff then
      ({ t with
          kalmanFilter := ops.correct t.kalmanFilter centroid.pt,
          centroid := centroid,
          age := increment range t.age,
          totalVisibleCount := increment range t.totalVisibleCount,
          consecutiveInvisibleCount := 0,
          flag := true } :: ts, true)
    else
      let r := tryAssign range ops centroid distCutoff ts
      (t :: r.1, r.2)

/-- The body of the loop over detections in `assignDetectionsToTracks`, counters
wrapping around at `range`. -/
def assignOne {F M D : Type} (range : Nat) (ops : CvOps F M D) (distCutoff : D)
    (s : MotionTracker F M) (centroid : KeyPoint F) : MotionTracker F M :=
  if s.tracks.length > 0 then
    let r := tryAssign range ops centroid distCutoff s.tracks
    let s1 : MotionTracker F M := { s with tracks := r.1 }
    if !r.2 then createNewTrack range ops s1 centroid else s1
  else createNewTrack range ops s centroid

/-- The last loop of `assignDetectionsToTracks`, with `age++` and
`consecutiveInvisibleCount++` wrapping around at `range`. -/
def penalize {F M : Type} (range : Nat) (t : track F M) : track F M :=
  if !t.flag then
    { t with age := increment range t.age,
             consecutiveInvisibleCount := increment range t.consecutiveInvisibleCount }
  else t

/-- Method `assignDetectionsToTracks`, counters wrapping around at `range`. -/
def assignDetectionsToTracks {F M D : Type} (range : Nat) (ops : CvOps F M D)
    (s : MotionTracker F M) (centroids : List (KeyPoint F)) (distCutoff : D) : MotionTracker F M :=
  let s0 := resetFlags s
  let s1 := centroids.foldl (assignOne range ops distCutoff) s0
  { s1 with tracks := s1.tracks.map (penalize range) }

/-- One processing cycle of `processVideo` (predict, assign, delete), counters
wrapping around at `range`. `predictNewLocationsOfTracks` and `deleteLostTracks`
increment no counter. -/
def processCycle {F M D : Type} (range : Nat) (ops : CvOps F M D) (s : MotionTracker F M)
    (frame : List (KeyPoint F) × D) : Option (MotionTracker F M) :=
  deleteLostTracks
    (assignDetectionsToTracks range ops (predictNewLocationsOfTracks ops s) frame.1 frame.2)

/-- A finite sequence of processing cycles, counters wrapping around at `range`. -/
def runCycles {F M D : Type} (range : Nat) (ops : CvOps F M D) (s : MotionTracker F M) :
    List (List (KeyPoint F) × D) → Option (MotionTracker F M)
  | [] => some s
  | c :: cs =>
    match processCycle range ops s c with
    | none => none
    | some s' => runCycles range ops s' cs

end Wrap

/-- Bound on all counters of a tracker state. -/
def Fits {F M : Type} (B : Nat) (s : MotionTracker F M) : Prop :=
  (∀ t ∈ s.tracks, t.age ≤ B ∧ t.totalVisibleCount ≤ B ∧ t.consecutiveInvisibleCount ≤ B) ∧
    s.numTracks ≤ B

/-- A track of the integer-grid instance `gridOps`: its filter stands at `position`
with zero velocity and acceleration. -/
def gridTrack (id : Nat) (centroid position : Point2f Int) (age visible invisible : Nat)
    (flag : Bool) : track Int Unit :=
  { id := id,
    centroid := { pt := centroid },
    kalmanFilter :=
      { statePost := { x := position.x, y := position.y, vx := 0, vy := 0, ax := 0, ay := 0 },
        mats := () },
    age := age,
    totalVisibleCount := visible,
    consecutiveInvisibleCount := invisible,
    flag := flag }

/-- A tracker state with exactly one track. -/
def soloState (t : track Int Unit) (numTracks : Nat) (history : List Nat) :
    MotionTracker Int Unit :=
  { tracks := [t], numTracks := numTracks, history := history }

/-- The point (10, 10), where the detection of `singleFrame` lies. -/
def spotA : Point2f Int := { x := 10, y := 10 }

/-- The point (30, 10), where the detection of `farFrame` lies. -/
def spotB : Point2f Int := { x := 30, y := 10 }

/-- The point (0, 0) of a default-constructed key point. -/
def origin : Point2f Int := { x := 0, y := 0 }

/-- The point of the detection in cycle `i` of a run whose detections alternate
between (10, 10) and (30, 10). -/
def altSpot (i : Nat) : Point2f Int := if i % 2 = 0 then spotA else spotB

/-- The frame of cycle `i` of the alternating run: one detection at `altSpot i`,
cutoff 5. -/
def altFrame (i : Nat) : List (KeyPoint Int) × Int := ([{ pt := altSpot i }], 5)

/-- The frames of the cycles `i`, `i + 1`, ..., `i + n - 1` of the alternating run. -/
def altFrames : Nat → Nat → List (List (KeyPoint Int) × Int)
  | _, 0 => []
  | i, n + 1 => altFrame i :: altFrames (i + 1) n

/-- The tracker state after `k >= 1` cycles of the alternating run with counters
that have `range` values: the track created in cycle `k`, `k` ids handed out. -/
def altState (range k : Nat) : MotionTracker Int Unit :=
  soloState (gridTrack ((k - 1) % range) origin (altSpot (k - 1)) 1 1 0 true) (k % range)
    ((List.range k).map fun i => i % range)

/-- A frame with three detections at (10, 10), cutoff 5. -/
def tripleFrame : List (KeyPoint Int) × Int :=
  ([{ pt := spotA }, { pt := spotA }, { pt := spotA }], 5)

/-- A frame with a detection at (30, 10) followed by one at (10, 10), cutoff 5. -/
def bothFrame : List (KeyPoint Int) × Int := ([{ pt := spotB }, { pt := spotA }], 5)

/-- A tracker state without tracks in which `numTracks` ids have been handed out. -/
def vacantState (numTracks : Nat) (history : List Nat) : MotionTracker Int Unit :=
  { tracks := [], numTracks := numTracks, history := history }

end Tracking

namespace Capture

/-- Value of `unsigned int imgSize = camSettings.height * camSettings.width * 3;`
(32-bit unsigned arithmetic). -/
def imgSize (height width : Nat) : Nat := (height * width * 3) % 2 ^ 32

/-- How the receive loop, or a call of `VideoCapturePi::read`, ends: it runs through
and has a result; it calls `exit(1)`, which terminates the process; it executes
`return false`; it waits in `recv` for ever (no further result is supplied); it
stores outside `socketBuffer` (undefined behaviour); or the loop has not ended when
the supplied number of iterations is used up. `exited` and `returnedFalse` carry the
results of the `recv` calls that were not made. -/
inductive Outcome (σ : Type) where
  | returned (result : σ)
  | exited (rest : List Int)
  | returnedFalse (rest : List Int)
  | blocked
  | undefined
  | outOfFuel
deriving DecidableEq

/-- The `n` bytes of the TCP stream that start at position `pos`. -/
def chunk {β : Type} (stream : Nat → β) (pos n : Nat) : List β :=
  (List.range n).map fun j => stream (pos + j)

/-- Storing `bytes` into the buffer from `offset` on, as `recv` and `memcpy` do;
writing past the end of the buffer is undefined behaviour. -/
def storeAt {β : Type} (buf : List β) (offset : Nat) (bytes : List β) : Option (List β) :=
  if offset + bytes.length ≤ buf.length then
    some (buf.take offset ++ bytes ++ buf.drop (offset + bytes.length))
  else none

/-- State at the end of the raw receive loop: the loop index `i`, the number of
stream bytes consumed, `socketBuffer`, the `recv` calls made (buffer offset and
requested length, as `int`), and the results of `recv` calls not made. -/
structure RawDone (β : Type) where
  i : Nat
  received : Nat
  buffer : List β
  requests : List (Nat × Int)
  rest : List Int
deriving DecidableEq

/-- The raw receive loop of `VideoCapturePi::read`,
`for (unsigned int i = 0; i < imgSize; i += iResult)`, from loop index `i`.
The list holds the values that the successive `recv` calls return; a positive
value `r` stores the next `r` bytes of the stream at `socketBuffer + i`. The
requested length is `imgSize - i`, passed as `int`. -/
def rawRecvLoop {β : Type} (imgSize : Nat) (stream : Nat → β) :
    List Int → Nat → Nat → List β → List (Nat × Int) → Outcome (RawDone β)
  | [], i, pos, buf, reqs =>
    if i < imgSize then Outcome.blocked
    else Outcome.returned { i := i, received := pos, buffer := buf, requests := reqs, rest := [] }
  | r :: rs, i, pos, buf, reqs =>
    if i < imgSize then
      if 0 < r then
        match storeAt buf i (chunk stream pos r.toNat) with
        | none => Outcome.undefined
        | some buf' =>
          rawRecvLoop imgSize stream rs ((i + r.toNat) % 2 ^ 32) (pos + r.toNat) buf'
            (reqs ++ [(i, Tracking.toInt32 (imgSize - i))])
      else if r = 0 then Outcome.exited rs
      else Outcome.returnedFalse rs
    else
      Outcome.returned { i := i, received := pos, buffer := buf, requests := reqs, rest := r :: rs }

/-- A sequence of `recv` results in which every call that the loop makes from loop
index `i` on returns between 1 and the number of bytes requested. -/
def ValidResults (imgSize : Nat) : Nat → List Int → Prop
  | _, [] => True
  | i, r :: rs =>
    i < imgSize →
      (1 ≤ r ∧ r ≤ Tracking.toInt32 (imgSize - i) ∧ ValidResults imgSize (i + r.toNat) rs)

/-- The conversion loop of `read` (lines 319 to 325): pixel number `p` in row-major
order is made of the bytes `3p`, `3p + 1`, `3p + 2` of `socketBuffer`. Reading
outside the buffer, and overflow of `int ptr`, are undefined behaviour. -/
def toImage {β : Type} (height width : Nat) (buf : List β) : Option (List (β × β × β)) :=
  if 2 ^ 31 ≤ height * width * 3 then none
  else
    (List.range (height * width)).mapM fun p =>
      match buf[3 * p]?, buf[3 * p + 1]?, buf[3 * p + 2]? with
      | some b, some g, some r => some (b, g, r)
      | _, _, _ => none

/-- Result of a completed call of `read`: the returned boolean, the image, the
stream position, `socketBuffer`, and the results of `recv` calls not made. -/
structure ReadDone (β Img : Type) where
  ok : Bool
  image : Img
  received : Nat
  buffer : List β
  rest : List Int
deriving DecidableEq

/-- The raw branch of `VideoCapturePi::read` (`codecName == "none"`): the receive
loop, the conversion loop, `return true`. -/
def readRaw {β : Type} (height width : Nat) (stream : Nat → β) (results : List Int) (pos : Nat)
    (buf : List β) : Outcome (ReadDone β (List (β × β × β))) :=
  match rawRecvLoop (imgSize height width) stream results 0 pos buf [] with
  | Outcome.returned d =>
    match toImage height width d.buffer with
    | none => Outcome.undefined
    | some img =>
      Outcome.returned
        { ok := true, image := img, received := d.received, buffer := d.buffer, rest := d.rest }
  | Outcome.exited rest => Outcome.exited rest
  | Outcome.returnedFalse rest => Outcome.returnedFalse rest
  | Outcome.blocked => Outcome.blocked
  | Outcome.undefined => Outcome.undefined
  | Outcome.outOfFuel => Outcome.outOfFuel

/-- The decoder object `vidDecoder` as far as `read` uses it: the flag `isFree` and
`decode(rcvPkt, image)`, which yields the decoder after the call and the image when
it returns true; `none` stands for the `exit(1)` calls inside `decodePacket`. The
FFmpeg parsing and decoding behind it are not modelled. -/
structure DecoderOps (Dec β Img : Type) where
  isFree : Dec → Bool
  decode : Dec → List β → Option (Dec × Option Img)

/-- The compressed branch of `VideoCapturePi::read` (`codecName != "none"`), the loop
`do ... while (!validFrame)`, for at most `fuel` iterations. `iResult` keeps its
value when `recv` is not called; `image` is the caller's image. -/
def readCompressed {Dec β Img : Type} (dops : DecoderOps Dec β Img) (imgSize : Nat)
    (stream : Nat → β) :
    Nat → List Int → Int → Nat → List β → Dec → Outcome (ReadDone β Img × Dec)
  | 0, _, _, _, _, _ => Outcome.outOfFuel
  | fuel + 1, results, iResult, pos, buf, dec =>
    if dops.isFree dec then
      match results with
      | [] => Outcome.blocked
      | r :: rs =>
        if 0 < r then
          match storeAt buf 0 (chunk stream pos r.toNat) with
          | none => Outcome.undefined
          | some buf' =>
            match dops.decode dec (buf'.take r.toNat) with
            | none => Outcome.exited rs
            | some (dec', some img) =>
              Outcome.returned
                ({ ok := true, image := img, received := pos + r.toNat, buffer := buf', rest := rs },
                  dec')
            | some (dec', none) =>
              readCompressed dops imgSize stream fuel rs r (pos + r.toNat) buf' dec'
        else if r = 0 then Outcome.exited rs
        else Outcome.returnedFalse rs
    else
      match dops.decode dec (buf.take iResult.toNat) with
      | none => Outcome.exited results
      | some (dec', some img) =>
        Outcome.returned
          ({ ok := true, image := img, received := pos, buffer := buf, rest := results }, dec')
      | some (dec', none) => readCompressed dops imgSize stream fuel results iResult pos buf dec'

/-- The bytes of the string `"none"`. -/
def noneName : List Nat := [110, 111, 110, 101]

/-- The field `camSettings.codec` as both constructors fill it:
`memset(camSettings.codec, 0, 20)` then
`memcpy(camSettings.codec, codecName.c_str(), codecName.length())`. A byte is a
natural number; 0 is the zero byte. Copying more than 20 bytes writes past the
array. -/
def codecField (codecName : List Nat) : Option (List Nat) :=
  storeAt (List.replicate 20 0) 0 codecName

/-- The server's `std::string codec(camSettings.codec)`: the bytes of the field up to
the first zero byte; without a zero byte in the field the constructor reads past
the array. -/
def cString (field : List Nat) : Option (List Nat) :=
  if 0 ∈ field then some (field.takeWhile fun b => b != 0) else none

/-- A decoder that is always free and never yields a frame, used to evaluate the
compressed branch on concrete inputs. -/
def idleDecoder : DecoderOps Unit Nat Unit :=
  { isFree := fun _ => true, decode := fun d _ => some (d, none) }

end Capture

namespace Server

/-- Record `struct cameraSettings`; `codec` holds the 20 bytes of `char codec[20]`. -/
structure cameraSettings where
  height : Nat
  width : Nat
  fps : Nat
  codec : List Nat
deriving DecidableEq

/-- The value of `camSettings` before the first connection (`USEVIDEO` undefined,
`USECOMPRESSION` defined): 480 x 640 at 30 fps, codec `"mpeg2video"` zero padded. -/
def initialSettings : cameraSettings :=
  { height := 480,
    width := 640,
    fps := 30,
    codec := [109, 112, 101, 103, 50, 118, 105, 100, 101, 111, 0, 0, 0, 0, 0, 0, 0, 0, 0, 0] }

/-- What the server does to the camera, the codec and the client socket while it
handles a connection, in order. -/
inductive Action where
  | setFps (value : Nat)
  | setWidth (value : Nat)
  | setHeight (value : Nat)
  | newEncoder (codec : List Nat) (width height fps : Nat)
  | startEncoderThread
  | sendPacket
  | sendFrame
  | closeClient
  | joinEncoder
deriving DecidableEq

/-- What the environment does in one iteration of the streaming loop: whether
`vidCam.read` delivers an empty frame, whether the loop
`do qFrame.enQueue(frame) while (!qSuccess)` ever succeeds, whether
`qPkt.deQueue(sendPkt)` finds a packet (that depends on the encoder thread), and
the value that `send` returns. -/
structure Iteration where
  frameEmpty : Bool
  frameQueued : Bool
  packetReady : Bool
  sendResult : Int
deriving DecidableEq

/-- What the environment does during one pass of the server loop `for (;;)`: the
values returned by `accept` and by the handshake `read`, the contents of
`camSettings` after a `read` that returned a positive value, `vidCam.isOpened()`,
the results of the three `vidCam.set` calls, whether `av_packet_alloc` succeeds, and
the iterations of the streaming loop. -/
structure Connection where
  acceptResult : Int
  handshakeResult : Int
  received : cameraSettings
  camOpened : Bool
  setFpsOk : Bool
  setWidthOk : Bool
  setHeightOk : Bool
  packetAllocOk : Bool
  iterations : List Iteration
deriving DecidableEq

/-- How the streaming loop ends: `clientStatus > 0` fails and the loop is left; a
blank frame makes `main` execute `return 1`; the frame queue loop spins for ever; or the loop
is still running when the described iterations are used up. -/
inductive LoopEnd where
  | clientGone
  | blankFrame
  | spinning
  | running
deriving DecidableEq

/-- How one pass of the server loop ends: the loop goes back to `accept` with the
current `camSettings`; `main` returns, or `exit` is called, with a status, which
ends the process; `main` returns while the encoder thread `m_encoderThread` is
still joinable, so that the destructor of `std::thread` calls `std::terminate` and
the process aborts; the server spins for ever in the frame queue loop; the
streaming loop is still running; or the behaviour is undefined (no zero byte in the
codec field). -/
inductive Next where
  | backToAccept (cam : cameraSettings)
  | processExit (status : Nat)
  | processAbort
  | spinning
  | streaming
  | undefined
deriving DecidableEq

/-- The streaming loop `do ... while (clientStatus > 0)` of `main`, from the value
of `clientStatus` on. -/
def streamLoop (codecIsNone : Bool) : List Iteration → Int → List Action × LoopEnd
  | [], _ => ([], LoopEnd.running)
  | it :: its, clientStatus =>
    if it.frameEmpty then ([], LoopEnd.blankFrame)
    else if !it.frameQueued then ([], LoopEnd.spinning)
    else
      let step : List Action × Int :=
        if !codecIsNone then
          if it.packetReady then ([Action.sendPacket], it.sendResult) else ([], clientStatus)
        else ([Action.sendFrame], it.sendResult)
      if step.2 > 0 then
        let r := streamLoop codecIsNone its step.2
        (step.1 ++ r.1, r.2)
      else (step.1, LoopEnd.clientGone)

/-- One pass of the server loop `for (;;)` of `main` (lines 196 to 333), starting
with the value `cam` of `camSettings`: accept, handshake read, camera setup, codec
setup, streaming, teardown. -/
def handleConnection (cam : cameraSettings) (conn : Connection) : List Action × Next :=
  if conn.acceptResult < 0 then ([], Next.processExit 1)
  else if conn.handshakeResult < 0 then ([], Next.processExit 1)
  else
    let cam' := if conn.handshakeResult > 0 then conn.received else cam
    match Capture.cString cam'.codec with
    | none => ([], Next.undefined)
    | some codec =>
      if !conn.camOpened then ([], Next.processExit 1)
      else if !conn.setFpsOk then ([Action.setFps cam'.fps], Next.processExit 1)
      else if !conn.setWidthOk then
        ([Action.setFps cam'.fps, Action.setWidth cam'.width], Next.processExit 1)
      else if !conn.setHeightOk then
        ([Action.setFps cam'.fps, Action.setWidth cam'.width, Action.setHeight cam'.height],
          Next.processExit 1)
      else
        let camera := [Action.setFps cam'.fps, Action.setWidth cam'.width, Action.setHeight cam'.height]
        let codecIsNone := decide (codec = Capture.noneName)
        if !codecIsNone && !conn.packetAllocOk then
          (camera ++ [Action.newEncoder codec cam'.width cam'.height cam'.fps], Next.processExit 1)
        else
          let setup :=
            if codecIsNone then camera
            else
              camera ++ [Action.newEncoder codec cam'.width cam'.height cam'.fps, Action.startEncoderThread]
          let r := streamLoop codecIsNone conn.iterations conn.handshakeResult
          match r.2 with
          | LoopEnd.clientGone =>
            (setup ++ r.1 ++ [Action.closeClient] ++ (if codecIsNone then [] else [Action.joinEncoder]),
              Next.backToAccept cam')
          | LoopEnd.blankFrame =>
            (setup ++ r.1, if codecIsNone then Next.processExit 1 else Next.processAbort)
          | LoopEnd.spinning => (setup ++ r.1, Next.spinning)
          | LoopEnd.running => (setup ++ r.1, Next.streaming)

/-- A connection on which the handshake `read` fails with -1. -/
def failedHandshake : Connection :=
  { acceptResult := 4,
    handshakeResult := -1,
    received := initialSettings,
    camOpened := true,
    setFpsOk := true,
    setWidthOk := true,
    setHeightOk := true,
    packetAllocOk := true,
    iterations := [] }

/-- A connection that the client closes before sending its settings: the handshake
`read` returns 0; in the one iteration of the streaming loop no packet is ready. -/
def closedHandshake : Connection :=
  { acceptResult := 4,
    handshakeResult := 0,
    received := initialSettings,
    camOpened := true,
    setFpsOk := true,
    setWidthOk := true,
    setHeightOk := true,
    packetAllocOk := true,
    iterations := [{ frameEmpty := false, frameQueued := true, packetReady := false, sendResult := 0 }] }

end Server

namespace CircularFrameBuf

theorem tmod_pred_of_pos (f C : Int) (h1 : 1 ≤ f) (h2 : f < C) :
    Int.tmod (f - 1) (C - 1) = f - 1 :=
  Int.tmod_eq_of_lt (by omega) (by omega)

theorem tmod_neg_one_nat (n : Nat) : Int.tmod (-1) (n : Int) = -((1 % n : Nat) : Int) := rfl

theorem tmod_neg_two_nat (n : Nat) : Int.tmod (-2) (n : Int) = -((2 % n : Nat) : Int) := rfl

theorem tmod_neg_one (C : Int) (h : 3 ≤ C) : Int.tmod (-1) (C - 1) = -1 := by
  obtain ⟨n, hn⟩ := Int.eq_ofNat_of_zero_le (show 0 ≤ C - 1 by omega)
  rw [hn, tmod_neg_one_nat, Nat.mod_eq_of_lt (by omega)]
  rfl

theorem tmod_neg_two_ne (C : Int) (h : 2 ≤ C) : Int.tmod (-2) (C - 1) ≠ -1 := by
  obtain ⟨n, hn⟩ := Int.eq_ofNat_of_zero_le (show 0 ≤ C - 1 by omega)
  rw [hn, tmod_neg_two_nat]
  rcases (by omega : n = 1 ∨ n = 2 ∨ 3 ≤ n) with h | h | h
  · subst h; decide
  · subst h; decide
  · rw [Nat.mod_eq_of_lt (by omega)]; decide
theorem drop_set_append_take_set {α : Type} (b : List α) (f r : Nat) (x : α)
    (hrf : r + 1 < f) (hf : f ≤ b.length) :
    (b.set (r + 1) x).drop f ++ (b.set (r + 1) x).take (r + 1 + 1)
      = (b.drop f ++ b.take (r + 1)) ++ [x] := by
  apply List.ext_getElem?
  intro n
  simp only [List.getElem?_take, List.getElem?_drop, List.getElem?_set, List.getElem?_append,
    List.length_take, List.length_drop, List.length_set, List.length_append]
  have hm : min (r + 1) b.length = r + 1 := by omega
  rw [hm]
  by_cases h1 : n < b.length - f
  · have h3 : ¬ (r + 1 = f + n) := by omega
    have h4 : n < b.length - f + (r + 1) := by omega
    simp [h1, h3, h4]
  · by_cases h2 : n < b.length - f + (r + 1)
    · have h5 : n - (b.length - f) < r + 1 + 1 := by omega
      have h6 : ¬ (r + 1 = n - (b.length - f)) := by omega
      have h7 : n - (b.length - f) < r + 1 := by omega
      simp [h1, h2, h5, h6, h7]
    · by_cases h8 : n = b.length - f + (r + 1)
      · have h9 : n - (b.length - f) = r + 1 := by omega
        have h10 : r + 1 < b.length := by omega
        simp [h1, h2, h9, h10, h8]
      · have h11 : ¬ (n - (b.length - f) < r + 1 + 1) := by omega
        simp [h1, h2, h11]
        omega

theorem drop_set_zero_append {α : Type} (b : List α) (f : Nat) (x : α)
    (hf : 1 ≤ f) (hlen : f < b.length) :
    (b.set 0 x).drop f ++ (b.set 0 x).take (0 + 1)
      = (b.drop f).take (b.length - 1 - f + 1) ++ [x] := by
  apply List.ext_getElem?
  intro n
  simp only [List.getElem?_take, List.getElem?_drop, List.getElem?_set, List.getElem?_append,
    List.length_take, List.length_drop, List.length_set, List.length_append]
  have hm : min (b.length - 1 - f + 1) (b.length - f) = b.length - f := by omega
  rw [hm]
  by_cases h1 : n < b.length - f
  · have h3 : ¬ (0 = f + n) := by omega
    have h4 : n < b.length - 1 - f + 1 := by omega
    simp [h1, h3, h4]
  · by_cases h8 : n = b.length - f
    · have h9 : n - (b.length - f) = 0 := by omega
      have h10 : 0 < b.length := by omega
      simp [h1, h9, h10]
    · have h11 : ¬ (n - (b.length - f) < 0 + 1) := by omega
      simp [h1, h11]
      omega

theorem take_one_set_zero {α : Type} (b : List α) (x : α) (h : 0 < b.length) :
    ((b.set 0 x).drop 0).take 1 = [x] := by
  cases b with
  | nil => simp at h
  | cons a t => simp

theorem take_drop_set_succ {α : Type} (b : List α) (f r : Nat) (x : α)
    (hfr : f ≤ r) (hr : r + 1 < b.length) :
    ((b.set (r + 1) x).drop f).take (r + 1 - f + 1) = (b.drop f).take (r - f + 1) ++ [x] := by
  apply List.ext_getElem?
  intro n
  simp only [List.getElem?_take, List.getElem?_drop, List.getElem?_set, List.getElem?_append,
    List.length_take, List.length_drop]
  have hm : min (r - f + 1) (b.length - f) = r - f + 1 := by omega
  rw [hm]
  by_cases h1 : n < r - f + 1
  · have h2 : n < r + 1 - f + 1 := by omega
    have h3 : ¬ (r + 1 = f + n) := by omega
    simp [h1, h2, h3]
  · by_cases h4 : n = r - f + 1
    · subst h4
      have h5 : r + 1 = f + (r - f + 1) := by omega
      have h6 : r - f + 1 < r + 1 - f + 1 := by omega
      simp [h6, ← h5, hr]
    · have h7 : ¬ (n < r + 1 - f + 1) := by omega
      have h8 : n - (r - f + 1) ≠ 0 := by omega
      simp [h1, h7]
      omega

theorem contents_empty {α : Type} (r s : Int) (b : List α) :
    contents { rear := r, front := -1, size := s, buffer := b } = [] := by
  simp [contents]

theorem contents_le {α : Type} (f r : Nat) (s : Int) (b : List α) (h : f ≤ r) :
    contents { rear := (r : Int), front := (f : Int), size := s, buffer := b }
      = (b.drop f).take (r - f + 1) := by
  have h1 : ¬ ((f : Int) = -1) := by omega
  have h2 : (f : Int) ≤ (r : Int) := by omega
  have h3 : ((r : Int) - (f : Int) + 1).toNat = r - f + 1 := by omega
  simp [contents, h1, h2, h3]

theorem contents_gt {α : Type} (f r : Nat) (s : Int) (b : List α) (h : r < f) :
    contents { rear := (r : Int), front := (f : Int), size := s, buffer := b }
      = b.drop f ++ b.take (r + 1) := by
  have h1 : ¬ ((f : Int) = -1) := by omega
  have h2 : ¬ ((f : Int) ≤ (r : Int)) := by omega
  have h3 : ((r : Int) + 1).toNat = r + 1 := by omega
  simp [contents, h1, h2, h3]

theorem enQueue_fresh {α : Type} (C : Nat) (hC : 2 ≤ C) (b : List α) (hb : b.length = C) (x : α) :
    enQueue { rear := -1, front := -1, size := (C : Int), buffer := b } x
      = some (true, { rear := 0, front := 0, size := (C : Int), buffer := b.set 0 x }) := by
  have h1 : ¬ ((C : Int) - 1 = 0) := by omega
  have h2 := tmod_neg_two_ne (C : Int) (by omega)
  have h3 : (0 : Int) < (b.length : Int) := by omega
  have h4 : ((-1 : Int) - 1) = -2 := by omega
  simp [enQueue, writeAt, h1, h3, h4, Ne.symm h2]

theorem enQueue_occupied {α : Type} (C : Nat) (hC : 3 ≤ C) (f r : Nat) (hf : f < C) (hr : r < C)
    (b : List α) (hb : b.length = C) (x : α) :
    ((contents { rear := (r : Int), front := (f : Int), size := (C : Int), buffer := b }).length = C ∧
      enQueue { rear := (r : Int), front := (f : Int), size := (C : Int), buffer := b } x
        = some (false, { rear := (r : Int), front := (f : Int), size := (C : Int), buffer := b })) ∨
    ((contents { rear := (r : Int), front := (f : Int), size := (C : Int), buffer := b }).length < C ∧
      ∃ (r' : Nat) (b' : List α),
        enQueue { rear := (r : Int), front := (f : Int), size := (C : Int), buffer := b } x
          = some (true, { rear := (r' : Int), front := (f : Int), size := (C : Int), buffer := b' }) ∧
        r' < C ∧ b'.length = C ∧
        contents { rear := (r' : Int), front := (f : Int), size := (C : Int), buffer := b' }
          = contents { rear := (r : Int), front := (f : Int), size := (C : Int), buffer := b } ++ [x]) := by
  have hsz : ¬ ((C : Int) - 1 = 0) := by omega
  have hfm : ¬ ((f : Int) = -1) := by omega
  rcases Nat.eq_zero_or_pos f with hf0 | hfpos
  · -- front = 0
    subst hf0
    by_cases hfull : r = C - 1
    · left
      refine ⟨?_, ?_⟩
      · rw [contents_le 0 r _ b (by omega)]; simp; omega
      · have : (r : Int) = (C : Int) - 1 := by omega
        simp [enQueue, this]
    · right
      refine ⟨?_, r + 1, b.set (r + 1) x, ?_, by omega, by simp [hb], ?_⟩
      · rw [contents_le 0 r _ b (by omega)]; simp; omega
      · have h1 : ¬ ((r : Int) = (C : Int) - 1) := by omega
        have h2 : Int.tmod (((0 : Nat) : Int) - 1) ((C : Int) - 1) = -1 := by
          simpa using tmod_neg_one (C : Int) (by omega)
        have h3 : ¬ ((r : Int) = -1) := by omega
        have h4 : (r : Int) + 1 < (b.length : Int) := by omega
        have h5 : (0 : Int) ≤ (r : Int) + 1 := by omega
        have h6 : ((r : Int) + 1).toNat = r + 1 := by omega
        simp only [enQueue, h1, h2, h3, h4, h5, h6, hsz, writeAt]
        simp
      · rw [contents_le 0 (r + 1) _ _ (by omega), contents_le 0 r _ b (by omega)]
        exact take_drop_set_succ b 0 r x (by omega) (by omega)
  · -- front ≥ 1
    have hnz : ¬ ((f : Int) = 0) := by omega
    have hmod : Int.tmod ((f : Int) - 1) ((C : Int) - 1) = (f : Int) - 1 :=
      tmod_pred_of_pos _ _ (by omega) (by omega)
    by_cases hfull : r + 1 = f
    · left
      refine ⟨?_, ?_⟩
      · rw [contents_gt f r _ b (by omega)]; simp; omega
      · have : (r : Int) = (f : Int) - 1 := by omega
        simp [enQueue, hnz, hsz, hmod, this]
    · right
      have hne : ¬ ((r : Int) = (f : Int) - 1) := by omega
      by_cases hlast : r = C - 1
      · -- wrap: rear becomes 0
        refine ⟨?_, 0, b.set 0 x, ?_, by omega, by simp [hb], ?_⟩
        · rw [contents_le f r _ b (by omega)]; simp; omega
        · have h1 : (r : Int) = (C : Int) - 1 := by omega
          have h3 : (0 : Int) < (b.length : Int) := by omega
          have h4 : ¬ ((C : Int) - 1 = (f : Int) - 1) := by omega
          simp [enQueue, hnz, hsz, hmod, hfm, h1, h3, h4, writeAt]
        · rw [contents_gt f 0 _ _ (by omega), contents_le f r _ b (by omega)]
          subst hlast
          rw [← hb]
          exact drop_set_zero_append b f x (by omega) (by omega)
      · have h1 : ¬ ((r : Int) = (C : Int) - 1) := by omega
        have h4 : (r : Int) + 1 < (b.length : Int) := by omega
        have h5 : (0 : Int) ≤ (r : Int) + 1 := by omega
        have h6 : ((r : Int) + 1).toNat = r + 1 := by omega
        have henq : enQueue { rear := (r : Int), front := (f : Int), size := (C : Int), buffer := b } x
            = some (true,
                { rear := ((r + 1 : Nat) : Int), front := (f : Int), size := (C : Int), buffer := b.set (r + 1) x }) := by
          simp only [enQueue, hnz, hsz, hmod, hfm, hne, h1, h4, h5, h6, writeAt]
          simp
        by_cases hle : f ≤ r
        · refine ⟨?_, r + 1, b.set (r + 1) x, henq, by omega, by simp [hb], ?_⟩
          · rw [contents_le f r _ b hle]; simp; omega
          · rw [contents_le f (r + 1) _ _ (by omega), contents_le f r _ b hle]
            exact take_drop_set_succ b f r x hle (by omega)
        · refine ⟨?_, r + 1, b.set (r + 1) x, henq, by omega, by simp [hb], ?_⟩
          · rw [contents_gt f r _ b (by omega)]; simp; omega
          · rw [contents_gt f (r + 1) _ _ (by omega), contents_gt f r _ b (by omega)]
            exact drop_set_append_take_set b f r x (by omega) (by omega)

theorem deQueue_occupied {α : Type} (C : Nat) (f r : Nat) (hf : f < C) (hr : r < C)
    (h2 : C = 2 → f = 0 ∧ r = 0) (b : List α) (hb : b.length = C) (out : α) :
    ∃ (y : α) (t : List α) (q' : QueueMat α),
      contents { rear := (r : Int), front := (f : Int), size := (C : Int), buffer := b } = y :: t ∧
      deQueue { rear := (r : Int), front := (f : Int), size := (C : Int), buffer := b } out
        = some (true, y, q') ∧
      Inv C q' ∧ contents q' = t := by
  have hfm : ¬ ((f : Int) = -1) := by omega
  have hflt : f < b.length := by omega
  have hread : readAt b (f : Int) = some b[f] := by
    simp [readAt, hflt]
  have hdrop : b.drop f = b[f] :: b.drop (f + 1) := List.drop_eq_getElem_cons hflt
  by_cases hfr : f = r
  · subst hfr
    refine ⟨b[f], [], { rear := -1, front := -1, size := (C : Int), buffer := b }, ?_, ?_, ?_, ?_⟩
    · rw [contents_le f f _ b (le_refl f), hdrop, Nat.sub_self, Nat.zero_add, List.take_succ_cons,
        List.take_zero]
    · simp [deQueue, hfm, hread]
    · exact ⟨rfl, hb, Or.inl ⟨rfl, rfl⟩⟩
    · exact contents_empty _ _ _
  · have hne : ¬ ((f : Int) = (r : Int)) := by omega
    have hC2 : C ≠ 2 := by
      intro h; have := h2 h; omega
    by_cases hlast : f = C - 1
    · refine ⟨b[f], b.take (r + 1),
        { rear := (r : Int), front := ((0 : Nat) : Int), size := (C : Int), buffer := b }, ?_, ?_, ?_, ?_⟩
      · rw [contents_gt f r _ b (by omega), hdrop]
        have : b.drop (f + 1) = [] := List.drop_eq_nil_of_le (by omega)
        simp [this]
      · have h1 : (f : Int) = (C : Int) - 1 := by omega
        have h3 : ¬ ((C : Int) - 1 = (r : Int)) := by omega
        have h4 : ¬ ((C : Int) - 1 = -1) := by omega
        rw [h1] at hread
        simp [deQueue, h1, h3, h4, hread]
      · refine ⟨rfl, hb, Or.inr ⟨by simp, by simp; omega, by simp, by simp; omega, ?_⟩⟩
        intro h; exact absurd h hC2
      · rw [contents_le 0 r _ b (by omega)]; simp
    · have h1 : ¬ ((f : Int) = (C : Int) - 1) := by omega
      have hdq : deQueue { rear := (r : Int), front := (f : Int), size := (C : Int), buffer := b } out
          = some (true, b[f],
              { rear := (r : Int), front := ((f + 1 : Nat) : Int), size := (C : Int), buffer := b }) := by
        simp [deQueue, hfm, hne, h1, hread]
      have hinv : Inv C
          { rear := (r : Int), front := ((f + 1 : Nat) : Int), size := (C : Int), buffer := b } := by
        refine ⟨rfl, hb, Or.inr ⟨by simp; omega, by simp; omega, by simp, by simp; omega, ?_⟩⟩
        intro h; exact absurd h hC2
      by_cases hle : f ≤ r
      · refine ⟨b[f], (b.drop (f + 1)).take (r - (f + 1) + 1), _, ?_, hdq, hinv, ?_⟩
        · rw [contents_le f r _ b hle, hdrop]
          have : r - f + 1 = (r - (f + 1) + 1) + 1 := by omega
          rw [this, List.take_succ_cons]
        · rw [contents_le (f + 1) r _ b (by omega)]
      · refine ⟨b[f], b.drop (f + 1) ++ b.take (r + 1), _, ?_, hdq, hinv, ?_⟩
        · rw [contents_gt f r _ b (by omega), hdrop]; rfl
        · rw [contents_gt (f + 1) r _ b (by omega)]

theorem effectiveCapacity_pos (C : Nat) (hC : 2 ≤ C) : 0 < effectiveCapacity C := by
  unfold effectiveCapacity; split <;> omega

theorem Inv_init {α : Type} (dflt : α) (C : Nat) : Inv C (QueueMat.init dflt C) :=
  ⟨rfl, by simp [QueueMat.init], Or.inl ⟨rfl, rfl⟩⟩

theorem contents_init {α : Type} (dflt : α) (C : Nat) : contents (QueueMat.init dflt C) = [] := by
  simp [QueueMat.init, contents]

theorem Inv_empty {α : Type} (C : Nat) (b : List α) (hb : b.length = C) :
    Inv C { rear := -1, front := -1, size := (C : Int), buffer := b } :=
  ⟨rfl, hb, Or.inl ⟨rfl, rfl⟩⟩

theorem Inv_occupied {α : Type} (C f r : Nat) (hf : f < C) (hr : r < C)
    (h2 : C = 2 → f = 0 ∧ r = 0) (b : List α) (hb : b.length = C) :
    Inv C { rear := (r : Int), front := (f : Int), size := (C : Int), buffer := b } := by
  refine ⟨rfl, hb, Or.inr ⟨?_, ?_, ?_, ?_, ?_⟩⟩
  · show (0 : Int) ≤ (f : Int); omega
  · show (f : Int) < (C : Int); omega
  · show (0 : Int) ≤ (r : Int); omega
  · show (r : Int) < (C : Int); omega
  · intro h
    obtain ⟨h3, h4⟩ := h2 h
    subst h3; subst h4
    exact ⟨rfl, rfl⟩

theorem enQueue_refines {α : Type} (C : Nat) (hC : 2 ≤ C) (q : QueueMat α) (h : Inv C q) (x : α) :
    ∃ q', enQueue q x = some ((fifoCall (effectiveCapacity C) (contents q) (.enQ x)).1.1, q') ∧
      Inv C q' ∧ contents q' = (fifoCall (effectiveCapacity C) (contents q) (.enQ x)).2 := by
  obtain ⟨rear, front, size, b⟩ := q
  obtain ⟨hsize, hb, hshape⟩ := h
  simp only at hsize hb hshape
  subst hsize
  rcases hshape with ⟨hf, hr⟩ | ⟨hf0, hf1, hr0, hr1, h2⟩
  · subst hf; subst hr
    have hcap := effectiveCapacity_pos C hC
    have hne : ¬ (0 = effectiveCapacity C) := by omega
    refine ⟨{ rear := ((0 : Nat) : Int), front := ((0 : Nat) : Int), size := (C : Int), buffer := b.set 0 x },
      ?_, ?_, ?_⟩
    · rw [enQueue_fresh C hC b hb x]
      simp [fifoCall, contents_empty, hne]
    · exact Inv_occupied C 0 0 (by omega) (by omega) (fun _ => ⟨rfl, rfl⟩) _ (by simp [hb])
    · rw [contents_le 0 0 (C : Int) (b.set 0 x) (le_refl 0), contents_empty]
      simp only [fifoCall, List.length_nil, hne, if_false, List.nil_append]
      exact take_one_set_zero b x (by omega)
  · obtain ⟨f, rfl⟩ := Int.eq_ofNat_of_zero_le hf0
    obtain ⟨r, rfl⟩ := Int.eq_ofNat_of_zero_le hr0
    have hf : f < C := by omega
    have hr : r < C := by omega
    have h2' : C = 2 → f = 0 ∧ r = 0 := by
      intro hc; have := h2 hc; omega
    by_cases hC2 : C = 2
    · obtain ⟨hfz, hrz⟩ := h2' hC2
      subst hfz; subst hrz; subst hC2
      have hlen : (contents
          { rear := ((0 : Nat) : Int), front := ((0 : Nat) : Int), size := ((2 : Nat) : Int), buffer := b }).length
            = 1 := by
        rw [contents_le 0 0 _ b (le_refl 0)]; simp; omega
      refine ⟨{ rear := ((0 : Nat) : Int), front := ((0 : Nat) : Int), size := ((2 : Nat) : Int), buffer := b },
        ?_, Inv_occupied 2 0 0 hf hr h2' b hb, ?_⟩
      · simp only [fifoCall, hlen, effectiveCapacity, if_true]
        simp [enQueue]
      · simp only [fifoCall, hlen, effectiveCapacity, if_true]
    · have hC3 : 3 ≤ C := by omega
      have hcap : effectiveCapacity C = C := by simp [effectiveCapacity, hC2]
      rw [hcap]
      rcases enQueue_occupied C hC3 f r hf hr b hb x with ⟨hlen, henq⟩ | ⟨hlen, r', b', henq, hr', hb', hcont⟩
      · refine ⟨{ rear := (r : Int), front := (f : Int), size := (C : Int), buffer := b }, ?_,
          Inv_occupied C f r hf hr h2' b hb, ?_⟩
        · simp only [fifoCall, hlen, if_true]; exact henq
        · simp only [fifoCall, hlen, if_true]
      · have hne : ¬ ((contents
            { rear := (r : Int), front := (f : Int), size := (C : Int), buffer := b }).length = C) := by
          omega
        refine ⟨{ rear := (r' : Int), front := (f : Int), size := (C : Int), buffer := b' }, ?_,
          Inv_occupied C f r' hf hr' (fun h => absurd h hC2) b' hb', ?_⟩
        · simp only [fifoCall, hne, if_false]; exact henq
        · simp only [fifoCall, hne, if_false]; exact hcont

theorem deQueue_refines {α : Type} (C : Nat) (q : QueueMat α) (h : Inv C q) (out : α) :
    ∃ q', deQueue q out = some ((fifoCall (effectiveCapacity C) (contents q) (.deQ out)).1.1,
        (fifoCall (effectiveCapacity C) (contents q) (.deQ out)).1.2, q') ∧
      Inv C q' ∧ contents q' = (fifoCall (effectiveCapacity C) (contents q) (.deQ out)).2 := by
  obtain ⟨rear, front, size, b⟩ := q
  obtain ⟨hsize, hb, hshape⟩ := h
  simp only at hsize hb hshape
  subst hsize
  rcases hshape with ⟨hf, hr⟩ | ⟨hf0, hf1, hr0, hr1, h2⟩
  · subst hf; subst hr
    refine ⟨{ rear := -1, front := -1, size := (C : Int), buffer := b }, ?_,
      Inv_empty C b hb, ?_⟩
    · simp [deQueue, fifoCall, contents_empty]
    · simp [fifoCall, contents_empty]
  · obtain ⟨f, rfl⟩ := Int.eq_ofNat_of_zero_le hf0
    obtain ⟨r, rfl⟩ := Int.eq_ofNat_of_zero_le hr0
    have h2' : C = 2 → f = 0 ∧ r = 0 := by
      intro hc; have := h2 hc; omega
    obtain ⟨y, t, q', hcont, hdq, hinv, hcont'⟩ :=
      deQueue_occupied C f r (by omega) (by omega) h2' b hb out
    refine ⟨q', ?_, hinv, ?_⟩
    · rw [hcont]; simpa [fifoCall] using hdq
    · rw [hcont]; simpa [fifoCall] using hcont'

theorem call_refines {α : Type} (C : Nat) (hC : 2 ≤ C) (q : QueueMat α) (h : Inv C q) (c : Call α) :
    ∃ q', call q c = some ((fifoCall (effectiveCapacity C) (contents q) c).1, q') ∧
      Inv C q' ∧ contents q' = (fifoCall (effectiveCapacity C) (contents q) c).2 := by
  cases c with
  | enQ x =>
    obtain ⟨q', h1, h2, h3⟩ := enQueue_refines C hC q h x
    refine ⟨q', ?_, h2, h3⟩
    have hx : (fifoCall (effectiveCapacity C) (contents q) (.enQ x)).1.2 = x := by
      simp only [fifoCall]; split <;> rfl
    have hp : ((fifoCall (effectiveCapacity C) (contents q) (.enQ x)).1.1, x)
        = (fifoCall (effectiveCapacity C) (contents q) (.enQ x)).1 := Prod.ext rfl hx.symm
    simp only [call, h1, hp]
  | deQ out =>
    obtain ⟨q', h1, h2, h3⟩ := deQueue_refines C q h out
    exact ⟨q', by simp only [call, h1], h2, h3⟩

theorem runCalls_refines {α : Type} (C : Nat) (hC : 2 ≤ C) (calls : List (Call α)) :
    ∀ (q : QueueMat α), Inv C q →
      ∃ q', runCalls q calls = some ((fifoRun (effectiveCapacity C) (contents q) calls).1, q') ∧
        Inv C q' ∧ contents q' = (fifoRun (effectiveCapacity C) (contents q) calls).2 := by
  induction calls with
  | nil => intro q h; exact ⟨q, rfl, h, rfl⟩
  | cons c cs ih =>
    intro q h
    obtain ⟨q1, h1, hinv1, hc1⟩ := call_refines C hC q h c
    obtain ⟨q2, h2, hinv2, hc2⟩ := ih q1 hinv1
    refine ⟨q2, ?_, hinv2, ?_⟩
    · simp only [runCalls, h1, h2, fifoRun, hc1]
    · simp only [fifoRun, hc2, hc1]

theorem runCalls_cons_some {α : Type} (q : QueueMat α) (c : Call α) (cs : List (Call α))
    (rs : List (Bool × α)) (q' : QueueMat α) (h : runCalls q (c :: cs) = some (rs, q')) :
    ∃ r q1 rs1, call q c = some (r, q1) ∧ runCalls q1 cs = some (rs1, q') ∧ rs = r :: rs1 := by
  cases hc : call q c with
  | none => simp [runCalls, hc] at h
  | some p =>
    obtain ⟨r, q1⟩ := p
    cases hr : runCalls q1 cs with
    | none => simp [runCalls, hc, hr] at h
    | some p2 =>
      obtain ⟨rs1, q2⟩ := p2
      simp only [runCalls, hc, hr, Option.some.injEq, Prod.mk.injEq] at h
      obtain ⟨h1, h2⟩ := h
      subst h2
      exact ⟨r, q1, rs1, rfl, hr, h1.symm⟩

theorem runCalls_length {α : Type} (calls : List (Call α)) :
    ∀ (q : QueueMat α) (rs : List (Bool × α)) (q' : QueueMat α),
      runCalls q calls = some (rs, q') → rs.length = calls.length := by
  induction calls with
  | nil => intro q rs q' h; simp only [runCalls, Option.some.injEq, Prod.mk.injEq] at h; rw [← h.1]; rfl
  | cons c cs ih =>
    intro q rs q' h
    obtain ⟨r, q1, rs1, _, h2, rfl⟩ := runCalls_cons_some q c cs rs q' h
    simp only [List.length_cons, ih q1 rs1 q' h2]

theorem runCalls_snoc {α : Type} (calls : List (Call α)) (c : Call α) :
    ∀ (q : QueueMat α) (rs : List (Bool × α)) (q1 : QueueMat α) (r : Bool × α) (q2 : QueueMat α),
      runCalls q calls = some (rs, q1) → call q1 c = some (r, q2) →
        runCalls q (calls ++ [c]) = some (rs ++ [r], q2) := by
  induction calls with
  | nil =>
    intro q rs q1 r q2 h1 h2
    simp only [runCalls, Option.some.injEq, Prod.mk.injEq] at h1
    obtain ⟨rfl, rfl⟩ := h1
    simp only [List.nil_append, runCalls, h2]
  | cons d ds ih =>
    intro q rs q1 r q2 h1 h2
    obtain ⟨r0, q0, rs0, h0, h3, rfl⟩ := runCalls_cons_some q d ds rs q1 h1
    have := ih q0 rs0 q1 r q2 h3 h2
    show runCalls q (d :: (ds ++ [c])) = some (r0 :: rs0 ++ [r], q2)
    simp only [runCalls, h0, this, List.cons_append]

theorem storedFrom_snoc {α : Type} (calls : List (Call α)) (c : Call α) (r : Bool × α) :
    ∀ (g : List α) (rs : List (Bool × α)), rs.length = calls.length →
      storedFrom g (calls ++ [c]) (rs ++ [r]) = storedFrom (storedFrom g calls rs) [c] [r] := by
  induction calls with
  | nil =>
    intro g rs h
    cases rs with
    | nil => cases c <;> rfl
    | cons a t => simp at h
  | cons d ds ih =>
    intro g rs h
    cases rs with
    | nil => simp at h
    | cons a t =>
      have ht : t.length = ds.length := by simpa using h
      obtain ⟨b, y⟩ := a
      cases d <;> cases b <;> simp only [List.cons_append, storedFrom] <;> exact ih _ t ht

theorem storedFrom_fifoRun {α : Type} (K : Nat) (calls : List (Call α)) :
    ∀ (g : List α), storedFrom g calls (fifoRun K g calls).1 = (fifoRun K g calls).2 := by
  induction calls with
  | nil => intro g; cases g <;> rfl
  | cons c cs ih =>
    intro g
    cases c with
    | enQ x =>
      by_cases h : g.length = K
      · have : fifoCall K g (.enQ x) = ((false, x), g) := by simp [fifoCall, h]
        simp only [fifoRun, this, storedFrom]
        exact ih g
      · have : fifoCall K g (.enQ x) = ((true, x), g ++ [x]) := by simp [fifoCall, h]
        simp only [fifoRun, this, storedFrom]
        exact ih _
    | deQ out =>
      cases g with
      | nil =>
        simp only [fifoRun, fifoCall, storedFrom]
        exact ih []
      | cons y t =>
        simp only [fifoRun, fifoCall, storedFrom, List.tail_cons]
        exact ih t

theorem deQueue_false_unchanged {α : Type} (q : QueueMat α) (out y : α) (q' : QueueMat α)
    (h : deQueue q out = some (false, y, q')) : y = out ∧ q' = q := by
  unfold deQueue at h
  split at h
  · simp only [Option.some.injEq, Prod.mk.injEq, true_and] at h
    exact ⟨h.1.symm, h.2.symm⟩
  · split at h
    · cases h
    · split at h
      · simp at h
      · split at h <;> simp at h

/-- What a run from the fresh queue leaves behind: results, final state, and the
agreement of the stored-item history with the buffer contents. -/
theorem run_from_init {α : Type} (C : Nat) (hC : 2 ≤ C) (dflt : α) (calls : List (Call α)) :
    ∃ rs q, runCalls (QueueMat.init dflt C) calls = some (rs, q) ∧ Inv C q ∧
      rs = (fifoRun (effectiveCapacity C) [] calls).1 ∧
      contents q = storedFrom [] calls rs := by
  obtain ⟨q, h1, h2, h3⟩ := runCalls_refines C hC calls (QueueMat.init dflt C) (Inv_init dflt C)
  rw [contents_init] at h1 h3
  exact ⟨_, q, h1, h2, rfl, by rw [h3, storedFrom_fifoRun]⟩

theorem effectiveCapacity_of_three_le (C : Nat) (hC : 3 ≤ C) : effectiveCapacity C = C := by
  have : C ≠ 2 := by omega
  simp [effectiveCapacity, this]

theorem runCalls_refines_fifo {α : Type} (C : Nat) (hC : 3 ≤ C) (dflt : α) (calls : List (Call α)) :
    ∃ q, runCalls (QueueMat.init dflt C) calls = some ((fifoRun C [] calls).1, q) ∧
      contents q = (fifoRun C [] calls).2 := by
  obtain ⟨q, h1, _, h3⟩ := runCalls_refines C (by omega) calls (QueueMat.init dflt C) (Inv_init dflt C)
  rw [contents_init, effectiveCapacity_of_three_le C hC] at h1 h3
  exact ⟨q, h1, h3⟩

theorem fifoRun_append {α : Type} (K : Nat) (a b : List (Call α)) :
    ∀ (l : List α), fifoRun K l (a ++ b)
      = ((fifoRun K l a).1 ++ (fifoRun K (fifoRun K l a).2 b).1, (fifoRun K (fifoRun K l a).2 b).2) := by
  induction a with
  | nil => intro l; rfl
  | cons c cs ih =>
    intro l
    show fifoRun K l (c :: (cs ++ b)) = _
    simp only [fifoRun, ih, List.cons_append]

theorem fifoRun_enQ_all {α : Type} (K : Nat) (items : List α) :
    ∀ (l : List α), l.length + items.length ≤ K →
      fifoRun K l (items.map Call.enQ) = (items.map (fun x => (true, x)), l ++ items) := by
  induction items with
  | nil => intro l _; simp [fifoRun]
  | cons x xs ih =>
    intro l h
    have hne : ¬ (l.length = K) := by simp only [List.length_cons] at h; omega
    have hstep : fifoCall K l (.enQ x) = ((true, x), l ++ [x]) := by simp [fifoCall, hne]
    have := ih (l ++ [x]) (by simp only [List.length_append, List.length_cons, List.length_nil] at h ⊢; omega)
    simp only [List.map_cons, fifoRun, hstep, this, List.append_assoc, List.singleton_append]

theorem fifoRun_deQ_all {α : Type} (K : Nat) (out : α) :
    ∀ (l : List α), fifoRun K l (List.replicate l.length (Call.deQ out))
      = (l.map (fun x => (true, x)), []) := by
  intro l
  induction l with
  | nil => rfl
  | cons y t ih =>
    simp only [List.length_cons, List.replicate_succ, fifoRun, fifoCall, ih, List.map_cons]

theorem enQueue_false_unchanged {α : Type} (q : QueueMat α) (x : α) (q' : QueueMat α)
    (h : enQueue q x = some (false, q')) : q' = q := by
  unfold enQueue at h
  split at h
  · simp only [Option.some.injEq, Prod.mk.injEq, true_and] at h
    exact h.symm
  · split at h
    · cases h
    · split at h
      · simp only [Option.some.injEq, Prod.mk.injEq, true_and] at h
        exact h.symm
      · exfalso
        split at h
        · cases hw : writeAt q.buffer 0 x <;> simp [hw] at h
        · split at h
          · cases hw : writeAt q.buffer 0 x <;> simp [hw] at h
          · cases hw : writeAt q.buffer (q.rear + 1) x <;> simp [hw] at h

/-- For a size of at least three the round trip of up to `C` items returns true on
every call and hands the items back in order. -/
theorem roundTrip_of_three_le {α : Type} (C : Nat) (hC : 3 ≤ C) (dflt out : α) (items : List α)
    (hN : items.length ≤ C) :
    ∃ q, runCalls (QueueMat.init dflt C) (roundTripCalls items out)
      = some (items.map (fun x => (true, x)) ++ items.map (fun x => (true, x)), q) := by
  obtain ⟨q, h1, _⟩ := runCalls_refines_fifo C hC dflt (roundTripCalls items out)
  refine ⟨q, ?_⟩
  rw [h1]
  unfold roundTripCalls
  rw [fifoRun_append, fifoRun_enQ_all C items [] (by simpa using hN)]
  simp only [List.nil_append, fifoRun_deQ_all]

/-- For a size of at least three, `C` calls of `enQueue` on the fresh queue return
true and one more returns false and leaves the queue as it is. -/
theorem fill_then_full_of_three_le {α : Type} (C : Nat) (hC : 3 ≤ C) (dflt x : α) (items : List α)
    (hN : items.length = C) :
    ∃ q, runCalls (QueueMat.init dflt C) (items.map Call.enQ)
        = some (items.map (fun y => (true, y)), q) ∧
      contents q = items ∧ enQueue q x = some (false, q) := by
  obtain ⟨q, h1, hinv, h3⟩ :=
    runCalls_refines C (by omega) (items.map Call.enQ) (QueueMat.init dflt C) (Inv_init dflt C)
  rw [contents_init, effectiveCapacity_of_three_le C hC,
    fifoRun_enQ_all C items [] (by simp [hN])] at h1 h3
  simp only [List.nil_append] at h3
  refine ⟨q, h1, h3, ?_⟩
  obtain ⟨q', h4, _, _⟩ := enQueue_refines C (by omega) q hinv x
  rw [effectiveCapacity_of_three_le C hC, h3] at h4
  have hf : fifoCall C items (.enQ x) = ((false, x), items) := by simp [fifoCall, hN]
  rw [hf] at h4
  simp only at h4
  have hq := enQueue_false_unchanged q x q' h4
  rw [hq] at h4
  exact h4

/-- Claim C6. In every state reached from a fresh queue of size at least two by any
sequence of `enQueue` and `deQueue` calls (the run always completes), the items
between `front` and `rear` are the stored items, and `deQueue` returns false exactly
when no item is stored and then leaves the queue and the caller's variable as they
are; otherwise it returns true, hands out the earliest stored item, and the stored
items after the call are the remaining ones, one fewer. -/
theorem deQueue_on_reachable {α : Type} (C : Nat) (hC : 2 ≤ C) (dflt : α)
    (calls : List (Call α)) (out : α) :
    ∃ rs q, runCalls (QueueMat.init dflt C) calls = some (rs, q) ∧
      contents q = storedFrom [] calls rs ∧
      ((storedFrom [] calls rs = [] ∧ deQueue q out = some (false, out, q)) ∨
        (∃ y t q', storedFrom [] calls rs = y :: t ∧ deQueue q out = some (true, y, q') ∧
          runCalls (QueueMat.init dflt C) (calls ++ [Call.deQ out]) = some (rs ++ [(true, y)], q') ∧
          storedFrom [] (calls ++ [Call.deQ out]) (rs ++ [(true, y)]) = t)) := by
  obtain ⟨rs, q, h1, hinv, _, hcont⟩ := run_from_init C hC dflt calls
  refine ⟨rs, q, h1, hcont, ?_⟩
  obtain ⟨q', hd, _, _⟩ := deQueue_refines C q hinv out
  rw [hcont] at hd
  cases hst : storedFrom [] calls rs with
  | nil =>
    left
    rw [hst] at hd
    simp only [fifoCall] at hd
    obtain ⟨_, hq⟩ := deQueue_false_unchanged q out out q' hd
    rw [hq] at hd
    exact ⟨rfl, hd⟩
  | cons y t =>
    right
    rw [hst] at hd
    simp only [fifoCall] at hd
    refine ⟨y, t, q', rfl, hd, ?_, ?_⟩
    · exact runCalls_snoc calls (.deQ out) _ rs q _ q' h1 (by simp only [call, hd])
    · rw [storedFrom_snoc calls (.deQ out) (true, y) [] rs (runCalls_length calls _ rs q h1), hst]
      rfl

theorem deQueue_on_reachable_witness :
    2 ≤ 2 ∧ ∃ rs q, runCalls (QueueMat.init 0 2) [Call.enQ 7, Call.enQ 8] = some (rs, q) ∧
      contents q = storedFrom [] [Call.enQ 7, Call.enQ 8] rs ∧
      ((storedFrom [] [Call.enQ 7, Call.enQ 8] rs = [] ∧ deQueue q 0 = some (false, 0, q)) ∨
        (∃ y t q', storedFrom [] [Call.enQ 7, Call.enQ 8] rs = y :: t ∧
          deQueue q 0 = some (true, y, q') ∧
          runCalls (QueueMat.init 0 2) ([Call.enQ 7, Call.enQ 8] ++ [Call.deQ 0])
            = some (rs ++ [(true, y)], q') ∧
          storedFrom [] ([Call.enQ 7, Call.enQ 8] ++ [Call.deQ 0]) (rs ++ [(true, y)]) = t)) :=
  ⟨by decide, deQueue_on_reachable 2 (by decide) 0 [Call.enQ 7, Call.enQ 8] 0⟩

/-- Claim C3 at size 2 with the items 7, 8: the second `enQueue` returns false, so
only one item comes back and the second `deQueue` returns false. -/
theorem roundTrip_size_two_loses_item :
    (runCalls (QueueMat.init 0 2) (roundTripCalls [7, 8] 0)).map Prod.fst
      = some [(true, 7), (false, 8), (true, 7), (false, 0)] := by
  decide

/-- Claim C4 at sizes 2 and 1: on the fresh queue of size 2 the second `enQueue`
already returns false; on the fresh queue of size 1 the first `enQueue` evaluates
`(front - 1) % 0`. -/
theorem enQueue_rejects_before_capacity :
    (runCalls (QueueMat.init 0 2) [Call.enQ 7, Call.enQ 8, Call.enQ 9]).map Prod.fst
        = some [(true, 7), (false, 8), (false, 9)] ∧
      enQueue (QueueMat.init 0 1) 7 = none := by
  decide

/-- Claim C5 at size 2: after one successful `enQueue` one item is stored, and
`enQueue` returns false and changes nothing. -/
theorem enQueue_full_with_one_item :
    runCalls (QueueMat.init 0 2) [Call.enQ 7]
        = some ([(true, 7)], { rear := 0, front := 0, size := 2, buffer := [7, 0] }) ∧
      storedFrom [] [Call.enQ 7] [(true, 7)] = [7] ∧
      enQueue { rear := 0, front := 0, size := 2, buffer := [7, 0] } 8
        = some (false, { rear := 0, front := 0, size := 2, buffer := [7, 0] }) := by
  decide

/-- Claim C7 at size 2: two `enQueue` calls return true, false, while the reference
FIFO bounded at 2 items returns true, true. -/
theorem size_two_departs_from_fifo :
    (runCalls (QueueMat.init 0 2) [Call.enQ 7, Call.enQ 8]).map Prod.fst
        = some [(true, 7), (false, 8)] ∧
      (fifoRun 2 [] [Call.enQ 7, Call.enQ 8]).1 = [(true, 7), (true, 8)] := by
  decide

end CircularFrameBuf

namespace Tracking

theorem scanLost_bounds {F M : Type} (l : List (track F M)) :
    ∀ (i idx : Nat), scanLost l i = some (some idx) → i ≤ idx ∧ idx < i + l.length := by
  induction l with
  | nil => intro i idx h; simp [scanLost] at h
  | cons t ts ih =>
    intro i idx h
    simp only [scanLost] at h
    split at h
    · simp at h
    · simp only [Option.some.injEq] at h
      subst h
      simp
    · have := ih (i + 1) idx h
      simp only [List.length_cons]
      omega

theorem deletionTest_isSome {F M : Type} (t : track F M) (h : 1 ≤ t.age) :
    ∃ b, deletionTest t = some b := by
  have : ¬ t.age = 0 := by omega
  simp [deletionTest, this]

theorem scanLost_isSome {F M : Type} (l : List (track F M)) (h : ∀ t ∈ l, 1 ≤ t.age) :
    ∀ i, ∃ r, scanLost l i = some r := by
  induction l with
  | nil => intro i; exact ⟨none, rfl⟩
  | cons t ts ih =>
    intro i
    obtain ⟨b, hb⟩ := deletionTest_isSome t (h t (List.mem_cons_self _ _))
    cases b with
    | true => exact ⟨some i, by simp [scanLost, hb]⟩
    | false =>
      obtain ⟨r, hr⟩ := ih (fun u hu => h u (List.mem_cons_of_mem _ hu)) (i + 1)
      exact ⟨r, by simp [scanLost, hb, hr]⟩

theorem deleteLostList_of_scan_none {F M : Type} (l : List (track F M))
    (h : scanLost l 0 = some none) : deleteLostList l = some l := by
  rw [deleteLostList]
  split
  · rename_i h'; rw [h] at h'; cases h'
  · rfl
  · rename_i idx h'; rw [h] at h'; cases h'

theorem deleteLostList_of_scan_some {F M : Type} (l : List (track F M)) (idx : Nat)
    (h : scanLost l 0 = some (some idx)) : deleteLostList l = deleteLostList (l.eraseIdx idx) := by
  rw [deleteLostList]
  split
  · rename_i h'; rw [h] at h'; cases h'
  · rename_i h'; rw [h] at h'; cases h'
  · rename_i idx' h'
    rw [h] at h'
    simp only [Option.some.injEq] at h'
    subst h'
    rfl

theorem deleteLostList_of_scan_undefined {F M : Type} (l : List (track F M))
    (h : scanLost l 0 = none) : deleteLostList l = none := by
  rw [deleteLostList]
  split
  · rfl
  · rename_i h'; rw [h] at h'; cases h'
  · rename_i idx h'; rw [h] at h'; cases h'

theorem deleteLostList_total {F M : Type} :
    ∀ (n : Nat) (l : List (track F M)), l.length = n → (∀ t ∈ l, 1 ≤ t.age) →
      ∃ l', deleteLostList l = some l' ∧ l'.Sublist l := by
  intro n
  induction n using Nat.strong_induction_on with
  | _ n ih =>
    intro l hlen hage
    obtain ⟨r, hr⟩ := scanLost_isSome l hage 0
    cases r with
    | none => exact ⟨l, deleteLostList_of_scan_none l hr, List.Sublist.refl l⟩
    | some idx =>
      have hb := scanLost_bounds l 0 idx hr
      have hsub : (l.eraseIdx idx).Sublist l := List.eraseIdx_sublist l idx
      have hlt : (l.eraseIdx idx).length < n := by
        rw [List.length_eraseIdx]; split <;> omega
      obtain ⟨l', h1, h2⟩ := ih _ hlt (l.eraseIdx idx) rfl
        (fun t ht => hage t (hsub.subset ht))
      exact ⟨l', by rw [deleteLostList_of_scan_some l idx hr]; exact h1, h2.trans hsub⟩

theorem tryAssign_ids {F M D : Type} (ops : CvOps F M D) (c : KeyPoint F) (d : D)
    (l : List (track F M)) :
    (tryAssign ops c d l).1.map (fun t => t.id) = l.map (fun t => t.id) := by
  induction l with
  | nil => rfl
  | cons t ts ih =>
    simp only [tryAssign]
    split
    · simp
    · simp [ih]

theorem tryAssign_ok {F M D : Type} (ops : CvOps F M D) (c : KeyPoint F) (d : D)
    (l : List (track F M)) (h : ∀ t ∈ l, TrackOk t) :
    ∀ t ∈ (tryAssign ops c d l).1, TrackOk t := by
  induction l with
  | nil => intro t ht; simp [tryAssign] at ht
  | cons u us ih =>
    have hu := h u (List.mem_cons_self _ _)
    have hus : ∀ t ∈ us, TrackOk t := fun t ht => h t (List.mem_cons_of_mem _ ht)
    intro t ht
    simp only [tryAssign] at ht
    split at ht
    · rcases List.mem_cons.mp ht with rfl | ht'
      · obtain ⟨h1, h2⟩ := hu
        exact ⟨by show 1 ≤ u.age + 1; omega, by show u.totalVisibleCount + 1 ≤ u.age + 1; omega⟩
      · exact hus t ht'
    · rcases List.mem_cons.mp ht with rfl | ht'
      · exact hu
      · exact ih hus t ht'

theorem mem_ids_lt {F M : Type} (l : List (track F M)) (n : Nat) :
    (∀ t ∈ l, t.id < n) ↔ ∀ i ∈ l.map (fun t => t.id), i < n := by
  simp

theorem createNewTrack_inv {F M D : Type} (ops : CvOps F M D) (s : MotionTracker F M)
    (c : KeyPoint F) (h : StateInv s) : StateInv (createNewTrack ops s c) := by
  obtain ⟨h1, h2, h3, h4⟩ := h
  refine ⟨?_, ?_, ?_, ?_⟩
  · intro t ht
    simp only [createNewTrack, List.mem_append, List.mem_singleton] at ht
    rcases ht with ht | rfl
    · exact h1 t ht
    · exact ⟨le_refl 1, le_refl 1⟩
  · intro t ht
    simp only [createNewTrack, List.mem_append, List.mem_singleton] at ht
    show t.id < s.numTracks + 1
    rcases ht with ht | rfl
    · have := h2 t ht; omega
    · show s.numTracks < s.numTracks + 1; omega
  · simp only [createNewTrack, List.map_append, List.map_cons, List.map_nil]
    rw [List.pairwise_append]
    refine ⟨h3, List.pairwise_singleton _ _, ?_⟩
    intro a ha b hb
    simp only [List.mem_singleton] at hb
    subst hb
    obtain ⟨t, ht, rfl⟩ := List.mem_map.mp ha
    exact h2 t ht
  · simp only [createNewTrack, h4, List.range_succ]

theorem assignOne_inv {F M D : Type} (ops : CvOps F M D) (d : D) (s : MotionTracker F M)
    (c : KeyPoint F) (h : StateInv s) : StateInv (assignOne ops d s c) := by
  have hmid : StateInv ({ s with tracks := (tryAssign ops c d s.tracks).1 } : MotionTracker F M) := by
    obtain ⟨h1, h2, h3, h4⟩ := h
    refine ⟨tryAssign_ok ops c d s.tracks h1, ?_, ?_, h4⟩
    · rw [mem_ids_lt]
      show ∀ i ∈ (tryAssign ops c d s.tracks).1.map (fun t => t.id), i < s.numTracks
      rw [tryAssign_ids, ← mem_ids_lt]
      exact h2
    · show ((tryAssign ops c d s.tracks).1.map fun t => t.id).Pairwise _
      rw [tryAssign_ids]
      exact h3
  unfold assignOne
  split
  · simp only
    split
    · exact createNewTrack_inv ops _ c hmid
    · exact hmid
  · exact createNewTrack_inv ops s c h

theorem foldl_assignOne_inv {F M D : Type} (ops : CvOps F M D) (d : D) (cs : List (KeyPoint F)) :
    ∀ (s : MotionTracker F M), StateInv s → StateInv (cs.foldl (assignOne ops d) s) := by
  induction cs with
  | nil => intro s h; exact h
  | cons c cs ih => intro s h; exact ih _ (assignOne_inv ops d s c h)

theorem StateInv_map {F M : Type} (s : MotionTracker F M) (g : track F M → track F M)
    (hid : ∀ t, (g t).id = t.id) (hok : ∀ t, TrackOk t → TrackOk (g t)) (h : StateInv s) :
    StateInv ({ s with tracks := s.tracks.map g } : MotionTracker F M) := by
  obtain ⟨h1, h2, h3, h4⟩ := h
  have hids : (s.tracks.map g).map (fun t => t.id) = s.tracks.map (fun t => t.id) := by
    rw [List.map_map]; apply List.map_congr_left; intro t _; exact hid t
  refine ⟨?_, ?_, ?_, h4⟩
  · intro t ht
    obtain ⟨u, hu, rfl⟩ := List.mem_map.mp ht
    exact hok u (h1 u hu)
  · intro t ht
    obtain ⟨u, hu, rfl⟩ := List.mem_map.mp ht
    rw [hid]; exact h2 u hu
  · show ((s.tracks.map g).map fun t => t.id).Pairwise _
    rw [hids]; exact h3

theorem penalize_id {F M : Type} (t : track F M) : (penalize t).id = t.id := by
  unfold penalize; split <;> rfl

theorem penalize_ok {F M : Type} (t : track F M) (h : TrackOk t) : TrackOk (penalize t) := by
  unfold penalize
  split
  · obtain ⟨h1, h2⟩ := h
    exact ⟨by show 1 ≤ t.age + 1; omega, by show t.totalVisibleCount ≤ t.age + 1; omega⟩
  · exact h

theorem assignDetectionsToTracks_inv {F M D : Type} (ops : CvOps F M D) (s : MotionTracker F M)
    (cs : List (KeyPoint F)) (d : D) (h : StateInv s) :
    StateInv (assignDetectionsToTracks ops s cs d) := by
  unfold assignDetectionsToTracks
  simp only
  apply StateInv_map _ penalize penalize_id penalize_ok
  apply foldl_assignOne_inv
  exact StateInv_map s (fun t => { t with flag := false }) (fun _ => rfl) (fun _ ht => ht) h

theorem predictNewLocationsOfTracks_inv {F M D : Type} (ops : CvOps F M D) (s : MotionTracker F M)
    (h : StateInv s) : StateInv (predictNewLocationsOfTracks ops s) := by
  unfold predictNewLocationsOfTracks
  exact StateInv_map s _ (fun _ => rfl) (fun _ ht => ht) h

theorem deleteLostTracks_inv {F M : Type} (s : MotionTracker F M) (h : StateInv s) :
    ∃ s', deleteLostTracks s = some s' ∧ StateInv s' ∧ s'.numTracks = s.numTracks ∧
      s'.history = s.history ∧ s'.tracks.Sublist s.tracks := by
  obtain ⟨h1, h2, h3, h4⟩ := h
  obtain ⟨l', hl, hsub⟩ := deleteLostList_total s.tracks.length s.tracks rfl (fun t ht => (h1 t ht).1)
  refine ⟨{ s with tracks := l' }, by simp [deleteLostTracks, hl], ⟨?_, ?_, ?_, h4⟩, rfl, rfl, hsub⟩
  · intro t ht; exact h1 t (hsub.subset ht)
  · intro t ht; exact h2 t (hsub.subset ht)
  · exact List.Pairwise.sublist (hsub.map _) h3

theorem processCycle_inv {F M D : Type} (ops : CvOps F M D) (s : MotionTracker F M)
    (frame : List (KeyPoint F) × D) (h : StateInv s) :
    ∃ s', processCycle ops s frame = some s' ∧ StateInv s' := by
  obtain ⟨s', h1, h2, _⟩ := deleteLostTracks_inv _
    (assignDetectionsToTracks_inv ops _ frame.1 frame.2 (predictNewLocationsOfTracks_inv ops s h))
  exact ⟨s', h1, h2⟩

theorem runCycles_inv {F M D : Type} (ops : CvOps F M D) (frames : List (List (KeyPoint F) × D)) :
    ∀ (s : MotionTracker F M), StateInv s → ∃ s', runCycles ops s frames = some s' ∧ StateInv s' := by
  induction frames with
  | nil => intro s h; exact ⟨s, rfl, h⟩
  | cons c cs ih =>
    intro s h
    obtain ⟨s1, h1, hinv1⟩ := processCycle_inv ops s c h
    obtain ⟨s2, h2, hinv2⟩ := ih s1 hinv1
    exact ⟨s2, by simp only [runCycles, h1, h2], hinv2⟩

theorem StateInv_empty {F M : Type} : StateInv (MotionTracker.empty : MotionTracker F M) := by
  refine ⟨?_, ?_, ?_, ?_⟩
  · intro t ht; simp [MotionTracker.empty] at ht
  · intro t ht; simp [MotionTracker.empty] at ht
  · simp [MotionTracker.empty]
  · simp [MotionTracker.empty]

theorem scanLost_shape {F M : Type} (l : List (track F M)) (h : ∀ t ∈ l, 1 ≤ t.age) :
    ∀ i, (scanLost l i = some none ∧ ∀ t ∈ l, deletionTest t = some false) ∨
      (∃ pre t post, l = pre ++ t :: post ∧ (∀ u ∈ pre, deletionTest u = some false) ∧
        deletionTest t = some true ∧ scanLost l i = some (some (i + pre.length))) := by
  induction l with
  | nil => intro i; left; exact ⟨rfl, fun t ht => by simp at ht⟩
  | cons t ts ih =>
    intro i
    obtain ⟨b, hb⟩ := deletionTest_isSome t (h t (List.mem_cons_self _ _))
    cases b with
    | true =>
      right
      exact ⟨[], t, ts, rfl, fun u hu => by simp at hu, hb, by simp [scanLost, hb]⟩
    | false =>
      rcases ih (fun u hu => h u (List.mem_cons_of_mem _ hu)) (i + 1) with ⟨h1, h2⟩ | ⟨pre, u, post, h1, h2, h3, h4⟩
      · left
        refine ⟨by simp [scanLost, hb, h1], ?_⟩
        intro v hv
        rcases List.mem_cons.mp hv with rfl | hv'
        · exact hb
        · exact h2 v hv'
      · right
        refine ⟨t :: pre, u, post, by simp [h1], ?_, h3, ?_⟩
        · intro v hv
          rcases List.mem_cons.mp hv with rfl | hv'
          · exact hb
          · exact h2 v hv'
        · simp only [scanLost, hb, h4, List.length_cons]
          congr 2
          omega

/-- The tracks that `deleteLostTracks` keeps: those for which the deletion test is
not true. -/
theorem deleteLostList_eq_filter {F M : Type} :
    ∀ (n : Nat) (l : List (track F M)), l.length = n → (∀ t ∈ l, 1 ≤ t.age) →
      deleteLostList l = some (l.filter fun t => deletionTest t != some true) := by
  intro n
  induction n using Nat.strong_induction_on with
  | _ n ih =>
    intro l hlen hage
    rcases scanLost_shape l hage 0 with ⟨h1, h2⟩ | ⟨pre, t, post, h1, h2, h3, h4⟩
    · rw [deleteLostList_of_scan_none l h1]
      congr 1
      symm
      rw [List.filter_eq_self]
      intro t ht
      simp [h2 t ht]
    · rw [deleteLostList_of_scan_some l _ h4]
      have he : l.eraseIdx (0 + pre.length) = pre ++ post := by
        rw [h1, Nat.zero_add, List.eraseIdx_append_of_length_le (le_refl _)]
        simp
      have hpre : pre.filter (fun t => deletionTest t != some true) = pre := by
        rw [List.filter_eq_self]
        intro u hu
        simp [h2 u hu]
      rw [he, ih (pre ++ post).length (by rw [← hlen, h1]; simp) (pre ++ post) rfl
        (fun u hu => hage u (by
          rw [h1]
          rcases List.mem_append.mp hu with hu' | hu'
          · exact List.mem_append_left _ hu'
          · exact List.mem_append_right _ (List.mem_cons_of_mem _ hu')))]
      rw [h1]
      simp only [List.filter_append, List.filter_cons, h3, bne_self_eq_false, Bool.false_eq_true,
        if_false]

theorem processCycle_eq {F M D : Type} (ops : CvOps F M D) (s : MotionTracker F M)
    (frame : List (KeyPoint F) × D)
    (h : ∀ t ∈ (assignDetectionsToTracks ops (predictNewLocationsOfTracks ops s) frame.1 frame.2).tracks,
      1 ≤ t.age) :
    processCycle ops s frame
      = some { assignDetectionsToTracks ops (predictNewLocationsOfTracks ops s) frame.1 frame.2 with
          tracks := (assignDetectionsToTracks ops (predictNewLocationsOfTracks ops s)
            frame.1 frame.2).tracks.filter fun t => deletionTest t != some true } := by
  simp only [processCycle, deleteLostTracks, deleteLostList_eq_filter _ _ rfl h]

theorem run_two_matched_cycles :
    runCycles gridOps MotionTracker.empty
        [([{ pt := { x := 10, y := 10 } }], 5), ([{ pt := { x := 10, y := 10 } }], 5)]
      = some { tracks := [{ missedOnceTrack with age := 2, consecutiveInvisibleCount := 0, flag := true }],
               numTracks := 1, history := [0] } := by
  simp only [runCycles]
  rw [processCycle_eq _ _ _ (by decide)]
  simp only []
  rw [processCycle_eq _ _ _ (by decide)]
  decide

theorem deleteLostList_sublist {F M : Type} :
    ∀ (n : Nat) (l : List (track F M)), l.length = n →
      ∀ l', deleteLostList l = some l' → l'.Sublist l := by
  intro n
  induction n using Nat.strong_induction_on with
  | _ n ih =>
    intro l hlen l' hdel
    cases hscan : scanLost l 0 with
    | none => rw [deleteLostList_of_scan_undefined l hscan] at hdel; cases hdel
    | some r =>
      cases r with
      | none =>
        rw [deleteLostList_of_scan_none l hscan] at hdel
        simp only [Option.some.injEq] at hdel
        subst hdel
        exact List.Sublist.refl _
      | some idx =>
        rw [deleteLostList_of_scan_some l idx hscan] at hdel
        have hb := scanLost_bounds l 0 idx hscan
        have hlt : (l.eraseIdx idx).length < n := by
          rw [List.length_eraseIdx]; split <;> omega
        exact (ih _ hlt (l.eraseIdx idx) rfl l' hdel).trans (List.eraseIdx_sublist l idx)

theorem tryAssign_age_le {F M D : Type} (ops : CvOps F M D) (c : KeyPoint F) (d : D) (B : Nat)
    (l : List (track F M)) (h : ∀ t ∈ l, t.age ≤ B) :
    ∀ t ∈ (tryAssign ops c d l).1, t.age ≤ B + 1 := by
  induction l with
  | nil => intro t ht; simp [tryAssign] at ht
  | cons u us ih =>
    have hu := h u (List.mem_cons_self _ _)
    have hus : ∀ t ∈ us, t.age ≤ B := fun t ht => h t (List.mem_cons_of_mem _ ht)
    intro t ht
    simp only [tryAssign] at ht
    split at ht
    · rcases List.mem_cons.mp ht with rfl | ht'
      · show u.age + 1 ≤ B + 1; omega
      · have := hus t ht'; omega
    · rcases List.mem_cons.mp ht with rfl | ht'
      · omega
      · exact ih hus t ht'

theorem createNewTrack_below {F M D : Type} (ops : CvOps F M D) (s : MotionTracker F M)
    (c : KeyPoint F) (B N : Nat) (h : CountersBelow B N s) :
    CountersBelow (B + 1) (N + 1) (createNewTrack ops s c) := by
  obtain ⟨h1, h2⟩ := h
  refine ⟨?_, ?_⟩
  · intro t ht
    simp only [createNewTrack, List.mem_append, List.mem_singleton] at ht
    rcases ht with ht | rfl
    · have := h1 t ht; omega
    · show 1 ≤ B + 1; omega
  · show s.numTracks + 1 ≤ N + 1; omega

theorem assignOne_below {F M D : Type} (ops : CvOps F M D) (d : D) (s : MotionTracker F M)
    (c : KeyPoint F) (B N : Nat) (h : CountersBelow B N s) :
    CountersBelow (B + 1) (N + 1) (assignOne ops d s c) := by
  have hmid : CountersBelow (B + 1) N
      ({ s with tracks := (tryAssign ops c d s.tracks).1 } : MotionTracker F M) :=
    ⟨tryAssign_age_le ops c d B s.tracks h.1, h.2⟩
  unfold assignOne
  split
  · simp only
    split
    · obtain ⟨h1, h2⟩ := h
      refine ⟨?_, ?_⟩
      · intro t ht
        simp only [createNewTrack, List.mem_append, List.mem_singleton] at ht
        rcases ht with ht | rfl
        · exact hmid.1 t ht
        · show 1 ≤ B + 1; omega
      · show s.numTracks + 1 ≤ N + 1; omega
    · exact ⟨hmid.1, Nat.le_succ_of_le hmid.2⟩
  · exact createNewTrack_below ops s c B N h

theorem foldl_assignOne_below {F M D : Type} (ops : CvOps F M D) (d : D) (cs : List (KeyPoint F)) :
    ∀ (s : MotionTracker F M) (B N : Nat), CountersBelow B N s →
      CountersBelow (B + cs.length) (N + cs.length) (cs.foldl (assignOne ops d) s) := by
  induction cs with
  | nil => intro s B N h; exact h
  | cons c cs ih =>
    intro s B N h
    have := ih _ (B + 1) (N + 1) (assignOne_below ops d s c B N h)
    simp only [List.length_cons, List.foldl_cons]
    rw [show B + (cs.length + 1) = B + 1 + cs.length by omega,
      show N + (cs.length + 1) = N + 1 + cs.length by omega]
    exact this

theorem processCycle_below {F M D : Type} (ops : CvOps F M D) (s s' : MotionTracker F M)
    (frame : List (KeyPoint F) × D) (B N : Nat) (h : CountersBelow B N s)
    (hrun : processCycle ops s frame = some s') :
    CountersBelow (B + frame.1.length + 1) (N + frame.1.length) s' := by
  have h0 : CountersBelow B N (resetFlags (predictNewLocationsOfTracks ops s)) := by
    refine ⟨?_, h.2⟩
    intro t ht
    simp only [resetFlags, predictNewLocationsOfTracks, List.map_map, List.mem_map] at ht
    obtain ⟨u, hu, rfl⟩ := ht
    exact h.1 u hu
  have h1 := foldl_assignOne_below ops frame.2 frame.1 _ B N h0
  have h2 : CountersBelow (B + frame.1.length + 1) (N + frame.1.length)
      (assignDetectionsToTracks ops (predictNewLocationsOfTracks ops s) frame.1 frame.2) := by
    refine ⟨?_, h1.2⟩
    intro t ht
    simp only [assignDetectionsToTracks, List.mem_map] at ht
    obtain ⟨u, hu, rfl⟩ := ht
    have := h1.1 u hu
    unfold penalize
    split
    · show u.age + 1 ≤ B + frame.1.length + 1; omega
    · omega
  unfold processCycle deleteLostTracks at hrun
  split at hrun
  · cases hrun
  · rename_i l hl
    simp only [Option.some.injEq] at hrun
    subst hrun
    have hsub := deleteLostList_sublist _ _ rfl l hl
    exact ⟨fun t ht => h2.1 t (hsub.subset ht), h2.2⟩

/-- Counters after a run from the empty tracker: no age exceeds the number of cycles
plus the number of detections processed, and no more ids were handed out than
detections were processed. -/
theorem runCycles_below {F M D : Type} (ops : CvOps F M D)
    (frames : List (List (KeyPoint F) × D)) :
    ∀ (s s' : MotionTracker F M) (B N : Nat), CountersBelow B N s →
      runCycles ops s frames = some s' →
      CountersBelow (B + frames.length + detectionCount frames) (N + detectionCount frames) s' := by
  induction frames with
  | nil =>
    intro s s' B N h hrun
    simp only [runCycles, Option.some.injEq] at hrun
    subst hrun
    exact h
  | cons f fs ih =>
    intro s s' B N h hrun
    simp only [runCycles] at hrun
    split at hrun
    · cases hrun
    · rename_i s1 h1
      have hb := processCycle_below ops s s1 f B N h h1
      have := ih s1 s' _ _ hb hrun
      simp only [List.length_cons, detectionCount]
      rw [show B + (fs.length + 1) + (f.1.length + detectionCount fs)
          = B + f.1.length + 1 + fs.length + detectionCount fs by omega,
        show N + (f.1.length + detectionCount fs) = N + f.1.length + detectionCount fs by omega]
      exact this

/-- Counters as natural numbers (no wrap-around): starting from the tracker with no
tracks, every finite sequence of processing cycles (predict, assign with any
detections and cutoff, delete) runs to completion and leaves every track with
`totalVisibleCount <= age`. -/
theorem totalVisibleCount_le_age {F M D : Type} (ops : CvOps F M D)
    (frames : List (List (KeyPoint F) × D)) :
    ∃ s, runCycles ops MotionTracker.empty frames = some s ∧
      ∀ t ∈ s.tracks, t.totalVisibleCount ≤ t.age := by
  obtain ⟨s, h1, h2⟩ := runCycles_inv ops frames MotionTracker.empty StateInv_empty
  exact ⟨s, h1, fun t ht => (h2.1 t ht).2⟩

theorem deletionTest_missedOnceTrack : deletionTest missedOnceTrack = some true := by
  decide

/-- Claim C2 at a track of age 3 that was visible twice and invisible once, as it
stands in the track list in the third cycle after a detection at (10, 10) in each
of the first two cycles and none in the third: `deleteLostTracks` removes it,
although its visibility ratio 2/3 is not below 0.6, its age is at least 1 and it
was invisible for fewer than 20 cycles. -/
theorem deleteLostTracks_removes_visible_track :
    (∃ s2, runCycles gridOps MotionTracker.empty
          [([{ pt := { x := 10, y := 10 } }], 5), ([{ pt := { x := 10, y := 10 } }], 5)] = some s2 ∧
        assignDetectionsToTracks gridOps (predictNewLocationsOfTracks gridOps s2) [] 5
          = { tracks := [missedOnceTrack], numTracks := 1, history := [0] }) ∧
      deleteLostTracks { tracks := [missedOnceTrack], numTracks := 1, history := [0] }
        = some { tracks := [], numTracks := 1, history := [0] } ∧
      specDeletionRule missedOnceTrack = false ∧ 1 ≤ missedOnceTrack.age := by
  refine ⟨⟨_, run_two_matched_cycles, by decide⟩, ?_, ?_, by decide⟩
  · have h1 : scanLost [missedOnceTrack] 0 = some (some 0) := by
      simp [scanLost, deletionTest_missedOnceTrack]
    have h2 : deleteLostList [missedOnceTrack] = some [] := by
      rw [deleteLostList_of_scan_some _ 0 h1]
      exact deleteLostList_of_scan_none [] rfl
    simp [deleteLostTracks, h2]
  · simp [specDeletionRule, missedOnceTrack]
    norm_num

/-- Counters as natural numbers (no wrap-around): after any sequence of processing
cycles from the empty tracker the ids
handed out so far are `0, 1, ..., numTracks - 1` in order of creation, hence
pairwise distinct, and every live track carries one of them, no two the same one;
`createNewTrack` always gives the new track the current `numTracks` as id and
increments the counter, and `deleteLostTracks` changes neither the counter nor the
ids handed out. -/
theorem track_ids_never_reused {F M D : Type} (ops : CvOps F M D)
    (frames : List (List (KeyPoint F) × D)) :
    (∃ s, runCycles ops MotionTracker.empty frames = some s ∧
      s.history = List.range s.numTracks ∧ s.history.Nodup ∧
      (∀ t ∈ s.tracks, t.id ∈ s.history) ∧
      (s.tracks.map fun t => t.id).Nodup) ∧
    (∀ (s0 : MotionTracker F M) (c : KeyPoint F), ∃ t,
      (createNewTrack ops s0 c).tracks = s0.tracks ++ [t] ∧ t.id = s0.numTracks ∧
      (createNewTrack ops s0 c).history = s0.history ++ [s0.numTracks] ∧
      (createNewTrack ops s0 c).numTracks = s0.numTracks + 1) ∧
    (∀ (s0 s1 : MotionTracker F M), deleteLostTracks s0 = some s1 →
      s1.numTracks = s0.numTracks ∧ s1.history = s0.history) := by
  refine ⟨?_, ?_, ?_⟩
  · obtain ⟨s, h1, h2, h3, h4, h5⟩ := runCycles_inv ops frames MotionTracker.empty StateInv_empty
    refine ⟨s, h1, h5, ?_, ?_, ?_⟩
    · rw [h5]; exact List.nodup_range _
    · intro t ht
      rw [h5, List.mem_range]
      exact h3 t ht
    · exact h4.imp (fun hab => Nat.ne_of_lt hab)
  · intro s0 c
    exact ⟨_, rfl, rfl, rfl, rfl⟩
  · intro s0 s1 h
    unfold deleteLostTracks at h
    split at h
    · cases h
    · simp only [Option.some.injEq] at h
      subst h
      exact ⟨rfl, rfl⟩

/-- Claim C10 at p = (10, 10), cutoff 5: the track list then holds exactly one track,
with filter state (10, 10, 0, 0, 0, 0), age 1 and totalVisibleCount 1, but its
centroid is the default key point (0, 0) and `getCentroids` returns two key points,
both (0, 0), none at (10, 10). -/
theorem getCentroids_after_single_detection :
    (assignDetectionsToTracks gridOps MotionTracker.empty [{ pt := { x := 10, y := 10 } }] 5).tracks
      = [{ id := 0,
           centroid := { pt := { x := 0, y := 0 } },
           kalmanFilter := { statePost := { x := 10, y := 10, vx := 0, vy := 0, ax := 0, ay := 0 }, mats := () },
           age := 1,
           totalVisibleCount := 1,
           consecutiveInvisibleCount := 0,
           flag := true }] ∧
    getCentroids gridOps
        (assignDetectionsToTracks gridOps MotionTracker.empty [{ pt := { x := 10, y := 10 } }] 5)
      = [{ pt := { x := 0, y := 0 } }, { pt := { x := 0, y := 0 } }] := by
  decide

end Tracking

namespace CircularFrameBuf

/-- For every size of at least two, every sequence of `enQueue` and `deQueue` calls
on the fresh queue completes: no modulus by zero and no index outside the buffer. -/
theorem calls_complete_of_two_le {α : Type} (C : Nat) (hC : 2 ≤ C) (dflt : α)
    (calls : List (Call α)) :
    ∃ rs q, runCalls (QueueMat.init dflt C) calls = some (rs, q) ∧ Inv C q := by
  obtain ⟨rs, q, h1, h2, _⟩ := run_from_init C hC dflt calls
  exact ⟨rs, q, h1, h2⟩

/-- Claim C20 at size 1: the fresh queue has `front = -1`, so the first disjunct of
the full test is false and the first `enQueue` evaluates `(front - 1) % (size - 1)`
with `size - 1 = 0`; the call has no defined result. -/
theorem enQueue_size_one_zero_divisor :
    (QueueMat.init (0 : Nat) 1).size - 1 = 0 ∧
    ¬ ((QueueMat.init (0 : Nat) 1).front = 0 ∧
        (QueueMat.init (0 : Nat) 1).rear = (QueueMat.init (0 : Nat) 1).size - 1) ∧
    runCalls (QueueMat.init (0 : Nat) 1) [Call.enQ 7] = none := by
  decide

end CircularFrameBuf

namespace Tracking

theorem tryAssign_cons {F M D : Type} (ops : CvOps F M D) (c : KeyPoint F) (d : D)
    (t : track F M) (ts : List (track F M)) :
    tryAssign ops c d (t :: ts)
      = if ops.normLt (curPoint t) c.pt d then (matched ops c t :: ts, true)
        else (t :: (tryAssign ops c d ts).1, (tryAssign ops c d ts).2) := rfl

/-- Claim C11. In a tracker holding exactly one track whose filter position (the
predicted position once `predict()` has run) is within `distCutoff` of the
detection `d`, `assignDetectionsToTracks([d], distCutoff)` creates no track: the
list still holds exactly that track, now with `consecutiveInvisibleCount = 0` and
`totalVisibleCount` increased by exactly 1, and `numTracks` is unchanged. -/
theorem single_detection_updates_track {F M D : Type} (ops : CvOps F M D) (s : MotionTracker F M)
    (t : track F M) (d : KeyPoint F) (distCutoff : D) (hone : s.tracks = [t])
    (hnear : ops.normLt (curPoint t) d.pt distCutoff = true) :
    ∃ t', (assignDetectionsToTracks ops s [d] distCutoff).tracks = [t'] ∧
      t'.id = t.id ∧ t'.consecutiveInvisibleCount = 0 ∧
      t'.totalVisibleCount = t.totalVisibleCount + 1 ∧
      (assignDetectionsToTracks ops s [d] distCutoff).numTracks = s.numTracks ∧
      (assignDetectionsToTracks ops s [d] distCutoff).history = s.history := by
  have hc : curPoint ({ t with flag := false } : track F M) = curPoint t := rfl
  have hstep : assignOne ops distCutoff (resetFlags s) d
      = { resetFlags s with tracks := [matched ops d { t with flag := false }] } := by
    simp [assignOne, resetFlags, hone, tryAssign_cons, hc, hnear]
  have hall : assignDetectionsToTracks ops s [d] distCutoff
      = { resetFlags s with tracks := [matched ops d { t with flag := false }] } := by
    simp only [assignDetectionsToTracks, List.foldl_cons, List.foldl_nil, hstep, List.map_cons,
      List.map_nil]
    rfl
  rw [hall]
  exact ⟨matched ops d { t with flag := false }, rfl, rfl, rfl, rfl, rfl, rfl⟩

theorem single_detection_updates_track_witness :
    ({ tracks := [missedOnceTrack], numTracks := 1, history := [0] } : MotionTracker Int Unit).tracks
        = [missedOnceTrack] ∧
    gridOps.normLt (curPoint missedOnceTrack) ({ pt := { x := 11, y := 9 } } : KeyPoint Int).pt 5 = true ∧
    ∃ t', (assignDetectionsToTracks gridOps { tracks := [missedOnceTrack], numTracks := 1, history := [0] }
          [{ pt := { x := 11, y := 9 } }] 5).tracks = [t'] ∧
      t'.id = missedOnceTrack.id ∧ t'.consecutiveInvisibleCount = 0 ∧
      t'.totalVisibleCount = missedOnceTrack.totalVisibleCount + 1 ∧
      (assignDetectionsToTracks gridOps { tracks := [missedOnceTrack], numTracks := 1, history := [0] }
          [{ pt := { x := 11, y := 9 } }] 5).numTracks = 1 ∧
      (assignDetectionsToTracks gridOps { tracks := [missedOnceTrack], numTracks := 1, history := [0] }
          [{ pt := { x := 11, y := 9 } }] 5).history = [0] :=
  ⟨rfl, by decide,
    single_detection_updates_track gridOps { tracks := [missedOnceTrack], numTracks := 1, history := [0] }
      missedOnceTrack { pt := { x := 11, y := 9 } } 5 rfl (by decide)⟩

theorem scanLost_cases {F M : Type} (l : List (track F M)) :
    ∀ i, (scanLost l i = some none ∧ ∀ t ∈ l, deletionTest t = some false) ∨
      (∃ pre t post, l = pre ++ t :: post ∧ (∀ u ∈ pre, deletionTest u = some false) ∧
        deletionTest t = some true ∧ scanLost l i = some (some (i + pre.length))) ∨
      (∃ pre t post, l = pre ++ t :: post ∧ (∀ u ∈ pre, deletionTest u = some false) ∧
        deletionTest t = none ∧ scanLost l i = none) := by
  induction l with
  | nil => intro i; left; exact ⟨rfl, fun t ht => by simp at ht⟩
  | cons t ts ih =>
    intro i
    cases hb : deletionTest t with
    | none =>
      right; right
      exact ⟨[], t, ts, rfl, fun u hu => by simp at hu, hb, by simp [scanLost, hb]⟩
    | some b =>
      cases b with
      | true =>
        right; left
        exact ⟨[], t, ts, rfl, fun u hu => by simp at hu, hb, by simp [scanLost, hb]⟩
      | false =>
        have hmem : ∀ (pre : List (track F M)), (∀ u ∈ pre, deletionTest u = some false) →
            ∀ v ∈ t :: pre, deletionTest v = some false := by
          intro pre hpre v hv
          rcases List.mem_cons.mp hv with rfl | hv'
          · exact hb
          · exact hpre v hv'
        rcases ih (i + 1) with ⟨h1, h2⟩ | ⟨pre, u, post, h1, h2, h3, h4⟩ | ⟨pre, u, post, h1, h2, h3, h4⟩
        · left
          exact ⟨by simp [scanLost, hb, h1], hmem ts h2⟩
        · right; left
          refine ⟨t :: pre, u, post, by simp [h1], hmem pre h2, h3, ?_⟩
          simp only [scanLost, hb, h4, List.length_cons]
          congr 2
          omega
        · right; right
          exact ⟨t :: pre, u, post, by simp [h1], hmem pre h2, h3, by simp [scanLost, hb, h4]⟩

theorem stableFilterPass_of_all_false {F M : Type} (l : List (track F M))
    (h : ∀ t ∈ l, deletionTest t = some false) : stableFilterPass l = some l := by
  induction l with
  | nil => rfl
  | cons t ts ih =>
    have h1 := h t (List.mem_cons_self _ _)
    have h2 := ih (fun u hu => h u (List.mem_cons_of_mem _ hu))
    simp [stableFilterPass, h1, h2]

theorem stableFilterPass_append {F M : Type} (pre rest : List (track F M))
    (h : ∀ t ∈ pre, deletionTest t = some false) :
    stableFilterPass (pre ++ rest) = (stableFilterPass rest).map fun r => pre ++ r := by
  induction pre with
  | nil => simp
  | cons t ts ih =>
    have h1 := h t (List.mem_cons_self _ _)
    have h2 := ih (fun u hu => h u (List.mem_cons_of_mem _ hu))
    cases hr : stableFilterPass rest with
    | none =>
      rw [hr] at h2
      simp [stableFilterPass, h1, h2]
    | some r =>
      rw [hr] at h2
      simp [stableFilterPass, h1, h2]

theorem stableFilterPass_cons_lost {F M : Type} (t : track F M) (ts : List (track F M))
    (h : deletionTest t = some true) : stableFilterPass (t :: ts) = stableFilterPass ts := by
  simp only [stableFilterPass, h]
  cases stableFilterPass ts <;> simp

theorem stableFilterPass_cons_undefined {F M : Type} (t : track F M) (ts : List (track F M))
    (h : deletionTest t = none) : stableFilterPass (t :: ts) = none := by
  simp only [stableFilterPass, h]

theorem deleteLostList_eq_stableFilterPass {F M : Type} :
    ∀ (n : Nat) (l : List (track F M)), l.length = n → deleteLostList l = stableFilterPass l := by
  intro n
  induction n using Nat.strong_induction_on with
  | _ n ih =>
    intro l hlen
    rcases scanLost_cases l 0 with ⟨h1, h2⟩ | ⟨pre, t, post, h1, h2, h3, h4⟩ | ⟨pre, t, post, h1, h2, h3, h4⟩
    · rw [deleteLostList_of_scan_none l h1, stableFilterPass_of_all_false l h2]
    · rw [deleteLostList_of_scan_some l _ h4]
      have he : l.eraseIdx (0 + pre.length) = pre ++ post := by
        rw [h1, Nat.zero_add, List.eraseIdx_append_of_length_le (le_refl _)]
        simp
      rw [he, ih (pre ++ post).length (by rw [← hlen, h1]; simp) (pre ++ post) rfl, h1,
        stableFilterPass_append pre post h2, stableFilterPass_append pre (t :: post) h2,
        stableFilterPass_cons_lost t post h3]
    · rw [deleteLostList_of_scan_undefined l h4, h1, stableFilterPass_append pre (t :: post) h2,
        stableFilterPass_cons_undefined t post h3]
      rfl

theorem stableFilterPass_some {F M : Type} (l : List (track F M)) :
    ∀ l', stableFilterPass l = some l' →
      l' = l.filter (fun t => deletionTest t != some true) ∧
      (∀ t ∈ l', deletionTest t = some false) := by
  induction l with
  | nil =>
    intro l' h
    simp only [stableFilterPass, Option.some.injEq] at h
    subst h
    exact ⟨rfl, fun t ht => by simp at ht⟩
  | cons t ts ih =>
    intro l' h
    cases hb : deletionTest t with
    | none => simp [stableFilterPass, hb] at h
    | some b =>
      cases hr : stableFilterPass ts with
      | none => simp [stableFilterPass, hb, hr] at h
      | some r =>
        obtain ⟨h1, h2⟩ := ih r hr
        simp only [stableFilterPass, hb, hr, Option.some.injEq] at h
        cases b with
        | true =>
          simp only [if_true] at h
          subst h
          exact ⟨by simp [List.filter_cons, hb, h1], h2⟩
        | false =>
          simp only [Bool.false_eq_true, if_false] at h
          subst h
          refine ⟨by simp [List.filter_cons, hb, h1], ?_⟩
          intro u hu
          rcases List.mem_cons.mp hu with rfl | hu'
          · exact hb
          · exact h2 u hu'

/-- Claim C13. On every track list the recursive, restart-after-each-erase
`deleteLostTracks` agrees with one stable filtering pass (both are undefined when
some track has age 0, where the test divides by zero); a result keeps, in their
original order and unchanged, exactly the tracks that do not meet the deletion
test, none of its tracks meets the test, and it is a fixed point; when every age is
at least 1 there is a result. -/
theorem deleteLostTracks_is_stable_filter {F M : Type} (l : List (track F M)) :
    deleteLostList l = stableFilterPass l ∧
    (∀ l', deleteLostList l = some l' →
      l' = l.filter (fun t => deletionTest t != some true) ∧
      (∀ t ∈ l', deletionTest t = some false) ∧
      deleteLostList l' = some l') ∧
    ((∀ t ∈ l, 1 ≤ t.age) →
      deleteLostList l = some (l.filter fun t => deletionTest t != some true)) ∧
    (∀ (s : MotionTracker F M), s.tracks = l →
      deleteLostTracks s = (stableFilterPass l).map fun r => { s with tracks := r }) := by
  have heq := deleteLostList_eq_stableFilterPass l.length l rfl
  refine ⟨heq, ?_, ?_, ?_⟩
  · intro l' h
    rw [heq] at h
    obtain ⟨h1, h2⟩ := stableFilterPass_some l l' h
    refine ⟨h1, h2, ?_⟩
    rw [deleteLostList_eq_stableFilterPass l'.length l' rfl]
    exact stableFilterPass_of_all_false l' h2
  · intro hage
    exact deleteLostList_eq_filter l.length l rfl hage
  · intro s hs
    simp only [deleteLostTracks, hs, heq]
    cases stableFilterPass l <;> rfl

theorem ids_injective {F M : Type} (l : List (track F M))
    (h : (l.map fun t => t.id).Pairwise (fun a b => a < b)) :
    ∀ u ∈ l, ∀ v ∈ l, u.id = v.id → u = v := by
  have hnd : (l.map fun t => t.id).Nodup := h.imp (fun hab => Nat.ne_of_lt hab)
  exact List.inj_on_of_nodup_map hnd

theorem IdsExtend_refl {F M : Type} (s : MotionTracker F M) : IdsExtend s s :=
  ⟨le_refl _, fun u hu => Or.inl (List.mem_map_of_mem _ hu)⟩

theorem IdsExtend_trans {F M : Type} (a b c : MotionTracker F M)
    (h1 : IdsExtend a b) (h2 : IdsExtend b c) : IdsExtend a c := by
  refine ⟨le_trans h1.1 h2.1, ?_⟩
  intro u hu
  rcases h2.2 u hu with h | h
  · obtain ⟨v, hv, hvid⟩ := List.mem_map.mp h
    rcases h1.2 v hv with h' | h'
    · left; rw [← hvid]; exact h'
    · right; rw [← hvid]; exact h'
  · right; exact le_trans h1.1 h

theorem IdsExtend_of_ids {F M : Type} (s s' : MotionTracker F M)
    (hn : s'.numTracks = s.numTracks)
    (hids : ∀ u ∈ s'.tracks, u.id ∈ s.tracks.map (fun t => t.id)) : IdsExtend s s' :=
  ⟨by omega, fun u hu => Or.inl (hids u hu)⟩

theorem assignOne_IdsExtend {F M D : Type} (ops : CvOps F M D) (d : D) (s : MotionTracker F M)
    (c : KeyPoint F) : IdsExtend s (assignOne ops d s c) := by
  have hmid : ∀ u ∈ (tryAssign ops c d s.tracks).1, u.id ∈ s.tracks.map (fun t => t.id) := by
    intro u hu
    rw [← tryAssign_ids ops c d s.tracks]
    exact List.mem_map_of_mem _ hu
  unfold assignOne
  split
  · simp only
    split
    · refine ⟨Nat.le_succ _, ?_⟩
      intro u hu
      simp only [createNewTrack, List.mem_append, List.mem_singleton] at hu
      rcases hu with hu | rfl
      · exact Or.inl (hmid u hu)
      · exact Or.inr (le_refl _)
    · exact ⟨le_refl _, fun u hu => Or.inl (hmid u hu)⟩
  · refine ⟨Nat.le_succ _, ?_⟩
    intro u hu
    simp only [createNewTrack, List.mem_append, List.mem_singleton] at hu
    rcases hu with hu | rfl
    · exact Or.inl (List.mem_map_of_mem _ hu)
    · exact Or.inr (le_refl _)

theorem foldl_assignOne_IdsExtend {F M D : Type} (ops : CvOps F M D) (d : D)
    (cs : List (KeyPoint F)) :
    ∀ (s : MotionTracker F M), IdsExtend s (cs.foldl (assignOne ops d) s) := by
  induction cs with
  | nil => intro s; exact IdsExtend_refl s
  | cons c cs ih =>
    intro s
    exact IdsExtend_trans _ _ _ (assignOne_IdsExtend ops d s c) (ih _)

theorem IdsExtend_map {F M : Type} (s : MotionTracker F M) (g : track F M → track F M)
    (hid : ∀ t, (g t).id = t.id) :
    IdsExtend s ({ s with tracks := s.tracks.map g } : MotionTracker F M) := by
  refine ⟨le_refl _, ?_⟩
  intro u hu
  obtain ⟨v, hv, rfl⟩ := List.mem_map.mp hu
  left
  rw [hid]
  exact List.mem_map_of_mem _ hv

theorem assignDetectionsToTracks_IdsExtend {F M D : Type} (ops : CvOps F M D)
    (s : MotionTracker F M) (cs : List (KeyPoint F)) (d : D) :
    IdsExtend s (assignDetectionsToTracks ops s cs d) := by
  unfold assignDetectionsToTracks
  simp only
  refine IdsExtend_trans _ _ _ ?_ (IdsExtend_map _ penalize penalize_id)
  refine IdsExtend_trans _ _ _ ?_ (foldl_assignOne_IdsExtend ops d cs _)
  exact IdsExtend_map s (fun t => { t with flag := false }) (fun _ => rfl)

theorem processCycle_IdsExtend {F M D : Type} (ops : CvOps F M D) (s s' : MotionTracker F M)
    (frame : List (KeyPoint F) × D) (h : processCycle ops s frame = some s') : IdsExtend s s' := by
  have h1 : IdsExtend s (predictNewLocationsOfTracks ops s) :=
    IdsExtend_map s _ (fun _ => rfl)
  have h2 := assignDetectionsToTracks_IdsExtend ops (predictNewLocationsOfTracks ops s) frame.1 frame.2
  have h3 := IdsExtend_trans _ _ _ h1 h2
  unfold processCycle deleteLostTracks at h
  cases hl : deleteLostList
      (assignDetectionsToTracks ops (predictNewLocationsOfTracks ops s) frame.1 frame.2).tracks with
  | none => simp [hl] at h
  | some l =>
    simp only [hl, Option.some.injEq] at h
    subst h
    have hsub := deleteLostList_sublist _ _ rfl l hl
    exact ⟨h3.1, fun u hu => h3.2 u (hsub.subset hu)⟩

theorem runCycles_IdsExtend {F M D : Type} (ops : CvOps F M D)
    (frames : List (List (KeyPoint F) × D)) :
    ∀ (s s' : MotionTracker F M), runCycles ops s frames = some s' → IdsExtend s s' := by
  induction frames with
  | nil =>
    intro s s' h
    simp only [runCycles, Option.some.injEq] at h
    subst h
    exact IdsExtend_refl s
  | cons f fs ih =>
    intro s s' h
    cases h1 : processCycle ops s f with
    | none => simp [runCycles, h1] at h
    | some s1 =>
      simp only [runCycles, h1] at h
      exact IdsExtend_trans _ _ _ (processCycle_IdsExtend ops s s1 f h1) (ih s1 s' h)

/-- Counters as natural numbers (no wrap-around): in a processing cycle from a state
satisfying the invariant of reachable states, a track whose `consecutiveInvisibleCount` is 20 (or more) after
`assignDetectionsToTracks` is not in the track list after the `deleteLostTracks` of
that cycle, and after any further cycles no track in the list carries its id. -/
theorem invisible_track_removed_for_good {F M D : Type} (ops : CvOps F M D)
    (s : MotionTracker F M) (frame : List (KeyPoint F) × D)
    (later : List (List (KeyPoint F) × D)) (t : track F M) (hs : StateInv s)
    (ht : t ∈ (assignDetectionsToTracks ops (predictNewLocationsOfTracks ops s) frame.1 frame.2).tracks)
    (h20 : 20 ≤ t.consecutiveInvisibleCount) :
    ∃ s1 s2, processCycle ops s frame = some s1 ∧ runCycles ops s1 later = some s2 ∧
      t ∉ s1.tracks ∧ (∀ u ∈ s1.tracks, u.id ≠ t.id) ∧ (∀ u ∈ s2.tracks, u.id ≠ t.id) := by
  have ha := assignDetectionsToTracks_inv ops _ frame.1 frame.2
    (predictNewLocationsOfTracks_inv ops s hs)
  obtain ⟨ha1, ha2, ha3, ha4⟩ := ha
  have hage : ∀ u ∈ (assignDetectionsToTracks ops (predictNewLocationsOfTracks ops s)
      frame.1 frame.2).tracks, 1 ≤ u.age := fun u hu => (ha1 u hu).1
  have hlost : deletionTest t = some true := by
    have h1 : ¬ t.age = 0 := by have := hage t ht; omega
    simp [deletionTest, h1, h20]
  have hcyc := processCycle_eq ops s frame hage
  obtain ⟨s1, hs1, hinv1⟩ := processCycle_inv ops s frame hs
  obtain ⟨s2, hs2, _⟩ := runCycles_inv ops later s1 hinv1
  have hs1tracks : ∀ u ∈ s1.tracks,
      u ∈ (assignDetectionsToTracks ops (predictNewLocationsOfTracks ops s) frame.1 frame.2).tracks ∧
        deletionTest u ≠ some true := by
    intro u hu
    rw [hcyc] at hs1
    simp only [Option.some.injEq] at hs1
    subst hs1
    have := List.mem_filter.mp hu
    exact ⟨this.1, by simpa using this.2⟩
  have hno1 : ∀ u ∈ s1.tracks, u.id ≠ t.id := by
    intro u hu hid
    obtain ⟨hu1, hu2⟩ := hs1tracks u hu
    have := ids_injective _ ha3 u hu1 t ht hid
    subst this
    exact hu2 hlost
  have hnum : t.id < s1.numTracks := by
    have h1 := ha2 t ht
    rw [hcyc] at hs1
    simp only [Option.some.injEq] at hs1
    subst hs1
    exact h1
  refine ⟨s1, s2, hs1, hs2, ?_, hno1, ?_⟩
  · intro hmem
    exact hno1 t hmem rfl
  · intro u hu hid
    rcases (runCycles_IdsExtend ops later s1 s2 hs2).2 u hu with h | h
    · obtain ⟨v, hv, hvid⟩ := List.mem_map.mp h
      exact hno1 v hv (by rw [hvid, hid])
    · omega

theorem StateInv_fadingState : StateInv fadingState := by
  refine ⟨?_, ?_, ?_, ?_⟩
  · intro t ht
    simp only [fadingState, List.mem_singleton] at ht
    subst ht
    exact ⟨by decide, by decide⟩
  · intro t ht
    simp only [fadingState, List.mem_singleton] at ht
    subst ht
    decide
  · simp [fadingState]
  · decide

theorem invisible_track_removed_for_good_witness :
    StateInv fadingState ∧
    fadedTrack ∈ (assignDetectionsToTracks gridOps (predictNewLocationsOfTracks gridOps fadingState)
      emptyFrame.1 emptyFrame.2).tracks ∧
    20 ≤ fadedTrack.consecutiveInvisibleCount ∧
    ∃ s1 s2, processCycle gridOps fadingState emptyFrame = some s1 ∧
      runCycles gridOps s1 [singleFrame] = some s2 ∧
      fadedTrack ∉ s1.tracks ∧ (∀ u ∈ s1.tracks, u.id ≠ fadedTrack.id) ∧
      (∀ u ∈ s2.tracks, u.id ≠ fadedTrack.id) :=
  ⟨StateInv_fadingState, by decide, by decide,
    invisible_track_removed_for_good gridOps fadingState emptyFrame [singleFrame] fadedTrack
      StateInv_fadingState (by decide) (by decide)⟩

theorem tryAssign_getElem? {F M D : Type} (ops : CvOps F M D) (c : KeyPoint F) (d : D)
    (l : List (track F M)) :
    ∀ k, (tryAssign ops c d l).1[k]?
      = (l[k]?).map fun t => if hitIndex ops c d l = k then matched ops c t else t := by
  induction l with
  | nil => intro k; simp [tryAssign]
  | cons t ts ih =>
    intro k
    rw [tryAssign_cons]
    by_cases hn : ops.normLt (curPoint t) c.pt d = true
    · have hi : hitIndex ops c d (t :: ts) = 0 := by
        simp [hitIndex, List.findIdx_cons, hn]
      simp only [hn, if_true, hi]
      cases k with
      | zero => simp
      | succ j =>
        have : ¬ (0 = j + 1) := by omega
        simp only [List.getElem?_cons_succ, this, if_false]
        cases ts[j]? <;> rfl
    · have hn' : ops.normLt (curPoint t) c.pt d = false := by simpa using hn
      have hi : hitIndex ops c d (t :: ts) = hitIndex ops c d ts + 1 := by
        simp [hitIndex, List.findIdx_cons, hn']
      simp only [hn', Bool.false_eq_true, if_false, hi]
      cases k with
      | zero => simp
      | succ j =>
        simp only [List.getElem?_cons_succ, ih j, Nat.add_right_cancel_iff]

theorem tryAssign_length {F M D : Type} (ops : CvOps F M D) (c : KeyPoint F) (d : D)
    (l : List (track F M)) : (tryAssign ops c d l).1.length = l.length := by
  have := congrArg List.length (tryAssign_ids ops c d l)
  simpa using this

theorem assignOne_getElem? {F M D : Type} (ops : CvOps F M D) (d : D) (s : MotionTracker F M)
    (c : KeyPoint F) (k : Nat) (t : track F M) (hk : s.tracks[k]? = some t) :
    (assignOne ops d s c).tracks[k]?
      = some (if hitIndex ops c d s.tracks = k then matched ops c t else t) := by
  have hlt : k < s.tracks.length := by
    rcases Nat.lt_or_ge k s.tracks.length with h | h
    · exact h
    · rw [List.getElem?_eq_none h] at hk; cases hk
  have hlt' : k < (tryAssign ops c d s.tracks).1.length := by
    rw [tryAssign_length]; exact hlt
  have hbase := tryAssign_getElem? ops c d s.tracks k
  rw [hk] at hbase
  have hpos : s.tracks.length > 0 := by omega
  unfold assignOne
  simp only [hpos, if_true]
  split
  · simp only [createNewTrack]
    rw [List.getElem?_append_left hlt']
    exact hbase
  · exact hbase

/-- Claim C19 fails on the code: for a tracker with n tracks `getCentroids` returns
2n key points, n default key points (0, 0) followed by the n centroids; for the
one-track state `fadingState` (centroid (10, 10)) it returns (0, 0), (10, 10). -/
theorem getCentroids_returns_two_per_track :
    (∀ (F M D : Type) (ops : CvOps F M D) (s : MotionTracker F M),
      (getCentroids ops s).length = 2 * s.tracks.length ∧
      getCentroids ops s
        = List.replicate s.tracks.length { pt := { x := ops.zero, y := ops.zero } }
            ++ s.tracks.map fun t => t.centroid) ∧
    getCentroids gridOps fadingState
      = [{ pt := { x := 0, y := 0 } }, { pt := { x := 10, y := 10 } }] := by
  refine ⟨?_, by decide⟩
  intro F M D ops s
  refine ⟨?_, rfl⟩
  simp [getCentroids]
  omega

end Tracking

namespace Capture

theorem toInt32_request (n : Nat) (r : Int) (hn : n < 2 ^ 32) (h1 : 1 ≤ r)
    (h2 : r ≤ Tracking.toInt32 n) :
    r.toNat ≤ n ∧ 1 ≤ r.toNat ∧ Tracking.toInt32 n = (n : Int) := by
  unfold Tracking.toInt32 at *
  norm_num at *
  omega

theorem chunk_length {β : Type} (stream : Nat → β) (pos n : Nat) :
    (chunk stream pos n).length = n := by
  simp [chunk]

theorem chunk_append {β : Type} (stream : Nat → β) (pos a b : Nat) :
    chunk stream pos (a + b) = chunk stream pos a ++ chunk stream (pos + a) b := by
  simp only [chunk, List.range_add, List.map_append, List.map_map]
  congr 1
  apply List.map_congr_left
  intro j _
  simp [Nat.add_assoc]

theorem storeAt_some {β : Type} (buf : List β) (offset : Nat) (bytes : List β)
    (h : offset + bytes.length ≤ buf.length) :
    ∃ buf', storeAt buf offset bytes = some buf' ∧ buf'.length = buf.length ∧
      buf'.take (offset + bytes.length) = buf.take offset ++ bytes ∧
      ∀ m, offset + bytes.length ≤ m → buf'.drop m = buf.drop m := by
  refine ⟨buf.take offset ++ bytes ++ buf.drop (offset + bytes.length), by simp [storeAt, h], ?_, ?_, ?_⟩
  · simp; omega
  · have hl : (buf.take offset ++ bytes).length = offset + bytes.length := by simp; omega
    rw [← hl, List.take_left]
  · intro m hm
    have hl : (buf.take offset ++ bytes).length = offset + bytes.length := by simp; omega
    have hm' : m = (buf.take offset ++ bytes).length + (m - (offset + bytes.length)) := by omega
    rw [hm', List.drop_append, List.drop_drop, hl]

theorem rawRecvLoop_complete {β : Type} (S : Nat) (hS : S < 2 ^ 32) (stream : Nat → β)
    (p0 : Nat) (buf0 : List β) :
    ∀ (results : List Int) (i : Nat) (buf : List β) (reqs : List (Nat × Int)),
      i ≤ S → ValidResults S i results → S - i ≤ results.length →
      S ≤ buf.length → buf.length = buf0.length → buf.take i = chunk stream p0 i →
      buf.drop S = buf0.drop S →
      (∀ p ∈ reqs, p.1 < S ∧ p.2 = (S : Int) - (p.1 : Int)) →
      ∃ d used, rawRecvLoop S stream results i (p0 + i) buf reqs = Outcome.returned d ∧
        d.i = S ∧ d.received = p0 + S ∧ d.buffer.take S = chunk stream p0 S ∧
        d.buffer.drop S = buf0.drop S ∧ d.buffer.length = buf0.length ∧
        (∀ p ∈ d.requests, p.1 < S ∧ p.2 = (S : Int) - (p.1 : Int)) ∧
        results = used ++ d.rest ∧ (∀ r ∈ used, 1 ≤ r) ∧ used.sum = ((S - i : Nat) : Int) := by
  intro results
  induction results with
  | nil =>
    intro i buf reqs hi _ hlen hbuf hbl htake hdrop hreqs
    have hiS : i = S := by simp at hlen; omega
    subst hiS
    refine ⟨{ i := i, received := p0 + i, buffer := buf, requests := reqs, rest := [] }, [], ?_,
      rfl, rfl, htake, hdrop, hbl, hreqs, rfl, fun r hr => by simp at hr, by simp⟩
    simp [rawRecvLoop]
  | cons r rs ih =>
    intro i buf reqs hi hvalid hlen hbuf hbl htake hdrop hreqs
    by_cases hlt : i < S
    · obtain ⟨hr1, hr2, hvalid'⟩ := hvalid hlt
      obtain ⟨hk1, hk2, hk3⟩ := toInt32_request (S - i) r (by omega) hr1 hr2
      have hfit : i + (chunk stream (p0 + i) r.toNat).length ≤ buf.length := by
        rw [chunk_length]; omega
      obtain ⟨buf', hst, hl', ht', hd'⟩ := storeAt_some buf i _ hfit
      rw [chunk_length] at ht'
      have hmod : (i + r.toNat) % 2 ^ 32 = i + r.toNat := Nat.mod_eq_of_lt (by omega)
      have hreqs' : ∀ p ∈ reqs ++ [(i, Tracking.toInt32 (S - i))],
          p.1 < S ∧ p.2 = (S : Int) - (p.1 : Int) := by
        intro p hp
        rcases List.mem_append.mp hp with hp | hp
        · exact hreqs p hp
        · simp only [List.mem_singleton] at hp
          subst hp
          refine ⟨hlt, ?_⟩
          show Tracking.toInt32 (S - i) = _
          rw [hk3]
          omega
      have hlen' : S - (i + r.toNat) ≤ rs.length := by
        simp only [List.length_cons] at hlen; omega
      have htake' : buf'.take (i + r.toNat) = chunk stream p0 (i + r.toNat) := by
        rw [ht', htake, chunk_append]
      have hdrop' : buf'.drop S = buf0.drop S := by
        rw [hd' S (by rw [chunk_length]; omega)]; exact hdrop
      obtain ⟨d, used, h1, h2, h3, h4, h5, h6, h7, h8, h9, h10⟩ :=
        ih (i + r.toNat) buf' (reqs ++ [(i, Tracking.toInt32 (S - i))]) (by omega) hvalid' hlen'
          (by omega) (by omega) htake' hdrop' hreqs'
      refine ⟨d, r :: used, ?_, h2, h3, h4, h5, h6, h7, by rw [h8]; rfl, ?_, ?_⟩
      · have hpos : (0 : Int) < r := by omega
        simp only [rawRecvLoop, hlt, if_true, hpos, hst, hmod]
        rw [show p0 + i + r.toNat = p0 + (i + r.toNat) by omega]
        exact h1
      · intro x hx
        rcases List.mem_cons.mp hx with rfl | hx'
        · exact hr1
        · exact h9 x hx'
      · simp only [List.sum_cons, h10]
        omega
    · have hiS : i = S := by omega
      subst hiS
      refine ⟨{ i := i, received := p0 + i, buffer := buf, requests := reqs, rest := r :: rs }, [], ?_,
        rfl, rfl, htake, hdrop, hbl, hreqs, rfl, fun r hr => by simp at hr, by simp⟩
      simp [rawRecvLoop]

/-- Claim C15. In raw mode, for every frame size `S = imgSize height width` and every
sequence of `recv` results in which each call made returns between 1 and the number
of bytes requested (with at least `S` results at hand, so that no call waits for
ever), the receive loop ends after having received exactly `S` bytes: the results
used are positive and sum to `S`, every call requested exactly the `S - i` bytes
still missing, and `socketBuffer` holds the first `S` bytes of the stream in stream
order, whatever the split into chunks; the bytes behind them are untouched. -/
theorem raw_frame_reassembled {β : Type} (height width : Nat) (stream : Nat → β)
    (results : List Int) (buf : List β)
    (hvalid : ValidResults (imgSize height width) 0 results)
    (hlen : imgSize height width ≤ results.length) (hbuf : imgSize height width ≤ buf.length) :
    ∃ d used, rawRecvLoop (imgSize height width) stream results 0 0 buf [] = Outcome.returned d ∧
      d.i = imgSize height width ∧ d.received = imgSize height width ∧
      d.buffer.take (imgSize height width) = chunk stream 0 (imgSize height width) ∧
      d.buffer.drop (imgSize height width) = buf.drop (imgSize height width) ∧
      (∀ p ∈ d.requests,
        p.1 < imgSize height width ∧ p.2 = (imgSize height width : Int) - (p.1 : Int)) ∧
      results = used ++ d.rest ∧ (∀ r ∈ used, 1 ≤ r) ∧ used.sum = (imgSize height width : Int) := by
  have hS : imgSize height width < 2 ^ 32 := Nat.mod_lt _ (by norm_num)
  obtain ⟨d, used, h1, h2, h3, h4, h5, _, h7, h8, h9, h10⟩ :=
    rawRecvLoop_complete (imgSize height width) hS stream 0 buf results 0 buf [] (Nat.zero_le _)
      hvalid (by omega) hbuf rfl (by simp [chunk]) rfl (fun p hp => by simp at hp)
  refine ⟨d, used, ?_, h2, ?_, h4, h5, h7, h8, h9, ?_⟩
  · simpa using h1
  · simpa using h3
  · simpa using h10

theorem raw_frame_reassembled_witness :
    ValidResults (imgSize 1 2) 0 [2, 3, 1, 5, 5, 5] ∧
    imgSize 1 2 ≤ [(2 : Int), 3, 1, 5, 5, 5].length ∧
    imgSize 1 2 ≤ (List.replicate 8 (0 : Nat)).length ∧
    ∃ d used, rawRecvLoop (imgSize 1 2) (fun n => n + 100) [2, 3, 1, 5, 5, 5] 0 0
          (List.replicate 8 0) [] = Outcome.returned d ∧
      d.i = imgSize 1 2 ∧ d.received = imgSize 1 2 ∧
      d.buffer.take (imgSize 1 2) = chunk (fun n => n + 100) 0 (imgSize 1 2) ∧
      d.buffer.drop (imgSize 1 2) = (List.replicate 8 0).drop (imgSize 1 2) ∧
      (∀ p ∈ d.requests, p.1 < imgSize 1 2 ∧ p.2 = (imgSize 1 2 : Int) - (p.1 : Int)) ∧
      [2, 3, 1, 5, 5, 5] = used ++ d.rest ∧ (∀ r ∈ used, 1 ≤ r) ∧ used.sum = (imgSize 1 2 : Int) :=
  have hv : ValidResults (imgSize 1 2) 0 [2, 3, 1, 5, 5, 5] := by
    simp [ValidResults, imgSize, Tracking.toInt32]
  ⟨hv, by decide, by decide,
    raw_frame_reassembled 1 2 (fun n => n + 100) [2, 3, 1, 5, 5, 5] (List.replicate 8 0) hv
      (by decide) (by decide)⟩

/-- Claim C16 fails: in raw mode (frame of 1 x 2 pixels) and in compressed mode
(decoder free), a first `recv` result of 0 makes `read` call `exit(1)`: the process
is terminated, `read` does not return. -/
theorem recv_zero_terminates_process :
    readRaw 1 2 (fun n => n + 100) [0, 6] 0 (List.replicate 8 0) = Outcome.exited [6] ∧
    readCompressed idleDecoder (imgSize 1 2) (fun n => n + 100) 3 [0, 6] 0 0 (List.replicate 8 0) ()
      = Outcome.exited [6] := by
  decide

theorem sum_nonneg_of_pos (l : List Int) (h : ∀ u ∈ l, 1 ≤ u) : (0 : Int) ≤ l.sum := by
  induction l with
  | nil => simp
  | cons a as ih =>
    have h1 := h a (List.mem_cons_self _ _)
    have h2 := ih (fun u hu => h u (List.mem_cons_of_mem _ hu))
    simp only [List.sum_cons]
    omega

theorem rawRecvLoop_stops {β : Type} (S : Nat) (hS : S < 2 ^ 32) (stream : Nat → β) (r : Int)
    (rest : List Int) (hr : r ≤ 0) :
    ∀ (used : List Int) (i pos : Nat) (buf : List β) (reqs : List (Nat × Int)),
      (∀ u ∈ used, 1 ≤ u) → (i : Int) + used.sum < S → S ≤ buf.length →
      rawRecvLoop S stream (used ++ r :: rest) i pos buf reqs
        = if r = 0 then Outcome.exited rest else Outcome.returnedFalse rest := by
  intro used
  induction used with
  | nil =>
    intro i pos buf reqs _ hsum _
    have hlt : i < S := by simp at hsum; omega
    have hnp : ¬ (0 < r) := by omega
    simp [rawRecvLoop, hlt, hnp]
  | cons u us ih =>
    intro i pos buf reqs hpos hsum hbuf
    have hu := hpos u (List.mem_cons_self _ _)
    have hus : ∀ v ∈ us, 1 ≤ v := fun v hv => hpos v (List.mem_cons_of_mem _ hv)
    have hnn := sum_nonneg_of_pos us hus
    simp only [List.sum_cons] at hsum
    have hlt : i < S := by omega
    have hfit : i + (chunk stream pos u.toNat).length ≤ buf.length := by
      rw [chunk_length]; omega
    obtain ⟨buf', hst, hl', _, _⟩ := storeAt_some buf i _ hfit
    have hmod : (i + u.toNat) % 2 ^ 32 = i + u.toNat := Nat.mod_eq_of_lt (by omega)
    have hp : (0 : Int) < u := by omega
    simp only [List.cons_append, rawRecvLoop, hlt, if_true, hp, hst, hmod]
    exact ih (i + u.toNat) _ buf' _ hus (by push_cast; omega) (by omega)

/-- Claim C16 as amended. In `VideoCapturePi::read`, raw and compressed mode, a `recv`
result of 0 is not retried and makes `read` terminate the process with `exit(1)`,
and a negative `recv` result makes `read` return false to its caller. Raw mode:
after any positive results that leave the frame incomplete; compressed mode: in any
iteration in which `recv` is called, that is, in which the decoder is free. -/
theorem recv_zero_exits_negative_returns_false {β Dec Img : Type} :
    (∀ (height width : Nat) (stream : Nat → β) (used : List Int) (r : Int) (rest : List Int)
        (pos : Nat) (buf : List β),
      (∀ u ∈ used, 1 ≤ u) → used.sum < (imgSize height width : Int) →
      imgSize height width ≤ buf.length → r ≤ 0 →
      readRaw height width stream (used ++ r :: rest) pos buf
        = if r = 0 then Outcome.exited rest else Outcome.returnedFalse rest) ∧
    (∀ (dops : DecoderOps Dec β Img) (S : Nat) (stream : Nat → β) (fuel : Nat) (r : Int)
        (rest : List Int) (iResult : Int) (pos : Nat) (buf : List β) (dec : Dec),
      dops.isFree dec = true → r ≤ 0 →
      readCompressed dops S stream (fuel + 1) (r :: rest) iResult pos buf dec
        = if r = 0 then Outcome.exited rest else Outcome.returnedFalse rest) := by
  refine ⟨?_, ?_⟩
  · intro height width stream used r rest pos buf hvalid hsum hbuf hr
    have hS : imgSize height width < 2 ^ 32 := Nat.mod_lt _ (by norm_num)
    have h := rawRecvLoop_stops (imgSize height width) hS stream r rest hr used 0 pos buf []
      hvalid (by simpa using hsum) hbuf
    by_cases hz : r = 0
    · rw [if_pos hz] at h ⊢
      simp only [readRaw, h]
    · rw [if_neg hz] at h ⊢
      simp only [readRaw, h]
  · intro dops S stream fuel r rest iResult pos buf dec hfree hr
    have hnp : ¬ (0 < r) := by omega
    simp only [readCompressed, hfree, if_true, hnp, if_false]

theorem takeWhile_append_zero (name tail : List Nat) (hnz : 0 ∉ name) :
    (name ++ 0 :: tail).takeWhile (fun b => b != 0) = name := by
  induction name with
  | nil => simp
  | cons a as ih =>
    have ha : a ≠ 0 := fun h => hnz (by simp [h])
    have has : 0 ∉ as := fun h => hnz (List.mem_cons_of_mem _ h)
    simp [List.takeWhile_cons, ha, ih has]

/-- Claim C17. For every codec name of fewer than 20 bytes without a zero byte, the
20-byte field `camSettings.codec` built by the client is the name followed only by
zero bytes, and the server's `std::string codec(camSettings.codec)` (the bytes up to
the first zero byte) is exactly the name. -/
theorem codec_name_round_trip (name : List Nat) (hlen : name.length < 20) (hnz : 0 ∉ name) :
    codecField name = some (name ++ List.replicate (20 - name.length) 0) ∧
    (name ++ List.replicate (20 - name.length) 0).length = 20 ∧
    cString (name ++ List.replicate (20 - name.length) 0) = some name := by
  refine ⟨?_, ?_, ?_⟩
  · have h : name.length ≤ (List.replicate 20 0).length := by simp; omega
    simp only [codecField, storeAt, List.take_zero, List.nil_append, Nat.zero_add,
      List.drop_replicate, if_pos h]
  · simp; omega
  · obtain ⟨m, hm⟩ : ∃ m, 20 - name.length = m + 1 := ⟨20 - name.length - 1, by omega⟩
    have hmem : 0 ∈ name ++ List.replicate (20 - name.length) 0 := by
      rw [hm]; simp [List.replicate_succ]
    simp only [cString, hmem, if_true]
    rw [hm, List.replicate_succ, takeWhile_append_zero name _ hnz]

theorem codec_name_round_trip_witness :
    [109, 112, 101, 103, 50, 118, 105, 100, 101, 111].length < 20 ∧
    0 ∉ [109, 112, 101, 103, 50, 118, 105, 100, 101, 111] ∧
    codecField [109, 112, 101, 103, 50, 118, 105, 100, 101, 111]
      = some ([109, 112, 101, 103, 50, 118, 105, 100, 101, 111]
          ++ List.replicate (20 - [109, 112, 101, 103, 50, 118, 105, 100, 101, 111].length) 0) ∧
    ([109, 112, 101, 103, 50, 118, 105, 100, 101, 111]
      ++ List.replicate (20 - [109, 112, 101, 103, 50, 118, 105, 100, 101, 111].length) 0).length = 20 ∧
    cString ([109, 112, 101, 103, 50, 118, 105, 100, 101, 111]
      ++ List.replicate (20 - [109, 112, 101, 103, 50, 118, 105, 100, 101, 111].length) 0)
      = some [109, 112, 101, 103, 50, 118, 105, 100, 101, 111] :=
  ⟨by decide, by decide,
    codec_name_round_trip [109, 112, 101, 103, 50, 118, 105, 100, 101, 111] (by decide) (by decide)⟩

end Capture

namespace Server

/-- Claim C18 fails: when the handshake `read` returns -1, `main` returns 1, so the
server process ends and does not go back to accepting connections; when it returns
0, the server goes on: it sets the camera up from the record it holds (here the
initial 30 fps, 640 x 480), creates and starts the encoder for its codec, runs the streaming
loop once, and only then closes the connection and goes back to `accept`. -/
theorem failed_handshake_not_abandoned :
    handleConnection initialSettings failedHandshake = ([], Next.processExit 1) ∧
    handleConnection initialSettings closedHandshake
      = ([Action.setFps 30, Action.setWidth 640, Action.setHeight 480,
          Action.newEncoder [109, 112, 101, 103, 50, 118, 105, 100, 101, 111] 640 480 30,
          Action.startEncoderThread, Action.closeClient, Action.joinEncoder],
         Next.backToAccept initialSettings) := by
  decide

/-- Claim C18 as amended. For every accepted connection whose handshake `read` of
the Camera Settings record returns a negative value, nothing is done to the camera,
no codec is set up and nothing is sent, and `main` returns 1: the server process
ends. -/
theorem negative_handshake_ends_server (cam : cameraSettings) (conn : Connection)
    (haccept : 0 ≤ conn.acceptResult) (hread : conn.handshakeResult < 0) :
    handleConnection cam conn = ([], Next.processExit 1) := by
  have h1 : ¬ (conn.acceptResult < 0) := by omega
  simp [handleConnection, h1, hread]

theorem negative_handshake_ends_server_witness :
    0 ≤ failedHandshake.acceptResult ∧ failedHandshake.handshakeResult < 0 ∧
    handleConnection initialSettings failedHandshake = ([], Next.processExit 1) :=
  ⟨by decide, by decide,
    negative_handshake_ends_server initialSettings failedHandshake (by decide) (by decide)⟩

end Server

namespace CircularFrameBuf

theorem contents_length_of_occupied {α : Type} (C : Nat) (q : QueueMat α) (h : Inv C q)
    (hne : q.front ≠ -1) :
    0 ≤ q.front ∧ q.front < C ∧ 0 ≤ q.rear ∧ q.rear < C ∧
      (contents q).length = ((q.rear - q.front) % (C : Int)).toNat + 1 := by
  obtain ⟨hsize, hlen, hshape⟩ := h
  rcases hshape with ⟨hf, _⟩ | ⟨hf0, hfC, hr0, hrC, _⟩
  · exact absurd hf hne
  · refine ⟨hf0, hfC, hr0, hrC, ?_⟩
    obtain ⟨f, hf⟩ : ∃ f : Nat, q.front = (f : Int) := ⟨q.front.toNat, by omega⟩
    obtain ⟨r, hr⟩ : ∃ r : Nat, q.rear = (r : Int) := ⟨q.rear.toNat, by omega⟩
    have hq : q = { rear := (r : Int), front := (f : Int), size := q.size, buffer := q.buffer } := by
      cases q
      simp only at hf hr
      subst hf hr
      rfl
    have hfC' : f < C := by omega
    have hrC' : r < C := by omega
    rw [hf, hr]
    rcases Nat.lt_or_ge r f with hlt | hge
    · have hmod : ((r : Int) - (f : Int)) % (C : Int) = (r : Int) - (f : Int) + (C : Int) := by
        rw [← Int.add_emod_self]
        exact Int.emod_eq_of_lt (by omega) (by omega)
      rw [hq, contents_gt f r q.size q.buffer hlt, hmod]
      simp only [List.length_append, List.length_drop, List.length_take, hlen]
      omega
    · have hmod : ((r : Int) - (f : Int)) % (C : Int) = (r : Int) - (f : Int) :=
        Int.emod_eq_of_lt (by omega) (by omega)
      rw [hq, contents_le f r q.size q.buffer hge, hmod]
      simp only [List.length_take, List.length_drop, hlen]
      omega

/-- Claim C28. Every sequence of `enQueue`/`deQueue` calls on a freshly constructed
queue of size `C >= 2` runs through, and in the state reached either
`front = rear = -1` and no item is stored, or `0 <= front < C` and `0 <= rear < C`
and the number of items stored is `((rear - front) mod C) + 1` (`mod` with a result
in `0 .. C - 1`); when exactly one item is stored, `deQueue` returns true, hands
out that item and leaves `front = rear = -1`. -/
theorem front_rear_shape_on_reachable {α : Type} (C : Nat) (hC : 2 ≤ C) (dflt : α)
    (calls : List (Call α)) :
    ∃ rs q, runCalls (QueueMat.init dflt C) calls = some (rs, q) ∧
      ((q.front = -1 ∧ q.rear = -1 ∧ storedFrom [] calls rs = []) ∨
        (0 ≤ q.front ∧ q.front < C ∧ 0 ≤ q.rear ∧ q.rear < C ∧
          (storedFrom [] calls rs).length = ((q.rear - q.front) % (C : Int)).toNat + 1)) ∧
      ∀ (y out : α), storedFrom [] calls rs = [y] →
        ∃ q', deQueue q out = some (true, y, q') ∧ q'.front = -1 ∧ q'.rear = -1 := by
  obtain ⟨rs, q, h1, hinv, _, hcont⟩ := run_from_init C hC dflt calls
  refine ⟨rs, q, h1, ?_, ?_⟩
  · by_cases hf : q.front = -1
    · left
      obtain ⟨_, _, hshape⟩ := hinv
      rcases hshape with ⟨_, hr⟩ | ⟨hf0, _⟩
      · refine ⟨hf, hr, ?_⟩
        rw [← hcont]
        simp [contents, hf]
      · omega
    · right
      rw [← hcont]
      exact contents_length_of_occupied C q hinv hf
  · intro y out hy
    obtain ⟨q', hd, hinv', hcont'⟩ := deQueue_refines C q hinv out
    rw [hcont, hy] at hd hcont'
    simp only [fifoCall] at hd hcont'
    refine ⟨q', hd, ?_⟩
    by_cases hf : q'.front = -1
    · obtain ⟨_, _, hshape⟩ := hinv'
      rcases hshape with ⟨_, hr⟩ | ⟨hf0, _⟩
      · exact ⟨hf, hr⟩
      · omega
    · have := (contents_length_of_occupied C q' hinv' hf).2.2.2.2
      rw [hcont'] at this
      simp at this

theorem front_rear_shape_on_reachable_witness :
    2 ≤ 3 ∧
    ∃ rs q, runCalls (QueueMat.init 0 3)
        [Call.enQ 7, Call.enQ 8, Call.enQ 9, Call.deQ 0, Call.enQ 10] = some (rs, q) ∧
      ((q.front = -1 ∧ q.rear = -1 ∧
          storedFrom [] [Call.enQ 7, Call.enQ 8, Call.enQ 9, Call.deQ 0, Call.enQ 10] rs = []) ∨
        (0 ≤ q.front ∧ q.front < (3 : Nat) ∧ 0 ≤ q.rear ∧ q.rear < (3 : Nat) ∧
          (storedFrom [] [Call.enQ 7, Call.enQ 8, Call.enQ 9, Call.deQ 0, Call.enQ 10] rs).length
            = ((q.rear - q.front) % ((3 : Nat) : Int)).toNat + 1)) ∧
      ∀ (y out : Nat),
        storedFrom [] [Call.enQ 7, Call.enQ 8, Call.enQ 9, Call.deQ 0, Call.enQ 10] rs = [y] →
        ∃ q', deQueue q out = some (true, y, q') ∧ q'.front = -1 ∧ q'.rear = -1 :=
  ⟨by decide, front_rear_shape_on_reachable 3 (by decide) 0
    [Call.enQ 7, Call.enQ 8, Call.enQ 9, Call.deQ 0, Call.enQ 10]⟩

end CircularFrameBuf

namespace Tracking

/-- Counters as natural numbers (no wrap-around): every run of processing cycles
from the empty tracker goes through, and in the state reached every track has an age of at least 1 (and at most the
number of cycles plus the number of detections processed, so the counter has not
wrapped for runs shorter than the counter range) and a defined deletion test; and
whatever the next frame is, every track on which `deleteLostTracks` then evaluates
`totalVisibleCount / age` has age at least 1, so that `deleteLostTracks` has a
result. -/
theorem age_positive_on_reachable {F M D : Type} (ops : CvOps F M D)
    (frames : List (List (KeyPoint F) × D)) :
    ∃ s, runCycles ops MotionTracker.empty frames = some s ∧
      (∀ t ∈ s.tracks, 1 ≤ t.age ∧ t.age ≤ frames.length + detectionCount frames ∧
        ∃ b, deletionTest t = some b) ∧
      (∃ s', deleteLostTracks s = some s') ∧
      ∀ (frame : List (KeyPoint F) × D),
        (∀ t ∈ (assignDetectionsToTracks ops (predictNewLocationsOfTracks ops s)
            frame.1 frame.2).tracks, 1 ≤ t.age ∧ ∃ b, deletionTest t = some b) ∧
        ∃ s', deleteLostTracks
          (assignDetectionsToTracks ops (predictNewLocationsOfTracks ops s) frame.1 frame.2)
            = some s' := by
  obtain ⟨s, hrun, hinv⟩ := runCycles_inv ops frames MotionTracker.empty StateInv_empty
  have hbelow := runCycles_below ops frames MotionTracker.empty s 0 0
    ⟨by intro t ht; simp [MotionTracker.empty] at ht, by simp [MotionTracker.empty]⟩ hrun
  refine ⟨s, hrun, ?_, ?_, ?_⟩
  · intro t ht
    have h1 := (hinv.1 t ht).1
    refine ⟨h1, ?_, deletionTest_isSome t h1⟩
    have := hbelow.1 t ht
    omega
  · obtain ⟨s', h, _⟩ := deleteLostTracks_inv s hinv
    exact ⟨s', h⟩
  · intro frame
    have ha := assignDetectionsToTracks_inv ops _ frame.1 frame.2
      (predictNewLocationsOfTracks_inv ops s hinv)
    refine ⟨?_, ?_⟩
    · intro t ht
      have h1 := (ha.1 t ht).1
      exact ⟨h1, deletionTest_isSome t h1⟩
    · obtain ⟨s', h, _⟩ := deleteLostTracks_inv _ ha
      exact ⟨s', h⟩

/-- Claim C25. For every tracker state and every detection `c`, `createNewTrack(c)`
appends exactly one track at the end of the track list, with filter state vector
`(c.x, c.y, 0, 0, 0, 0)`, `age = 1`, `totalVisibleCount = 1`,
`consecutiveInvisibleCount = 0` and id equal to the previous value of `numTracks`;
`numTracks` grows by 1 and every track that was in the list is still there, at its
index and unchanged. -/
theorem createNewTrack_appends_one {F M D : Type} (ops : CvOps F M D) (s : MotionTracker F M)
    (c : KeyPoint F) :
    ∃ t, (createNewTrack ops s c).tracks = s.tracks ++ [t] ∧
      t.kalmanFilter.statePost
        = { x := c.pt.x, y := c.pt.y, vx := ops.zero, vy := ops.zero, ax := ops.zero, ay := ops.zero } ∧
      t.age = 1 ∧ t.totalVisibleCount = 1 ∧ t.consecutiveInvisibleCount = 0 ∧
      t.id = s.numTracks ∧
      (createNewTrack ops s c).numTracks = s.numTracks + 1 ∧
      (createNewTrack ops s c).tracks.length = s.tracks.length + 1 ∧
      (∀ (k : Nat) (u : track F M), s.tracks[k]? = some u → (createNewTrack ops s c).tracks[k]? = some u) ∧
      (createNewTrack ops s c).tracks[s.tracks.length]? = some t := by
  refine ⟨_, rfl, rfl, rfl, rfl, rfl, rfl, rfl, ?_, ?_, ?_⟩
  · simp [createNewTrack]
  · intro k u hk
    have hlt : k < s.tracks.length := by
      rcases Nat.lt_or_ge k s.tracks.length with h | h
      · exact h
      · rw [List.getElem?_eq_none h] at hk; cases hk
    simp only [createNewTrack]
    rw [List.getElem?_append_left hlt]
    exact hk
  · simp [createNewTrack]

theorem deletionTest_of_ok {F M : Type} (t : track F M) (hage : 1 ≤ t.age)
    (hvis : t.totalVisibleCount ≤ t.age) :
    deletionTest t = some (decide (t.consecutiveInvisibleCount ≥ 20 ∨
      (t.age < 8 ∧ t.totalVisibleCount < t.age))) := by
  have h0 : ¬ t.age = 0 := by omega
  rcases Nat.lt_or_ge t.totalVisibleCount t.age with hlt | hge
  · have hq : t.totalVisibleCount / t.age = 0 := Nat.div_eq_of_lt hlt
    have h1 : ltDoubleZeroPointSix (toInt32 0) = true := by decide
    simp only [deletionTest, h0, if_false, hq, h1, Bool.and_true]
    by_cases h8 : t.age < 8 <;> by_cases h20 : t.consecutiveInvisibleCount ≥ 20 <;>
      simp [h8, h20, hlt]
  · have heq : t.totalVisibleCount = t.age := by omega
    have hq : t.totalVisibleCount / t.age = 1 := by
      rw [heq]; exact Nat.div_self (by omega)
    have h1 : ltDoubleZeroPointSix (toInt32 1) = false := by decide
    simp only [deletionTest, h0, if_false, hq, h1, Bool.and_false, Bool.false_or]
    by_cases h20 : t.consecutiveInvisibleCount ≥ 20 <;> simp [h20, heq]

/-- Claim C26. On a track list in which every track has `age >= 1` and
`totalVisibleCount <= age`, the test that `deleteLostTracks` evaluates (the integer
quotient `totalVisibleCount / age` compared with `0.6`) holds for a track exactly
when `consecutiveInvisibleCount >= 20`, or `age < 8` and `totalVisibleCount < age`;
`deleteLostTracks` has a result, which keeps exactly the tracks for which this does
not hold, and every track younger than 8 that it keeps has
`totalVisibleCount = age`. -/
theorem deletion_by_integer_quotient {F M : Type} (l : List (track F M))
    (h : ∀ t ∈ l, 1 ≤ t.age ∧ t.totalVisibleCount ≤ t.age) :
    (∀ t ∈ l, deletionTest t = some (decide (t.consecutiveInvisibleCount ≥ 20 ∨
      (t.age < 8 ∧ t.totalVisibleCount < t.age)))) ∧
    deleteLostList l = some (l.filter fun t =>
      !decide (t.consecutiveInvisibleCount ≥ 20 ∨ (t.age < 8 ∧ t.totalVisibleCount < t.age))) ∧
    ∀ l', deleteLostList l = some l' → ∀ t ∈ l', t.age < 8 → t.totalVisibleCount = t.age := by
  have htest : ∀ t ∈ l, deletionTest t = some (decide (t.consecutiveInvisibleCount ≥ 20 ∨
      (t.age < 8 ∧ t.totalVisibleCount < t.age))) :=
    fun t ht => deletionTest_of_ok t (h t ht).1 (h t ht).2
  have hdel : deleteLostList l = some (l.filter fun t =>
      !decide (t.consecutiveInvisibleCount ≥ 20 ∨ (t.age < 8 ∧ t.totalVisibleCount < t.age))) := by
    rw [deleteLostList_eq_filter l.length l rfl (fun t ht => (h t ht).1)]
    congr 1
    apply List.filter_congr
    intro t ht
    rw [htest t ht]
    by_cases hc : t.consecutiveInvisibleCount ≥ 20 ∨ (t.age < 8 ∧ t.totalVisibleCount < t.age) <;>
      simp [hc]
  refine ⟨htest, hdel, ?_⟩
  intro l' hl' t ht h8
  rw [hdel] at hl'
  simp only [Option.some.injEq] at hl'
  subst hl'
  obtain ⟨hmem, hkeep⟩ := List.mem_filter.mp ht
  have hv := (h t hmem).2
  simp only [Bool.not_eq_true', decide_eq_false_iff_not, not_or, not_and] at hkeep
  have := hkeep.2 h8
  omega

theorem deletion_by_integer_quotient_witness :
    (∀ t ∈ [missedOnceTrack, freshTrack], 1 ≤ t.age ∧ t.totalVisibleCount ≤ t.age) ∧
    (∀ t ∈ [missedOnceTrack, freshTrack],
      deletionTest t = some (decide (t.consecutiveInvisibleCount ≥ 20 ∨
        (t.age < 8 ∧ t.totalVisibleCount < t.age)))) ∧
    deleteLostList [missedOnceTrack, freshTrack] = some ([missedOnceTrack, freshTrack].filter fun t =>
      !decide (t.consecutiveInvisibleCount ≥ 20 ∨ (t.age < 8 ∧ t.totalVisibleCount < t.age))) ∧
    ∀ l', deleteLostList [missedOnceTrack, freshTrack] = some l' →
      ∀ t ∈ l', t.age < 8 → t.totalVisibleCount = t.age :=
  ⟨by decide, deletion_by_integer_quotient [missedOnceTrack, freshTrack] (by decide)⟩

theorem assignOne_ids {F M D : Type} (ops : CvOps F M D) (d : D) (s : MotionTracker F M)
    (c : KeyPoint F) :
    ∃ new, (assignOne ops d s c).tracks.map (fun t => t.id) = s.tracks.map (fun t => t.id) ++ new ∧
      (∀ i ∈ new, s.numTracks ≤ i) ∧ s.numTracks ≤ (assignOne ops d s c).numTracks := by
  unfold assignOne
  by_cases hpos : s.tracks.length > 0
  · by_cases hr : (tryAssign ops c d s.tracks).2 = true
    · refine ⟨[], ?_, by simp, ?_⟩
      · simp only [hpos, if_true, hr, Bool.not_true, Bool.false_eq_true, if_false, tryAssign_ids,
          List.append_nil]
      · simp only [hpos, if_true, hr, Bool.not_true, Bool.false_eq_true, if_false, le_refl]
    · have hr' : (tryAssign ops c d s.tracks).2 = false := by simpa using hr
      refine ⟨[s.numTracks], ?_, by simp, ?_⟩
      · simp only [hpos, if_true, hr', Bool.not_false, createNewTrack, List.map_append,
          tryAssign_ids, List.map_cons, List.map_nil]
      · simp only [hpos, if_true, hr', Bool.not_false, createNewTrack]
        omega
  · refine ⟨[s.numTracks], ?_, by simp, ?_⟩
    · simp only [hpos, if_false, createNewTrack, List.map_append, List.map_cons, List.map_nil]
    · simp only [hpos, if_false, createNewTrack]
      omega

theorem foldl_assignOne_ids {F M D : Type} (ops : CvOps F M D) (d : D) (cs : List (KeyPoint F)) :
    ∀ (s : MotionTracker F M), ∃ new,
      (cs.foldl (assignOne ops d) s).tracks.map (fun t => t.id)
        = s.tracks.map (fun t => t.id) ++ new ∧ ∀ i ∈ new, s.numTracks ≤ i := by
  induction cs with
  | nil => intro s; exact ⟨[], by simp, by simp⟩
  | cons c cs ih =>
    intro s
    obtain ⟨n1, h1, h1b, h1c⟩ := assignOne_ids ops d s c
    obtain ⟨n2, h2, h2b⟩ := ih (assignOne ops d s c)
    refine ⟨n1 ++ n2, ?_, ?_⟩
    · simp only [List.foldl_cons]
      rw [h2, h1, List.append_assoc]
    · intro i hi
      rcases List.mem_append.mp hi with h | h
      · exact h1b i h
      · exact le_trans h1c (h2b i h)

theorem assignDetectionsToTracks_ids {F M D : Type} (ops : CvOps F M D) (s : MotionTracker F M)
    (cs : List (KeyPoint F)) (d : D) :
    ∃ new, (assignDetectionsToTracks ops s cs d).tracks.map (fun t => t.id)
      = s.tracks.map (fun t => t.id) ++ new ∧ ∀ i ∈ new, s.numTracks ≤ i := by
  obtain ⟨new, h, hb⟩ := foldl_assignOne_ids ops d cs (resetFlags s)
  refine ⟨new, ?_, hb⟩
  have h0 : (resetFlags s).tracks.map (fun t => t.id) = s.tracks.map (fun t => t.id) := by
    simp [resetFlags, List.map_map, Function.comp_def]
  rw [h0] at h
  rw [← h]
  simp only [assignDetectionsToTracks, List.map_map]
  apply List.map_congr_left
  intro t _
  exact penalize_id t

/-- Counters as natural numbers (no wrap-around): after any sequence of processing
cycles from the empty tracker the ids
are strictly increasing along the track list. The three steps of a cycle keep the
order: `predictNewLocationsOfTracks` keeps the list of ids, the list of ids after
`assignDetectionsToTracks` is the list of ids before it followed by the ids of the
tracks created in the call (each at least the value of `numTracks` before the call),
and the track list after `deleteLostTracks` is a sublist of the list before it. -/
theorem track_list_sorted_by_id {F M D : Type} (ops : CvOps F M D)
    (frames : List (List (KeyPoint F) × D)) :
    (∃ s, runCycles ops MotionTracker.empty frames = some s ∧
      (s.tracks.map fun t => t.id).Pairwise (fun a b => a < b)) ∧
    (∀ (s : MotionTracker F M),
      (predictNewLocationsOfTracks ops s).tracks.map (fun t => t.id)
        = s.tracks.map (fun t => t.id)) ∧
    (∀ (s : MotionTracker F M) (cs : List (KeyPoint F)) (d : D), ∃ new,
      (assignDetectionsToTracks ops s cs d).tracks.map (fun t => t.id)
        = s.tracks.map (fun t => t.id) ++ new ∧
      ∀ i ∈ new, s.numTracks ≤ i) ∧
    (∀ (s s' : MotionTracker F M), deleteLostTracks s = some s' →
      s'.tracks.Sublist s.tracks) := by
  refine ⟨?_, ?_, ?_, ?_⟩
  · obtain ⟨s, hrun, hinv⟩ := runCycles_inv ops frames MotionTracker.empty StateInv_empty
    exact ⟨s, hrun, hinv.2.2.1⟩
  · intro s
    simp [predictNewLocationsOfTracks, List.map_map, Function.comp_def]
  · intro s cs d
    exact assignDetectionsToTracks_ids ops s cs d
  · intro s s' h
    unfold deleteLostTracks at h
    cases hl : deleteLostList s.tracks with
    | none => rw [hl] at h; cases h
    | some l =>
      rw [hl] at h
      simp only [Option.some.injEq] at h
      subst h
      exact deleteLostList_sublist s.tracks.length s.tracks rfl l hl

theorem deleteLostCalls_finishes {F M : Type} :
    ∀ (n : Nat) (l : List (track F M)), l.length = n → (∀ t ∈ l, 1 ≤ t.age) →
      ∃ r calls,
        (∀ depth, l.length + 1 ≤ depth → deleteLostCalls depth l = Run.finished (r, calls)) ∧
        List.Chain (fun a b => b.length + 1 = a.length) l calls ∧
        r.length + calls.length = l.length ∧
        deleteLostList l = some r := by
  intro n
  induction n with
  | zero =>
    intro l hl _
    have hnil : l = [] := List.length_eq_zero.mp hl
    subst hnil
    refine ⟨[], [], ?_, List.Chain.nil, rfl, ?_⟩
    · intro depth hd
      obtain ⟨k, rfl⟩ : ∃ k, depth = k + 1 := ⟨depth - 1, by simp at hd; omega⟩
      simp [deleteLostCalls, scanLost]
    · exact deleteLostList_of_scan_none [] (by simp [scanLost])
  | succ n ih =>
    intro l hl hage
    rcases scanLost_shape l hage 0 with ⟨hscan, _⟩ | ⟨pre, t, post, hsplit, _, _, hscan⟩
    · refine ⟨l, [], ?_, List.Chain.nil, by simp, deleteLostList_of_scan_none l hscan⟩
      intro depth hd
      obtain ⟨k, rfl⟩ : ∃ k, depth = k + 1 := ⟨depth - 1, by omega⟩
      simp [deleteLostCalls, hscan]
    · simp only [Nat.zero_add] at hscan
      have herase : l.eraseIdx pre.length = pre ++ post := by
        rw [hsplit]
        simp [List.eraseIdx_append_of_length_le]
      have hlen : (l.eraseIdx pre.length).length = n := by
        rw [herase]
        rw [hsplit] at hl
        simp at hl ⊢
        omega
      have hage' : ∀ u ∈ l.eraseIdx pre.length, 1 ≤ u.age := by
        intro u hu
        exact hage u (List.mem_of_mem_eraseIdx hu)
      obtain ⟨r, calls, h1, h2, h3, h4⟩ := ih (l.eraseIdx pre.length) hlen hage'
      refine ⟨r, l.eraseIdx pre.length :: calls, ?_, ?_, ?_, ?_⟩
      · intro depth hd
        obtain ⟨k, rfl⟩ : ∃ k, depth = k + 1 := ⟨depth - 1, by omega⟩
        have hk := h1 k (by omega)
        simp [deleteLostCalls, hscan, hk]
      · exact List.Chain.cons (by omega) h2
      · simp only [List.length_cons]
        omega
      · rw [deleteLostList_of_scan_some l pre.length hscan]
        exact h4

/-- Claim C22. On every track list in which every age is at least 1,
`deleteLostTracks` finishes within a recursion depth of the length of the list plus
one: each recursive call is made on a list exactly one track shorter than the list
of its caller, the number of recursive calls is the number of tracks removed, which
is at most the length of the list, and the list left at the end is the result of
`deleteLostTracks`. -/
theorem deleteLostTracks_terminates {F M : Type} (l : List (track F M))
    (hage : ∀ t ∈ l, 1 ≤ t.age) :
    ∃ r calls,
      (∀ depth, l.length + 1 ≤ depth → deleteLostCalls depth l = Run.finished (r, calls)) ∧
      List.Chain (fun a b => b.length + 1 = a.length) l calls ∧
      calls.length ≤ l.length ∧
      r.length + calls.length = l.length ∧
      deleteLostList l = some r := by
  obtain ⟨r, calls, h1, h2, h3, h4⟩ := deleteLostCalls_finishes l.length l rfl hage
  exact ⟨r, calls, h1, h2, by omega, h3, h4⟩

theorem deleteLostTracks_terminates_witness :
    (∀ t ∈ [missedOnceTrack, freshTrack, fadedTrack], 1 ≤ t.age) ∧
    ∃ r calls,
      (∀ depth, [missedOnceTrack, freshTrack, fadedTrack].length + 1 ≤ depth →
        deleteLostCalls depth [missedOnceTrack, freshTrack, fadedTrack] = Run.finished (r, calls)) ∧
      List.Chain (fun a b => b.length + 1 = a.length) [missedOnceTrack, freshTrack, fadedTrack] calls ∧
      calls.length ≤ [missedOnceTrack, freshTrack, fadedTrack].length ∧
      r.length + calls.length = [missedOnceTrack, freshTrack, fadedTrack].length ∧
      deleteLostList [missedOnceTrack, freshTrack, fadedTrack] = some r :=
  ⟨by decide, deleteLostTracks_terminates [missedOnceTrack, freshTrack, fadedTrack] (by decide)⟩

/-- Claim C27. For a tracker with no tracks and two detections `p`, `q` with
`norm(p - q) < distCutoff`, the call `assignDetectionsToTracks([p, q], distCutoff)`
leaves exactly one track: the track created from `p`, to which `q` was then
assigned (its filter is the filter created from `p`, corrected with `q`). It has
`age = 2`, `totalVisibleCount = 2` and `consecutiveInvisibleCount = 0`, and it is
the only track after the processing cycle as well. -/
theorem two_close_detections_one_track {F M D : Type} (ops : CvOps F M D)
    (s : MotionTracker F M) (p q : KeyPoint F) (distCutoff : D) (hempty : s.tracks = [])
    (hnear : ops.normLt p.pt q.pt distCutoff = true) :
    ∃ t, (assignDetectionsToTracks ops s [p, q] distCutoff).tracks = [t] ∧
      t.id = s.numTracks ∧ t.age = 2 ∧ t.totalVisibleCount = 2 ∧
      t.consecutiveInvisibleCount = 0 ∧
      (∃ t0, (createNewTrack ops s p).tracks = [t0] ∧
        t.kalmanFilter = ops.correct t0.kalmanFilter q.pt) ∧
      (assignDetectionsToTracks ops s [p, q] distCutoff).numTracks = s.numTracks + 1 ∧
      ∃ s', processCycle ops s ([p, q], distCutoff) = some s' ∧ s'.tracks = [t] ∧
        s'.numTracks = s.numTracks + 1 := by
  have hassign : (assignDetectionsToTracks ops s [p, q] distCutoff)
      = { tracks := [{ id := s.numTracks, centroid := q,
                       kalmanFilter := ops.correct
                         { statePost := { x := p.pt.x, y := p.pt.y, vx := ops.zero, vy := ops.zero, ax := ops.zero, ay := ops.zero },
                           mats := ops.configured } q.pt,
                       age := 2, totalVisibleCount := 2, consecutiveInvisibleCount := 0,
                       flag := true }],
          numTracks := s.numTracks + 1,
          history := s.history ++ [s.numTracks] } := by
    have hn : ops.normLt { x := p.pt.x, y := p.pt.y } q.pt distCutoff = true := hnear
    simp [assignDetectionsToTracks, resetFlags, hempty, assignOne, createNewTrack, tryAssign,
      curPoint, hn, penalize]
  have hpred : predictNewLocationsOfTracks ops s = s := by
    cases s with
    | mk tracks numTracks history =>
      simp only at hempty
      subst hempty
      rfl
  refine ⟨_, by rw [hassign], rfl, rfl, rfl, rfl, ?_, by rw [hassign], ?_⟩
  · refine ⟨{ id := s.numTracks, centroid := { pt := { x := ops.zero, y := ops.zero } },
               kalmanFilter :=
                 { statePost := { x := p.pt.x, y := p.pt.y, vx := ops.zero, vy := ops.zero, ax := ops.zero, ay := ops.zero },
                   mats := ops.configured },
               age := 1, totalVisibleCount := 1, consecutiveInvisibleCount := 0, flag := true }, ?_, rfl⟩
    simp [createNewTrack, hempty]
  · have hcyc := processCycle_eq ops s ([p, q], distCutoff) (by
      intro t ht
      rw [hpred] at ht
      simp only at ht
      rw [hassign] at ht
      simp only [List.mem_singleton] at ht
      subst ht
      show 1 ≤ 2
      omega)
    refine ⟨_, hcyc, ?_, ?_⟩
    · rw [hpred]
      simp only
      rw [hassign]
      simp [deletionTest, toInt32, ltDoubleZeroPointSix]
    · rw [hpred]
      simp only
      rw [hassign]

theorem two_close_detections_one_track_witness :
    (MotionTracker.empty : MotionTracker Int Unit).tracks = [] ∧
    gridOps.normLt pointA.pt pointB.pt 5 = true ∧
    ∃ t, (assignDetectionsToTracks gridOps MotionTracker.empty [pointA, pointB] 5).tracks = [t] ∧
      t.id = (MotionTracker.empty : MotionTracker Int Unit).numTracks ∧ t.age = 2 ∧
      t.totalVisibleCount = 2 ∧ t.consecutiveInvisibleCount = 0 ∧
      (∃ t0, (createNewTrack gridOps MotionTracker.empty pointA).tracks = [t0] ∧
        t.kalmanFilter = gridOps.correct t0.kalmanFilter pointB.pt) ∧
      (assignDetectionsToTracks gridOps MotionTracker.empty [pointA, pointB] 5).numTracks
        = (MotionTracker.empty : MotionTracker Int Unit).numTracks + 1 ∧
      ∃ s', processCycle gridOps MotionTracker.empty ([pointA, pointB], 5) = some s' ∧
        s'.tracks = [t] ∧
        s'.numTracks = (MotionTracker.empty : MotionTracker Int Unit).numTracks + 1 :=
  ⟨rfl, by decide,
    two_close_detections_one_track gridOps MotionTracker.empty pointA pointB 5 rfl (by decide)⟩

theorem tryAssign_hit {F M D : Type} (ops : CvOps F M D) (c : KeyPoint F) (d : D)
    (l : List (track F M)) :
    ∀ (k : Nat) (t : track F M), l[k]? = some t → hitIndex ops c d l = k →
      tryAssign ops c d l = (l.set k (matched ops c t), true) := by
  induction l with
  | nil => intro k t hk; simp at hk
  | cons a as ih =>
    intro k t hk hhit
    rw [tryAssign_cons]
    by_cases hn : ops.normLt (curPoint a) c.pt d = true
    · have hi : hitIndex ops c d (a :: as) = 0 := by
        simp [hitIndex, List.findIdx_cons, hn]
      rw [hi] at hhit
      subst hhit
      simp only [List.getElem?_cons_zero, Option.some.injEq] at hk
      subst hk
      simp only [hn, if_true, List.set_cons_zero]
    · have hn' : ops.normLt (curPoint a) c.pt d = false := by simpa using hn
      have hi : hitIndex ops c d (a :: as) = hitIndex ops c d as + 1 := by
        simp [hitIndex, List.findIdx_cons, hn']
      rw [hi] at hhit
      subst hhit
      simp only [List.getElem?_cons_succ] at hk
      have := ih _ t hk rfl
      simp only [hn', Bool.false_eq_true, if_false, this, List.set_cons_succ]

theorem hitIndex_spec {F M D : Type} (ops : CvOps F M D) (c : KeyPoint F) (d : D)
    (l : List (track F M)) (h : ∃ t ∈ l, ops.normLt (curPoint t) c.pt d = true) :
    ∃ t, l[hitIndex ops c d l]? = some t ∧ ops.normLt (curPoint t) c.pt d = true ∧
      ∀ (j : Nat) (u : track F M), j < hitIndex ops c d l → l[j]? = some u →
        ops.normLt (curPoint u) c.pt d = false := by
  induction l with
  | nil => obtain ⟨t, ht, _⟩ := h; simp at ht
  | cons a as ih =>
    by_cases hn : ops.normLt (curPoint a) c.pt d = true
    · have hi : hitIndex ops c d (a :: as) = 0 := by
        simp [hitIndex, List.findIdx_cons, hn]
      rw [hi]
      exact ⟨a, by simp, hn, fun j u hj => absurd hj (by omega)⟩
    · have hn' : ops.normLt (curPoint a) c.pt d = false := by simpa using hn
      have hi : hitIndex ops c d (a :: as) = hitIndex ops c d as + 1 := by
        simp [hitIndex, List.findIdx_cons, hn']
      have h' : ∃ t ∈ as, ops.normLt (curPoint t) c.pt d = true := by
        obtain ⟨t, ht, htn⟩ := h
        rcases List.mem_cons.mp ht with rfl | hmem
        · exact absurd htn hn
        · exact ⟨t, hmem, htn⟩
      obtain ⟨t, h1, h2, h3⟩ := ih h'
      rw [hi]
      refine ⟨t, by simpa using h1, h2, ?_⟩
      intro j u hj hu
      cases j with
      | zero =>
        simp only [List.getElem?_cons_zero, Option.some.injEq] at hu
        subst hu
        exact hn'
      | succ i =>
        simp only [List.getElem?_cons_succ] at hu
        exact h3 i u (by omega) hu

/-- Claim C23 fails: the tracker holds one track whose predicted position is
(10, 10); the frame has a detection at (14, 10) followed by one at (6, 10), cutoff
5, so the predicted position of the track is within the cutoff of both detections
(distance 4). The first detection is assigned to the track, which moves its filter
position; the second detection is then not assigned to it but starts a track of its
own (id 1). -/
theorem detection_near_prediction_starts_track :
    runCycles gridOps MotionTracker.empty [singleFrame] = some freshState ∧
    (∀ t ∈ (predictNewLocationsOfTracks gridOps freshState).tracks, ∀ c ∈ driftFrame.1,
      gridOps.normLt { x := (gridOps.predict t.kalmanFilter).2.x, y := (gridOps.predict t.kalmanFilter).2.y }
          c.pt driftFrame.2 = true ∧
        gridOps.normLt t.centroid.pt c.pt driftFrame.2 = true ∧
        gridOps.normLt (curPoint t) c.pt driftFrame.2 = true) ∧
    (assignDetectionsToTracks gridOps (predictNewLocationsOfTracks gridOps freshState)
        driftFrame.1 driftFrame.2).tracks = [driftedTrack, strayTrack] ∧
    processCycle gridOps freshState driftFrame
      = some { tracks := [driftedTrack, strayTrack], numTracks := 2, history := [0, 1] } := by
  refine ⟨?_, by decide, by decide, ?_⟩
  · simp only [runCycles]
    rw [processCycle_eq _ _ _ (by decide)]
    decide
  · rw [processCycle_eq _ _ _ (by decide)]
    decide

/-- Claim C23 as amended. When a detection `c` is processed by
`assignDetectionsToTracks` (after the detections `earlier` of the same call) and at
least one track of the list at that moment has its current filter position
(`statePost`) within `distCutoff` of `c`, then `c` is applied to the track with the
smallest list index among those tracks (filter corrected with `c`, `age + 1`,
`totalVisibleCount + 1`, `consecutiveInvisibleCount = 0`, `flag = true`), every
other track of the list is unchanged and no track is created. -/
theorem detection_goes_to_first_track_in_range {F M D : Type} (ops : CvOps F M D)
    (s : MotionTracker F M) (earlier later : List (KeyPoint F)) (c : KeyPoint F) (d : D)
    (hnear : ∃ t ∈ (stateAtDetection ops s earlier d).tracks,
      ops.normLt (curPoint t) c.pt d = true) :
    (∃ (k : Nat) (t : track F M), (stateAtDetection ops s earlier d).tracks[k]? = some t ∧
        ops.normLt (curPoint t) c.pt d = true ∧
        (∀ (j : Nat) (u : track F M), j < k →
          (stateAtDetection ops s earlier d).tracks[j]? = some u →
            ops.normLt (curPoint u) c.pt d = false) ∧
        (assignOne ops d (stateAtDetection ops s earlier d) c).tracks
          = (stateAtDetection ops s earlier d).tracks.set k (matched ops c t) ∧
        (assignOne ops d (stateAtDetection ops s earlier d) c).numTracks
          = (stateAtDetection ops s earlier d).numTracks ∧
        (assignOne ops d (stateAtDetection ops s earlier d) c).history
          = (stateAtDetection ops s earlier d).history ∧
        (matched ops c t).id = t.id ∧
        (matched ops c t).kalmanFilter = ops.correct t.kalmanFilter c.pt ∧
        (matched ops c t).age = t.age + 1 ∧
        (matched ops c t).totalVisibleCount = t.totalVisibleCount + 1 ∧
        (matched ops c t).consecutiveInvisibleCount = 0 ∧
        (matched ops c t).flag = true) ∧
    assignDetectionsToTracks ops s (earlier ++ c :: later) d
      = { later.foldl (assignOne ops d) (assignOne ops d (stateAtDetection ops s earlier d) c) with
          tracks := (later.foldl (assignOne ops d)
            (assignOne ops d (stateAtDetection ops s earlier d) c)).tracks.map penalize } := by
  refine ⟨?_, ?_⟩
  · obtain ⟨t, h1, h2, h3⟩ := hitIndex_spec ops c d _ hnear
    have hhit := tryAssign_hit ops c d _ _ t h1 rfl
    have hpos : (stateAtDetection ops s earlier d).tracks.length > 0 := by
      obtain ⟨u, hu, _⟩ := hnear
      exact List.length_pos_of_mem hu
    refine ⟨_, t, h1, h2, h3, ?_, ?_, ?_, rfl, rfl, rfl, rfl, rfl, rfl⟩
    · simp [assignOne, hpos, hhit]
    · simp [assignOne, hpos, hhit]
    · simp [assignOne, hpos, hhit]
  · simp [assignDetectionsToTracks, stateAtDetection, List.foldl_append]

theorem detection_goes_to_first_track_in_range_witness :
    (∃ t ∈ (stateAtDetection gridOps freshState [pointB] 5).tracks,
      gridOps.normLt (curPoint t) pointA.pt 5 = true) ∧
    (∃ (k : Nat) (t : track Int Unit),
        (stateAtDetection gridOps freshState [pointB] 5).tracks[k]? = some t ∧
        gridOps.normLt (curPoint t) pointA.pt 5 = true ∧
        (∀ (j : Nat) (u : track Int Unit), j < k →
          (stateAtDetection gridOps freshState [pointB] 5).tracks[j]? = some u →
            gridOps.normLt (curPoint u) pointA.pt 5 = false) ∧
        (assignOne gridOps 5 (stateAtDetection gridOps freshState [pointB] 5) pointA).tracks
          = (stateAtDetection gridOps freshState [pointB] 5).tracks.set k (matched gridOps pointA t) ∧
        (assignOne gridOps 5 (stateAtDetection gridOps freshState [pointB] 5) pointA).numTracks
          = (stateAtDetection gridOps freshState [pointB] 5).numTracks ∧
        (assignOne gridOps 5 (stateAtDetection gridOps freshState [pointB] 5) pointA).history
          = (stateAtDetection gridOps freshState [pointB] 5).history ∧
        (matched gridOps pointA t).id = t.id ∧
        (matched gridOps pointA t).kalmanFilter = gridOps.correct t.kalmanFilter pointA.pt ∧
        (matched gridOps pointA t).age = t.age + 1 ∧
        (matched gridOps pointA t).totalVisibleCount = t.totalVisibleCount + 1 ∧
        (matched gridOps pointA t).consecutiveInvisibleCount = 0 ∧
        (matched gridOps pointA t).flag = true) ∧
    assignDetectionsToTracks gridOps freshState ([pointB] ++ pointA :: []) 5
      = { List.foldl (assignOne gridOps 5)
            (assignOne gridOps 5 (stateAtDetection gridOps freshState [pointB] 5) pointA) [] with
          tracks := (List.foldl (assignOne gridOps 5)
            (assignOne gridOps 5 (stateAtDetection gridOps freshState [pointB] 5) pointA) []).tracks.map
              penalize } :=
  ⟨by decide,
    detection_goes_to_first_track_in_range gridOps freshState [pointB] [] pointA 5 (by decide)⟩

theorem foldl_assignOne_unmatched {F M D : Type} (ops : CvOps F M D) (d : D)
    (cs : List (KeyPoint F)) :
    ∀ (s : MotionTracker F M) (k : Nat) (t : track F M), s.tracks[k]? = some t →
      matchCount ops d k s cs = 0 → (cs.foldl (assignOne ops d) s).tracks[k]? = some t := by
  induction cs with
  | nil => intro s k t hk _; exact hk
  | cons c cs ih =>
    intro s k t hk hm
    simp only [matchCount] at hm
    have hne : ¬ hitIndex ops c d s.tracks = k := by
      intro h
      rw [if_pos h] at hm
      omega
    rw [if_neg hne] at hm
    have h1 := assignOne_getElem? ops d s c k t hk
    rw [if_neg hne] at h1
    exact ih (assignOne ops d s c) k t h1 (by omega)

theorem assignOne_new_getElem? {F M D : Type} (ops : CvOps F M D) (d : D) (s : MotionTracker F M)
    (c : KeyPoint F) (j : Nat) (u : track F M) (hj : s.tracks.length ≤ j)
    (hu : (assignOne ops d s c).tracks[j]? = some u) :
    u.flag = true ∧ u.consecutiveInvisibleCount = 0 := by
  have hnew : ∀ (l : List (track F M)) (s0 : MotionTracker F M), l.length = s.tracks.length →
      s0.tracks = l → (createNewTrack ops s0 c).tracks[j]? = some u →
      u.flag = true ∧ u.consecutiveInvisibleCount = 0 := by
    intro l s0 hl hs0 h
    simp only [createNewTrack, hs0] at h
    rw [List.getElem?_append_right (by omega)] at h
    rcases Nat.eq_zero_or_pos (j - l.length) with h0 | h0
    · rw [h0] at h
      simp only [List.getElem?_cons_zero, Option.some.injEq] at h
      subst h
      exact ⟨rfl, rfl⟩
    · obtain ⟨i, hi⟩ : ∃ i, j - l.length = i + 1 := ⟨j - l.length - 1, by omega⟩
      rw [hi] at h
      simp at h
  unfold assignOne at hu
  by_cases hpos : s.tracks.length > 0
  · simp only [hpos, if_true] at hu
    by_cases hr : (tryAssign ops c d s.tracks).2 = true
    · simp only [hr, Bool.not_true, Bool.false_eq_true, if_false] at hu
      rw [List.getElem?_eq_none (by rw [tryAssign_length]; exact hj)] at hu
      cases hu
    · have hr' : (tryAssign ops c d s.tracks).2 = false := by simpa using hr
      simp only [hr', Bool.not_false, if_true] at hu
      exact hnew _ _ (tryAssign_length ops c d s.tracks) rfl hu
  · simp only [hpos, if_false] at hu
    exact hnew _ _ rfl rfl hu

theorem assignOne_length_le {F M D : Type} (ops : CvOps F M D) (d : D) (s : MotionTracker F M)
    (c : KeyPoint F) : s.tracks.length ≤ (assignOne ops d s c).tracks.length := by
  obtain ⟨new, h, _⟩ := assignOne_ids ops d s c
  have := congrArg List.length h
  simp only [List.length_map, List.length_append] at this
  omega

theorem foldl_assignOne_flagged {F M D : Type} (ops : CvOps F M D) (d : D)
    (cs : List (KeyPoint F)) :
    ∀ (s : MotionTracker F M) (j : Nat) (u : track F M),
      (cs.foldl (assignOne ops d) s).tracks[j]? = some u →
      (0 < matchCount ops d j s cs ∨ s.tracks.length ≤ j ∨
        ∃ u0, s.tracks[j]? = some u0 ∧ u0.flag = true ∧ u0.consecutiveInvisibleCount = 0) →
      u.flag = true ∧ u.consecutiveInvisibleCount = 0 := by
  induction cs with
  | nil =>
    intro s j u hu h
    simp only [List.foldl_nil] at hu
    rcases h with h | h | ⟨u0, h1, h2⟩
    · simp [matchCount] at h
    · rw [List.getElem?_eq_none h] at hu; cases hu
    · rw [h1] at hu
      simp only [Option.some.injEq] at hu
      subst hu
      exact h2
  | cons c cs ih =>
    intro s j u hu h
    simp only [List.foldl_cons] at hu
    apply ih (assignOne ops d s c) j u hu
    rcases Nat.lt_or_ge j s.tracks.length with hlt | hge
    · obtain ⟨t0, ht0⟩ : ∃ t0, s.tracks[j]? = some t0 :=
        ⟨s.tracks[j], List.getElem?_eq_getElem hlt⟩
      have h1 := assignOne_getElem? ops d s c j t0 ht0
      by_cases hhit : hitIndex ops c d s.tracks = j
      · rw [if_pos hhit] at h1
        exact Or.inr (Or.inr ⟨_, h1, rfl, rfl⟩)
      · rw [if_neg hhit] at h1
        rcases h with h | h | ⟨u0, h2, h3⟩
        · simp only [matchCount, if_neg hhit, Nat.zero_add] at h
          exact Or.inl h
        · omega
        · rw [ht0] at h2
          simp only [Option.some.injEq] at h2
          subst h2
          exact Or.inr (Or.inr ⟨_, h1, h3⟩)
    · rcases Nat.lt_or_ge j (assignOne ops d s c).tracks.length with hlt1 | hge1
      · obtain ⟨u1, hu1⟩ : ∃ u1, (assignOne ops d s c).tracks[j]? = some u1 :=
          ⟨(assignOne ops d s c).tracks[j], List.getElem?_eq_getElem hlt1⟩
        exact Or.inr (Or.inr ⟨u1, hu1, assignOne_new_getElem? ops d s c j u1 hge hu1⟩)
      · exact Or.inr (Or.inl hge1)

/-- Claim C24. For a call `assignDetectionsToTracks(dets, distCutoff)` and a track
that is in the list before the call (at index `k`) and to which the call assigns no
detection: after the call the track at index `k` has `age` and
`consecutiveInvisibleCount` each increased by exactly 1 and the same id,
`totalVisibleCount`, filter and centroid. Every track to which a detection was
assigned and every track created in the call is left by the closing loop as the
loop over the detections left it (no increment), with
`consecutiveInvisibleCount = 0`. -/
theorem unmatched_track_penalized_once {F M D : Type} (ops : CvOps F M D)
    (s : MotionTracker F M) (dets : List (KeyPoint F)) (distCutoff : D) (k : Nat)
    (t : track F M) (hk : s.tracks[k]? = some t)
    (hun : matchCount ops distCutoff k (resetFlags s) dets = 0) :
    (∃ t', (assignDetectionsToTracks ops s dets distCutoff).tracks[k]? = some t' ∧
      t'.age = t.age + 1 ∧
      t'.consecutiveInvisibleCount = t.consecutiveInvisibleCount + 1 ∧
      t'.id = t.id ∧ t'.totalVisibleCount = t.totalVisibleCount ∧
      t'.kalmanFilter = t.kalmanFilter ∧ t'.centroid = t.centroid) ∧
    ∀ (j : Nat) (u : track F M), (stateAtDetection ops s dets distCutoff).tracks[j]? = some u →
      (0 < matchCount ops distCutoff j (resetFlags s) dets ∨ s.tracks.length ≤ j) →
      (assignDetectionsToTracks ops s dets distCutoff).tracks[j]? = some u ∧
        u.consecutiveInvisibleCount = 0 := by
  refine ⟨?_, ?_⟩
  · have h0 : (resetFlags s).tracks[k]? = some { t with flag := false } := by
      simp [resetFlags, List.getElem?_map, hk]
    have h1 := foldl_assignOne_unmatched ops distCutoff dets (resetFlags s) k _ h0 hun
    refine ⟨penalize { t with flag := false }, ?_, rfl, rfl, rfl, rfl, rfl, rfl⟩
    simp only [assignDetectionsToTracks, List.getElem?_map, h1, Option.map_some']
  · intro j u hu hcase
    have hlen : (resetFlags s).tracks.length = s.tracks.length := by simp [resetFlags]
    have hq := foldl_assignOne_flagged ops distCutoff dets (resetFlags s) j u hu (by
      rcases hcase with h | h
      · exact Or.inl h
      · exact Or.inr (Or.inl (by rw [hlen]; exact h)))
    refine ⟨?_, hq.2⟩
    have hu' : (List.foldl (assignOne ops distCutoff) (resetFlags s) dets).tracks[j]? = some u := hu
    simp only [assignDetectionsToTracks, List.getElem?_map, hu', Option.map_some']
    simp [penalize, hq.1]

theorem unmatched_track_penalized_once_witness :
    freshState.tracks[0]? = some freshTrack ∧
    matchCount gridOps 5 0 (resetFlags freshState) farFrame.1 = 0 ∧
    (∃ t', (assignDetectionsToTracks gridOps freshState farFrame.1 5).tracks[0]? = some t' ∧
      t'.age = freshTrack.age + 1 ∧
      t'.consecutiveInvisibleCount = freshTrack.consecutiveInvisibleCount + 1 ∧
      t'.id = freshTrack.id ∧ t'.totalVisibleCount = freshTrack.totalVisibleCount ∧
      t'.kalmanFilter = freshTrack.kalmanFilter ∧ t'.centroid = freshTrack.centroid) ∧
    ∀ (j : Nat) (u : track Int Unit),
      (stateAtDetection gridOps freshState farFrame.1 5).tracks[j]? = some u →
      (0 < matchCount gridOps 5 j (resetFlags freshState) farFrame.1 ∨
        freshState.tracks.length ≤ j) →
      (assignDetectionsToTracks gridOps freshState farFrame.1 5).tracks[j]? = some u ∧
        u.consecutiveInvisibleCount = 0 :=
  ⟨by decide, by decide,
    unmatched_track_penalized_once gridOps freshState farFrame.1 5 0 freshTrack (by decide)
      (by decide)⟩

end Tracking

namespace Tracking

theorem increment_eq (range n : Nat) (h : n + 1 < range) : Wrap.increment range n = n + 1 :=
  Nat.mod_eq_of_lt h

theorem wrap_tryAssign_eq {F M D : Type} (range : Nat) (ops : CvOps F M D) (c : KeyPoint F)
    (d : D) (l : List (track F M))
    (h : ∀ t ∈ l, t.age + 1 < range ∧ t.totalVisibleCount + 1 < range) :
    Wrap.tryAssign range ops c d l = Tracking.tryAssign ops c d l := by
  induction l with
  | nil => rfl
  | cons t ts ih =>
    have ht := h t (List.mem_cons_self _ _)
    simp only [Wrap.tryAssign, Tracking.tryAssign, increment_eq _ _ ht.1, increment_eq _ _ ht.2,
      ih (fun u hu => h u (List.mem_cons_of_mem _ hu))]

theorem wrap_createNewTrack_eq {F M D : Type} (range : Nat) (ops : CvOps F M D)
    (s : MotionTracker F M) (c : KeyPoint F) (h : s.numTracks + 1 < range) :
    Wrap.createNewTrack range ops s c = Tracking.createNewTrack ops s c := by
  simp only [Wrap.createNewTrack, Tracking.createNewTrack, increment_eq _ _ h]

theorem wrap_assignOne_eq {F M D : Type} (range : Nat) (ops : CvOps F M D) (d : D)
    (s : MotionTracker F M) (c : KeyPoint F) (B : Nat) (hfit : Fits B s) (hB : B + 1 < range) :
    Wrap.assignOne range ops d s c = Tracking.assignOne ops d s c := by
  have h1 : Wrap.tryAssign range ops c d s.tracks = Tracking.tryAssign ops c d s.tracks :=
    wrap_tryAssign_eq range ops c d s.tracks (fun t ht => by
      have := hfit.1 t ht
      omega)
  have h2 : ∀ l, Wrap.createNewTrack range ops { s with tracks := l } c
      = Tracking.createNewTrack ops { s with tracks := l } c :=
    fun l => wrap_createNewTrack_eq range ops _ c (by have := hfit.2; simp only; omega)
  have h3 : Wrap.createNewTrack range ops s c = Tracking.createNewTrack ops s c :=
    wrap_createNewTrack_eq range ops _ c (by have := hfit.2; omega)
  simp only [Wrap.assignOne, Tracking.assignOne, h1, h2, h3]

theorem tryAssign_fits {F M D : Type} (ops : CvOps F M D) (c : KeyPoint F) (d : D) (B : Nat)
    (l : List (track F M))
    (h : ∀ t ∈ l, t.age ≤ B ∧ t.totalVisibleCount ≤ B ∧ t.consecutiveInvisibleCount ≤ B) :
    ∀ t ∈ (tryAssign ops c d l).1,
      t.age ≤ B + 1 ∧ t.totalVisibleCount ≤ B + 1 ∧ t.consecutiveInvisibleCount ≤ B + 1 := by
  induction l with
  | nil => intro t ht; simp [tryAssign] at ht
  | cons a as ih =>
    intro t ht
    rw [tryAssign_cons] at ht
    have ha := h a (List.mem_cons_self _ _)
    have has : ∀ u ∈ as, u.age ≤ B ∧ u.totalVisibleCount ≤ B ∧ u.consecutiveInvisibleCount ≤ B :=
      fun u hu => h u (List.mem_cons_of_mem _ hu)
    split at ht
    · rcases List.mem_cons.mp ht with rfl | hmem
      · simp only [matched]
        omega
      · have := has t hmem
        omega
    · rcases List.mem_cons.mp ht with rfl | hmem
      · omega
      · exact ih has t hmem

theorem assignOne_fits {F M D : Type} (ops : CvOps F M D) (d : D) (s : MotionTracker F M)
    (c : KeyPoint F) (B : Nat) (h : Fits B s) : Fits (B + 1) (assignOne ops d s c) := by
  have hnew : ∀ (s0 : MotionTracker F M),
      (∀ t ∈ s0.tracks, t.age ≤ B + 1 ∧ t.totalVisibleCount ≤ B + 1 ∧
        t.consecutiveInvisibleCount ≤ B + 1) → s0.numTracks ≤ B →
      Fits (B + 1) (createNewTrack ops s0 c) := by
    intro s0 h1 h2
    refine ⟨?_, ?_⟩
    · intro t ht
      simp only [createNewTrack, List.mem_append, List.mem_singleton] at ht
      rcases ht with ht | rfl
      · exact h1 t ht
      · simp only
        omega
    · simp only [createNewTrack]
      omega
  have htry := tryAssign_fits ops c d B s.tracks h.1
  unfold assignOne
  by_cases hpos : s.tracks.length > 0
  · simp only [hpos, if_true]
    by_cases hr : (tryAssign ops c d s.tracks).2 = true
    · simp only [hr, Bool.not_true, Bool.false_eq_true, if_false]
      exact ⟨htry, by have := h.2; simp only; omega⟩
    · have hr' : (tryAssign ops c d s.tracks).2 = false := by simpa using hr
      simp only [hr', Bool.not_false, if_true]
      exact hnew _ htry h.2
  · simp only [hpos, if_false]
    exact hnew s (fun t ht => by have := h.1 t ht; omega) h.2

theorem wrap_foldl_assignOne_eq {F M D : Type} (range : Nat) (ops : CvOps F M D) (d : D)
    (cs : List (KeyPoint F)) :
    ∀ (s : MotionTracker F M) (B : Nat), Fits B s → B + cs.length < range →
      cs.foldl (Wrap.assignOne range ops d) s = cs.foldl (Tracking.assignOne ops d) s ∧
      Fits (B + cs.length) (cs.foldl (Tracking.assignOne ops d) s) := by
  induction cs with
  | nil => intro s B h _; exact ⟨rfl, h⟩
  | cons c cs ih =>
    intro s B h hB
    simp only [List.length_cons] at hB
    have h1 := wrap_assignOne_eq range ops d s c B h (by omega)
    have h2 := assignOne_fits ops d s c B h
    obtain ⟨h3, h4⟩ := ih (Tracking.assignOne ops d s c) (B + 1) h2 (by omega)
    refine ⟨?_, ?_⟩
    · simp only [List.foldl_cons, h1, h3]
    · simp only [List.foldl_cons, List.length_cons]
      rw [show B + (cs.length + 1) = B + 1 + cs.length by omega]
      exact h4

theorem wrap_assignDetectionsToTracks_eq {F M D : Type} (range : Nat) (ops : CvOps F M D)
    (s : MotionTracker F M) (cs : List (KeyPoint F)) (d : D) (B : Nat) (h : Fits B s)
    (hB : B + cs.length + 1 < range) :
    Wrap.assignDetectionsToTracks range ops s cs d = Tracking.assignDetectionsToTracks ops s cs d ∧
    Fits (B + cs.length + 1) (Tracking.assignDetectionsToTracks ops s cs d) := by
  have h0 : Fits B (resetFlags s) := by
    refine ⟨?_, h.2⟩
    intro t ht
    simp only [resetFlags, List.mem_map] at ht
    obtain ⟨u, hu, rfl⟩ := ht
    exact h.1 u hu
  obtain ⟨h1, h2⟩ := wrap_foldl_assignOne_eq range ops d cs (resetFlags s) B h0 (by omega)
  have h3 : ∀ t ∈ (cs.foldl (Tracking.assignOne ops d) (resetFlags s)).tracks,
      Wrap.penalize range t = Tracking.penalize t := by
    intro t ht
    have := h2.1 t ht
    simp only [Wrap.penalize, Tracking.penalize, increment_eq range t.age (by omega),
      increment_eq range t.consecutiveInvisibleCount (by omega)]
  refine ⟨?_, ?_, ?_⟩
  · simp only [Wrap.assignDetectionsToTracks, Tracking.assignDetectionsToTracks, h1]
    congr 1
    exact List.map_congr_left h3
  · intro t ht
    simp only [Tracking.assignDetectionsToTracks, List.mem_map] at ht
    obtain ⟨u, hu, rfl⟩ := ht
    have := h2.1 u hu
    unfold Tracking.penalize
    split
    · simp only
      omega
    · omega
  · have := h2.2
    simp only [Tracking.assignDetectionsToTracks]
    omega

theorem predictNewLocationsOfTracks_fits {F M D : Type} (ops : CvOps F M D)
    (s : MotionTracker F M) (B : Nat) (h : Fits B s) :
    Fits B (predictNewLocationsOfTracks ops s) := by
  refine ⟨?_, h.2⟩
  intro t ht
  simp only [predictNewLocationsOfTracks, List.mem_map] at ht
  obtain ⟨u, hu, rfl⟩ := ht
  exact h.1 u hu

theorem deleteLostTracks_fits {F M : Type} (s s' : MotionTracker F M) (B : Nat) (h : Fits B s)
    (hdel : deleteLostTracks s = some s') : Fits B s' := by
  unfold deleteLostTracks at hdel
  cases hl : deleteLostList s.tracks with
  | none => rw [hl] at hdel; cases hdel
  | some l =>
    rw [hl] at hdel
    simp only [Option.some.injEq] at hdel
    subst hdel
    have hsub := deleteLostList_sublist s.tracks.length s.tracks rfl l hl
    exact ⟨fun t ht => h.1 t (hsub.subset ht), h.2⟩

theorem wrap_processCycle_eq_of_fits {F M D : Type} (range : Nat) (ops : CvOps F M D)
    (s : MotionTracker F M) (frame : List (KeyPoint F) × D) (B : Nat) (h : Fits B s)
    (hB : B + frame.1.length + 1 < range) :
    Wrap.processCycle range ops s frame = Tracking.processCycle ops s frame ∧
    ∀ s', Tracking.processCycle ops s frame = some s' → Fits (B + frame.1.length + 1) s' := by
  obtain ⟨h1, h2⟩ := wrap_assignDetectionsToTracks_eq range ops _ frame.1 frame.2 B
    (predictNewLocationsOfTracks_fits ops s B h) hB
  refine ⟨?_, ?_⟩
  · simp only [Wrap.processCycle, Tracking.processCycle, h1]
  · intro s' hs'
    exact deleteLostTracks_fits _ s' _ h2 hs'

theorem wrap_runCycles_eq_of_fits {F M D : Type} (range : Nat) (ops : CvOps F M D)
    (frames : List (List (KeyPoint F) × D)) :
    ∀ (s : MotionTracker F M) (B : Nat), Fits B s →
      B + frames.length + detectionCount frames < range →
      Wrap.runCycles range ops s frames = Tracking.runCycles ops s frames ∧
      ∀ s', Tracking.runCycles ops s frames = some s' →
        Fits (B + frames.length + detectionCount frames) s' := by
  induction frames with
  | nil =>
    intro s B h _
    refine ⟨rfl, ?_⟩
    intro s' hs'
    simp only [Tracking.runCycles, Option.some.injEq] at hs'
    subst hs'
    simpa [detectionCount] using h
  | cons f fs ih =>
    intro s B h hB
    simp only [List.length_cons, detectionCount] at hB
    obtain ⟨h1, h2⟩ := wrap_processCycle_eq_of_fits range ops s f B h (by omega)
    simp only [Wrap.runCycles, Tracking.runCycles, h1]
    cases hc : Tracking.processCycle ops s f with
    | none => exact ⟨rfl, fun s' hs' => by cases hs'⟩
    | some s1 =>
      obtain ⟨h3, h4⟩ := ih s1 (B + f.1.length + 1) (h2 s1 hc) (by omega)
      refine ⟨h3, ?_⟩
      intro s' hs'
      have := h4 s' hs'
      simp only [List.length_cons, detectionCount]
      rw [show B + (fs.length + 1) + (f.1.length + detectionCount fs)
          = B + f.1.length + 1 + fs.length + detectionCount fs by omega]
      exact this

theorem Fits_empty {F M : Type} : Fits 0 (MotionTracker.empty : MotionTracker F M) := by
  refine ⟨?_, by simp [MotionTracker.empty]⟩
  intro t ht
  simp [MotionTracker.empty] at ht

theorem wrap_runCycles_eq {F M D : Type} (range : Nat) (ops : CvOps F M D)
    (frames : List (List (KeyPoint F) × D))
    (h : frames.length + detectionCount frames < range) :
    Wrap.runCycles range ops MotionTracker.empty frames
      = Tracking.runCycles ops MotionTracker.empty frames := by
  have := (wrap_runCycles_eq_of_fits range ops frames MotionTracker.empty 0 Fits_empty
    (by omega)).1
  exact this

theorem deleteLostList_singleton_keep {F M : Type} (t : track F M)
    (h : deletionTest t = some false) : deleteLostList [t] = some [t] :=
  deleteLostList_of_scan_none [t] (by simp [scanLost, h])

theorem deleteLostList_singleton_drop {F M : Type} (t : track F M)
    (h : deletionTest t = some true) : deleteLostList [t] = some [] := by
  rw [deleteLostList_of_scan_some [t] 0 (by simp [scanLost, h])]
  exact deleteLostList_of_scan_none [] rfl

theorem deleteLostList_pair_keep {F M : Type} (t u : track F M)
    (ht : deletionTest t = some false) (hu : deletionTest u = some false) :
    deleteLostList [t, u] = some [t, u] :=
  deleteLostList_of_scan_none [t, u] (by simp [scanLost, ht, hu])

theorem deleteLostList_pair_drop_first {F M : Type} (t u : track F M)
    (ht : deletionTest t = some true) (hu : deletionTest u = some false) :
    deleteLostList [t, u] = some [u] := by
  rw [deleteLostList_of_scan_some [t, u] 0 (by simp [scanLost, ht])]
  exact deleteLostList_singleton_keep u hu

theorem gridOps_predict (kf : KalmanFilter Int Unit) : gridOps.predict kf = (kf, kf.statePost) :=
  rfl

theorem gridOps_correct (kf : KalmanFilter Int Unit) (z : Point2f Int) :
    gridOps.correct kf z = { kf with statePost := { kf.statePost with x := z.x, y := z.y } } :=
  rfl

theorem deleteLostTracks_of_list {F M : Type} (s : MotionTracker F M) (l : List (track F M))
    (h : deleteLostList s.tracks = some l) : deleteLostTracks s = some { s with tracks := l } := by
  simp only [deleteLostTracks, h]

theorem deleteLostTracks_undefined {F M : Type} (s : MotionTracker F M)
    (h : deleteLostList s.tracks = none) : deleteLostTracks s = none := by
  simp only [deleteLostTracks, h]

theorem wrap_processCycle_def {F M D : Type} (range : Nat) (ops : CvOps F M D)
    (s : MotionTracker F M) (cs : List (KeyPoint F)) (d : D) :
    Wrap.processCycle range ops s (cs, d)
      = deleteLostTracks
          (Wrap.assignDetectionsToTracks range ops (predictNewLocationsOfTracks ops s) cs d) :=
  rfl

theorem wrap_assign_matched (range i n : Nat) (h : List Nat) (cen p q : Point2f Int) (d : Int)
    (a v c : Nat) (f : Bool) (hnear : gridOps.normLt p q d = true) :
    Wrap.assignDetectionsToTracks range gridOps
      (predictNewLocationsOfTracks gridOps (soloState (gridTrack i cen p a v c f) n h))
      [{ pt := q }] d
      = soloState (gridTrack i q q (Wrap.increment range a) (Wrap.increment range v) 0 true) n h := by
  have hn : gridOps.normLt { x := p.x, y := p.y } q d = true := hnear
  simp [Wrap.assignDetectionsToTracks, predictNewLocationsOfTracks, resetFlags, soloState,
    gridTrack, Wrap.assignOne, Wrap.tryAssign, curPoint, Wrap.penalize, gridOps_predict,
    gridOps_correct, hn]

theorem wrap_cycle_matched (range i n : Nat) (h : List Nat) (cen p q : Point2f Int) (d : Int)
    (a v c : Nat) (f : Bool) (hnear : gridOps.normLt p q d = true)
    (hkeep : deletionTest
      (gridTrack i q q (Wrap.increment range a) (Wrap.increment range v) 0 true) = some false) :
    Wrap.processCycle range gridOps (soloState (gridTrack i cen p a v c f) n h) ([{ pt := q }], d)
      = some (soloState
          (gridTrack i q q (Wrap.increment range a) (Wrap.increment range v) 0 true) n h) := by
  rw [wrap_processCycle_def, wrap_assign_matched range i n h cen p q d a v c f hnear]
  exact deleteLostTracks_of_list _ _ (deleteLostList_singleton_keep _ hkeep)

theorem wrap_assign_triple (range i n : Nat) (h : List Nat) (cen p q : Point2f Int) (d : Int)
    (a v c : Nat) (f : Bool) (hnear : gridOps.normLt p q d = true)
    (hsame : gridOps.normLt q q d = true) :
    Wrap.assignDetectionsToTracks range gridOps
      (predictNewLocationsOfTracks gridOps (soloState (gridTrack i cen p a v c f) n h))
      [{ pt := q }, { pt := q }, { pt := q }] d
      = soloState (gridTrack i q q
          (Wrap.increment range (Wrap.increment range (Wrap.increment range a)))
          (Wrap.increment range (Wrap.increment range (Wrap.increment range v))) 0 true) n h := by
  have hn : gridOps.normLt { x := p.x, y := p.y } q d = true := hnear
  have hs : gridOps.normLt { x := q.x, y := q.y } q d = true := hsame
  simp [Wrap.assignDetectionsToTracks, predictNewLocationsOfTracks, resetFlags, soloState,
    gridTrack, Wrap.assignOne, Wrap.tryAssign, curPoint, Wrap.penalize, gridOps_predict,
    gridOps_correct, hn, hs]

theorem wrap_assign_idle (range i n : Nat) (h : List Nat) (cen p : Point2f Int) (d : Int)
    (a v c : Nat) (f : Bool) :
    Wrap.assignDetectionsToTracks range gridOps
      (predictNewLocationsOfTracks gridOps (soloState (gridTrack i cen p a v c f) n h)) [] d
      = soloState (gridTrack i p p (Wrap.increment range a) v (Wrap.increment range c) false) n h := by
  simp [Wrap.assignDetectionsToTracks, predictNewLocationsOfTracks, resetFlags, soloState,
    gridTrack, Wrap.penalize, gridOps_predict]

theorem wrap_cycle_idle_keep (range i n : Nat) (h : List Nat) (cen p : Point2f Int) (d : Int)
    (a v c : Nat) (f : Bool)
    (hkeep : deletionTest
      (gridTrack i p p (Wrap.increment range a) v (Wrap.increment range c) false) = some false) :
    Wrap.processCycle range gridOps (soloState (gridTrack i cen p a v c f) n h) ([], d)
      = some (soloState
          (gridTrack i p p (Wrap.increment range a) v (Wrap.increment range c) false) n h) := by
  rw [wrap_processCycle_def, wrap_assign_idle]
  exact deleteLostTracks_of_list _ _ (deleteLostList_singleton_keep _ hkeep)

theorem wrap_cycle_idle_drop (range i n : Nat) (h : List Nat) (cen p : Point2f Int) (d : Int)
    (a v c : Nat) (f : Bool)
    (hdrop : deletionTest
      (gridTrack i p p (Wrap.increment range a) v (Wrap.increment range c) false) = some true) :
    Wrap.processCycle range gridOps (soloState (gridTrack i cen p a v c f) n h) ([], d)
      = some (vacantState n h) := by
  rw [wrap_processCycle_def, wrap_assign_idle]
  exact deleteLostTracks_of_list _ _ (deleteLostList_singleton_drop _ hdrop)

theorem wrap_assign_far (range i n : Nat) (h : List Nat) (cen p q : Point2f Int) (d : Int)
    (a v c : Nat) (f : Bool) (hfar : gridOps.normLt p q d = false) :
    Wrap.assignDetectionsToTracks range gridOps
      (predictNewLocationsOfTracks gridOps (soloState (gridTrack i cen p a v c f) n h))
      [{ pt := q }] d
      = { tracks := [gridTrack i p p (Wrap.increment range a) v (Wrap.increment range c) false,
            gridTrack n origin q 1 1 0 true],
          numTracks := Wrap.increment range n, history := h ++ [n] } := by
  have hn : gridOps.normLt { x := p.x, y := p.y } q d = false := hfar
  simp [Wrap.assignDetectionsToTracks, predictNewLocationsOfTracks, resetFlags, soloState,
    gridTrack, Wrap.assignOne, Wrap.tryAssign, Wrap.createNewTrack, curPoint, Wrap.penalize,
    gridOps_predict, gridOps_correct, hn, origin]
  rfl

theorem deletionTest_new (n : Nat) (q : Point2f Int) :
    deletionTest (gridTrack n origin q 1 1 0 true) = some false := by
  rw [deletionTest_of_ok _ (le_refl 1) (le_refl 1)]
  simp [gridTrack]

theorem wrap_cycle_far (range i n : Nat) (h : List Nat) (cen p q : Point2f Int) (d : Int)
    (a v c : Nat) (f : Bool) (hfar : gridOps.normLt p q d = false)
    (hdrop : deletionTest
      (gridTrack i p p (Wrap.increment range a) v (Wrap.increment range c) false) = some true) :
    Wrap.processCycle range gridOps (soloState (gridTrack i cen p a v c f) n h) ([{ pt := q }], d)
      = some (soloState (gridTrack n origin q 1 1 0 true) (Wrap.increment range n) (h ++ [n])) := by
  rw [wrap_processCycle_def, wrap_assign_far range i n h cen p q d a v c f hfar]
  exact deleteLostTracks_of_list _ _
    (deleteLostList_pair_drop_first _ _ hdrop (deletionTest_new n q))

theorem wrap_cycle_vacant (range n : Nat) (h : List Nat) (q : Point2f Int) (d : Int) :
    Wrap.processCycle range gridOps (vacantState n h) ([{ pt := q }], d)
      = some (soloState (gridTrack n origin q 1 1 0 true) (Wrap.increment range n) (h ++ [n])) := by
  have hassign : Wrap.assignDetectionsToTracks range gridOps
      (predictNewLocationsOfTracks gridOps (vacantState n h)) [{ pt := q }] d
      = soloState (gridTrack n origin q 1 1 0 true) (Wrap.increment range n) (h ++ [n]) := by
    simp [Wrap.assignDetectionsToTracks, predictNewLocationsOfTracks, resetFlags, soloState,
      vacantState, gridTrack, Wrap.assignOne, Wrap.createNewTrack, Wrap.penalize, origin]
    rfl
  rw [wrap_processCycle_def, hassign]
  exact deleteLostTracks_of_list _ _ (deleteLostList_singleton_keep _ (deletionTest_new n q))

theorem wrap_assign_both (range i n : Nat) (h : List Nat) (cen p q1 q2 : Point2f Int) (d : Int)
    (a v c : Nat) (f : Bool) (hnear : gridOps.normLt p q1 d = true)
    (hfar : gridOps.normLt q1 q2 d = false) :
    Wrap.assignDetectionsToTracks range gridOps
      (predictNewLocationsOfTracks gridOps (soloState (gridTrack i cen p a v c f) n h))
      [{ pt := q1 }, { pt := q2 }] d
      = { tracks := [gridTrack i q1 q1 (Wrap.increment range a) (Wrap.increment range v) 0 true,
            gridTrack n origin q2 1 1 0 true],
          numTracks := Wrap.increment range n, history := h ++ [n] } := by
  have hn : gridOps.normLt { x := p.x, y := p.y } q1 d = true := hnear
  have hf : gridOps.normLt { x := q1.x, y := q1.y } q2 d = false := hfar
  simp [Wrap.assignDetectionsToTracks, predictNewLocationsOfTracks, resetFlags, soloState,
    gridTrack, Wrap.assignOne, Wrap.tryAssign, Wrap.createNewTrack, curPoint, Wrap.penalize,
    gridOps_predict, gridOps_correct, hn, hf, origin]
  rfl

theorem wrap_cycle_both (range i n : Nat) (h : List Nat) (cen p q1 q2 : Point2f Int) (d : Int)
    (a v c : Nat) (f : Bool) (hnear : gridOps.normLt p q1 d = true)
    (hfar : gridOps.normLt q1 q2 d = false)
    (hkeep : deletionTest
      (gridTrack i q1 q1 (Wrap.increment range a) (Wrap.increment range v) 0 true) = some false) :
    Wrap.processCycle range gridOps (soloState (gridTrack i cen p a v c f) n h)
        ([{ pt := q1 }, { pt := q2 }], d)
      = some { tracks := [gridTrack i q1 q1 (Wrap.increment range a) (Wrap.increment range v) 0 true,
                 gridTrack n origin q2 1 1 0 true],
               numTracks := Wrap.increment range n, history := h ++ [n] } := by
  rw [wrap_processCycle_def, wrap_assign_both range i n h cen p q1 q2 d a v c f hnear hfar]
  exact deleteLostTracks_of_list _ _
    (deleteLostList_pair_keep _ _ hkeep (deletionTest_new n q2))

theorem wrap_runCycles_append {F M D : Type} (range : Nat) (ops : CvOps F M D)
    (a b : List (List (KeyPoint F) × D)) :
    ∀ (s : MotionTracker F M),
      Wrap.runCycles range ops s (a ++ b)
        = (Wrap.runCycles range ops s a).bind fun s' => Wrap.runCycles range ops s' b := by
  induction a with
  | nil => intro s; rfl
  | cons f fs ih =>
    intro s
    simp only [List.cons_append, Wrap.runCycles]
    cases Wrap.processCycle range ops s f with
    | none => rfl
    | some s1 => exact ih s1

theorem wrap_runCycles_append_of_some {F M D : Type} (range : Nat) (ops : CvOps F M D)
    (a b : List (List (KeyPoint F) × D)) (s s1 : MotionTracker F M)
    (h : Wrap.runCycles range ops s a = some s1) :
    Wrap.runCycles range ops s (a ++ b) = Wrap.runCycles range ops s1 b := by
  rw [wrap_runCycles_append, h]
  rfl

theorem wrap_runCycles_cons_of_some {F M D : Type} (range : Nat) (ops : CvOps F M D)
    (s s1 : MotionTracker F M) (f : List (KeyPoint F) × D) (fs : List (List (KeyPoint F) × D))
    (h : Wrap.processCycle range ops s f = some s1) :
    Wrap.runCycles range ops s (f :: fs) = Wrap.runCycles range ops s1 fs := by
  simp only [Wrap.runCycles, h]

theorem wrap_runCycles_cons_of_none {F M D : Type} (range : Nat) (ops : CvOps F M D)
    (s : MotionTracker F M) (f : List (KeyPoint F) × D) (fs : List (List (KeyPoint F) × D))
    (h : Wrap.processCycle range ops s f = none) :
    Wrap.runCycles range ops s (f :: fs) = none := by
  simp only [Wrap.runCycles, h]

theorem deletionTest_seen (i : Nat) (cen p : Point2f Int) (a v c : Nat) (f : Bool) (ha : 1 ≤ a)
    (hv : v ≤ a) (hc : c < 20) (hold : 8 ≤ a ∨ v = a) :
    deletionTest (gridTrack i cen p a v c f) = some false := by
  rw [deletionTest_of_ok _ (by simpa [gridTrack] using ha) (by simpa [gridTrack] using hv)]
  simp only [gridTrack, Option.some.injEq, decide_eq_false_iff_not]
  omega

theorem deletionTest_unseen (i : Nat) (cen p : Point2f Int) (a v c : Nat) (f : Bool) (ha : 1 ≤ a)
    (hv : v ≤ a) (hlost : 20 ≤ c ∨ (a < 8 ∧ v < a)) :
    deletionTest (gridTrack i cen p a v c f) = some true := by
  rw [deletionTest_of_ok _ (by simpa [gridTrack] using ha) (by simpa [gridTrack] using hv)]
  simp only [gridTrack, Option.some.injEq, decide_eq_true_eq]
  omega

theorem singleFrame_eq : singleFrame = ([{ pt := spotA }], 5) := rfl

theorem normLt_spotA : gridOps.normLt spotA spotA 5 = true := by decide

theorem wrap_steady_step (range i n : Nat) (h : List Nat) (cen : Point2f Int) (a v c : Nat)
    (f : Bool) (hv : v ≤ a) (hold : 8 ≤ a + 1 ∨ v = a) (hfit : a + 1 < range) :
    Wrap.processCycle range gridOps (soloState (gridTrack i cen spotA a v c f) n h) singleFrame
      = some (soloState (gridTrack i spotA spotA (a + 1) (v + 1) 0 true) n h) := by
  have h1 : Wrap.increment range a = a + 1 := increment_eq range a hfit
  have h2 : Wrap.increment range v = v + 1 := increment_eq range v (by omega)
  have := wrap_cycle_matched range i n h cen spotA spotA 5 a v c f normLt_spotA (by
    rw [h1, h2]
    exact deletionTest_seen i spotA spotA (a + 1) (v + 1) 0 true (by omega) (by omega)
      (by omega) (by omega))
  rw [h1, h2] at this
  exact this

theorem wrap_steady_run (range i n : Nat) (h : List Nat) :
    ∀ (k a v : Nat), v ≤ a → (8 ≤ a + 1 ∨ v = a) → a + k < range →
      Wrap.runCycles range gridOps (soloState (gridTrack i spotA spotA a v 0 true) n h)
          (List.replicate k singleFrame)
        = some (soloState (gridTrack i spotA spotA (a + k) (v + k) 0 true) n h) := by
  intro k
  induction k with
  | zero => intro a v _ _ _; rfl
  | succ k ih =>
    intro a v hv hold hfit
    rw [List.replicate_succ, wrap_runCycles_cons_of_some range gridOps _ _ _ _
      (wrap_steady_step range i n h spotA a v 0 true hv hold (by omega))]
    rw [ih (a + 1) (v + 1) (by omega) (by omega) (by omega)]
    rw [show a + 1 + k = a + (k + 1) by omega, show v + 1 + k = v + (k + 1) by omega]

theorem wrap_idle_step (range i n : Nat) (h : List Nat) (cen p : Point2f Int) (d : Int)
    (a v c : Nat) (f : Bool) (hv : v ≤ a) (hold : 8 ≤ a + 1) (hc : c + 1 < 20)
    (hfit : a + 1 < range) (hfitc : c + 1 < range) :
    Wrap.processCycle range gridOps (soloState (gridTrack i cen p a v c f) n h) ([], d)
      = some (soloState (gridTrack i p p (a + 1) v (c + 1) false) n h) := by
  have h1 : Wrap.increment range a = a + 1 := increment_eq range a hfit
  have h2 : Wrap.increment range c = c + 1 := increment_eq range c hfitc
  have := wrap_cycle_idle_keep range i n h cen p d a v c f (by
    rw [h1, h2]
    exact deletionTest_seen i p p (a + 1) v (c + 1) false (by omega) (by omega) hc (Or.inl hold))
  rw [h1, h2] at this
  exact this

theorem wrap_idle_run (range i n : Nat) (h : List Nat) (p : Point2f Int) :
    ∀ (k a v c : Nat), v ≤ a → 8 ≤ a + 1 → c + k < 20 → a + k < range → 20 ≤ range →
      Wrap.runCycles range gridOps (soloState (gridTrack i p p a v c false) n h)
          (List.replicate k emptyFrame)
        = some (soloState (gridTrack i p p (a + k) v (c + k) false) n h) := by
  intro k
  induction k with
  | zero => intro a v c _ _ _ _ _; rfl
  | succ k ih =>
    intro a v c hv hold hc hfit hr
    have hstep : Wrap.processCycle range gridOps (soloState (gridTrack i p p a v c false) n h)
        emptyFrame = some (soloState (gridTrack i p p (a + 1) v (c + 1) false) n h) :=
      wrap_idle_step range i n h p p 5 a v c false hv hold (by omega) (by omega) (by omega)
    rw [List.replicate_succ, wrap_runCycles_cons_of_some range gridOps _ _ _ _ hstep]
    rw [ih (a + 1) v (c + 1) (by omega) (by omega) (by omega) (by omega) hr]
    rw [show a + 1 + k = a + (k + 1) by omega, show c + 1 + k = c + (k + 1) by omega]

theorem altSpot_far (k : Nat) : gridOps.normLt (altSpot k) (altSpot (k + 1)) 5 = false := by
  rcases Nat.mod_two_eq_zero_or_one k with h | h
  · have h1 : (k + 1) % 2 = 1 := by omega
    simp only [altSpot, h, h1, if_true]
    decide
  · have h1 : (k + 1) % 2 = 0 := by omega
    simp only [altSpot, h, h1]
    decide

theorem increment_mod (range k : Nat) : Wrap.increment range (k % range) = (k + 1) % range := by
  simp only [Wrap.increment, Nat.mod_add_mod]

theorem wrap_alt_step (range k : Nat) (hk : 1 ≤ k) (hr : 2 < range) :
    Wrap.processCycle range gridOps (altState range k) (altFrame k)
      = some (altState range (k + 1)) := by
  obtain ⟨j, rfl⟩ : ∃ j, k = j + 1 := ⟨k - 1, by omega⟩
  have h1 : Wrap.increment range 1 = 2 := increment_eq range 1 (by omega)
  have h0 : Wrap.increment range 0 = 1 := increment_eq range 0 (by omega)
  have hstep := wrap_cycle_far range (j % range) ((j + 1) % range)
    ((List.range (j + 1)).map fun i => i % range) origin (altSpot j) (altSpot (j + 1)) 5 1 1 0 true
    (altSpot_far j) (by
      rw [h1, h0]
      exact deletionTest_unseen _ _ _ 2 1 1 false (by omega) (by omega) (Or.inr ⟨by omega, by omega⟩))
  simp only [altState, altFrame, Nat.add_sub_cancel]
  rw [hstep, increment_mod]
  simp only [List.range_succ, List.map_append, List.map_cons, List.map_nil]

theorem wrap_alt_run (range : Nat) (hr : 2 < range) :
    ∀ (n k : Nat), 1 ≤ k →
      Wrap.runCycles range gridOps (altState range k) (altFrames k n)
        = some (altState range (k + n)) := by
  intro n
  induction n with
  | zero => intro k _; rfl
  | succ n ih =>
    intro k hk
    rw [altFrames, wrap_runCycles_cons_of_some range gridOps _ _ _ _
      (wrap_alt_step range k hk hr)]
    rw [ih (k + 1) (by omega)]
    rw [show k + 1 + n = k + (n + 1) by omega]

theorem wrap_first_cycle (range : Nat) (hr : 2 < range) (q : Point2f Int) :
    Wrap.processCycle range gridOps MotionTracker.empty ([{ pt := q }], 5)
      = some (soloState (gridTrack 0 origin q 1 1 0 true) 1 [0]) := by
  have h0 : Wrap.increment range 0 = 1 := increment_eq range 0 (by omega)
  have := wrap_cycle_vacant range 0 [] q 5
  rw [h0] at this
  exact this

theorem altState_one (range : Nat) (hr : 2 < range) :
    altState range 1 = soloState (gridTrack 0 origin spotA 1 1 0 true) 1 [0] := by
  have h1 : 1 % range = 1 := Nat.mod_eq_of_lt (by omega)
  simp [altState, altSpot, h1, List.range_succ]

theorem wrap_alt_run_from_empty (range : Nat) (hr : 2 < range) (n : Nat) :
    Wrap.runCycles range gridOps MotionTracker.empty (altFrame 0 :: altFrames 1 n)
      = some (altState range (1 + n)) := by
  have h : Wrap.processCycle range gridOps MotionTracker.empty (altFrame 0)
      = some (altState range 1) := by
    rw [altState_one range hr]
    exact wrap_first_cycle range hr spotA
  rw [wrap_runCycles_cons_of_some range gridOps _ _ _ _ h]
  exact wrap_alt_run range hr n 1 (by omega)

theorem wrap_run_to_eight (range : Nat) (hr : 20 ≤ range) :
    Wrap.runCycles range gridOps MotionTracker.empty (List.replicate 8 singleFrame)
      = some (soloState (gridTrack 0 spotA spotA 8 8 0 true) 1 [0]) := by
  have h1 : Wrap.processCycle range gridOps MotionTracker.empty singleFrame
      = some (soloState (gridTrack 0 origin spotA 1 1 0 true) 1 [0]) :=
    wrap_first_cycle range (by omega) spotA
  have h2 := wrap_steady_step range 0 1 [0] origin 1 1 0 true (by omega) (by omega) (by omega)
  have h3 := wrap_steady_run range 0 1 [0] 6 2 2 (by omega) (by omega) (by omega)
  have hsplit : List.replicate 8 singleFrame
      = singleFrame :: singleFrame :: List.replicate 6 singleFrame := rfl
  rw [hsplit, wrap_runCycles_cons_of_some range gridOps _ _ _ _ h1,
    wrap_runCycles_cons_of_some range gridOps _ _ _ _ h2]
  exact h3

theorem wrap_cycle_triple (range i n : Nat) (h : List Nat) (cen p q : Point2f Int) (d : Int)
    (a v c : Nat) (f : Bool) (hnear : gridOps.normLt p q d = true)
    (hsame : gridOps.normLt q q d = true)
    (hkeep : deletionTest (gridTrack i q q
      (Wrap.increment range (Wrap.increment range (Wrap.increment range a)))
      (Wrap.increment range (Wrap.increment range (Wrap.increment range v))) 0 true) = some false) :
    Wrap.processCycle range gridOps (soloState (gridTrack i cen p a v c f) n h)
        ([{ pt := q }, { pt := q }, { pt := q }], d)
      = some (soloState (gridTrack i q q
          (Wrap.increment range (Wrap.increment range (Wrap.increment range a)))
          (Wrap.increment range (Wrap.increment range (Wrap.increment range v))) 0 true) n h) := by
  rw [wrap_processCycle_def, wrap_assign_triple range i n h cen p q d a v c f hnear hsame]
  exact deleteLostTracks_of_list _ _ (deleteLostList_singleton_keep _ hkeep)

theorem wrap_run_to_max (range : Nat) (hr : 20 ≤ range) :
    Wrap.runCycles range gridOps MotionTracker.empty (List.replicate (range - 1) singleFrame)
      = some (soloState (gridTrack 0 spotA spotA (range - 1) (range - 1) 0 true) 1 [0]) := by
  have hsplit : List.replicate (range - 1) singleFrame
      = List.replicate 8 singleFrame ++ List.replicate (range - 9) singleFrame := by
    rw [← List.replicate_add]
    congr 1
    omega
  rw [hsplit, wrap_runCycles_append_of_some range gridOps _ _ _ _ (wrap_run_to_eight range hr)]
  have := wrap_steady_run range 0 1 [0] (range - 9) 8 8 (by omega) (by omega) (by omega)
  rw [show 8 + (range - 9) = range - 1 by omega] at this
  exact this

theorem increment_max (range : Nat) (hr : 1 ≤ range) : Wrap.increment range (range - 1) = 0 := by
  simp only [Wrap.increment, Nat.sub_add_cancel hr, Nat.mod_self]

/-- Claim C21 fails on counters with `2^32` values: in the run from the empty
tracker in which every frame holds one detection at (10, 10), cutoff 5, the only
track is matched in every cycle, so after `2^32 - 1` cycles its age is `2^32 - 1`;
in the next cycle `age++` wraps the age (and `totalVisibleCount`) to 0 and
`deleteLostTracks` divides by zero, so the run of `2^32` cycles has no result. -/
theorem age_zero_after_wrap :
    Wrap.runCycles counterRange gridOps MotionTracker.empty
        (List.replicate (counterRange - 1) singleFrame)
      = some (soloState (gridTrack 0 spotA spotA (counterRange - 1) (counterRange - 1) 0 true) 1 [0]) ∧
    Wrap.assignDetectionsToTracks counterRange gridOps
        (predictNewLocationsOfTracks gridOps
          (soloState (gridTrack 0 spotA spotA (counterRange - 1) (counterRange - 1) 0 true) 1 [0]))
        singleFrame.1 singleFrame.2
      = soloState (gridTrack 0 spotA spotA 0 0 0 true) 1 [0] ∧
    (gridTrack 0 spotA spotA 0 0 0 true).age = 0 ∧
    deletionTest (gridTrack 0 spotA spotA 0 0 0 true) = none ∧
    Wrap.processCycle counterRange gridOps
        (soloState (gridTrack 0 spotA spotA (counterRange - 1) (counterRange - 1) 0 true) 1 [0])
        singleFrame = none ∧
    Wrap.runCycles counterRange gridOps MotionTracker.empty
        (List.replicate counterRange singleFrame) = none := by
  have hrun := wrap_run_to_max counterRange (by decide)
  have hassign : Wrap.assignDetectionsToTracks counterRange gridOps
        (predictNewLocationsOfTracks gridOps
          (soloState (gridTrack 0 spotA spotA (counterRange - 1) (counterRange - 1) 0 true) 1 [0]))
        singleFrame.1 singleFrame.2
      = soloState (gridTrack 0 spotA spotA 0 0 0 true) 1 [0] := by
    have := wrap_assign_matched counterRange 0 1 [0] spotA spotA spotA 5 (counterRange - 1)
      (counterRange - 1) 0 true normLt_spotA
    rw [increment_max counterRange (by decide)] at this
    exact this
  have htest : deletionTest (gridTrack 0 spotA spotA 0 0 0 true) = none := by
    simp [deletionTest, gridTrack]
  have hcycle : Wrap.processCycle counterRange gridOps
        (soloState (gridTrack 0 spotA spotA (counterRange - 1) (counterRange - 1) 0 true) 1 [0])
        singleFrame = none := by
    have hscan : scanLost [gridTrack 0 spotA spotA 0 0 0 true] 0 = none := by
      simp [scanLost, htest]
    have hs : singleFrame = (singleFrame.1, singleFrame.2) := rfl
    rw [hs, wrap_processCycle_def, hassign]
    exact deleteLostTracks_undefined _ (deleteLostList_of_scan_undefined _ hscan)
  refine ⟨hrun, hassign, rfl, htest, hcycle, ?_⟩
  have hsplit : List.replicate counterRange singleFrame
      = List.replicate (counterRange - 1) singleFrame ++ [singleFrame] :=
    List.replicate_succ' (counterRange - 1) singleFrame
  rw [hsplit, wrap_runCycles_append_of_some counterRange gridOps _ _ _ _ hrun]
  exact wrap_runCycles_cons_of_none counterRange gridOps _ _ _ hcycle

theorem wrap_run_to_gap (range : Nat) (hr : 20 ≤ range) :
    Wrap.runCycles range gridOps MotionTracker.empty
        (List.replicate 8 singleFrame ++ List.replicate 3 emptyFrame
          ++ List.replicate (range - 12) singleFrame)
      = some (soloState (gridTrack 0 spotA spotA (range - 1) (range - 4) 0 true) 1 [0]) := by
  have h8 := wrap_run_to_eight range hr
  have hidle1 := wrap_idle_step range 0 1 [0] spotA spotA 5 8 8 0 true (by omega) (by omega)
    (by omega) (by omega) (by omega)
  have hidle2 := wrap_idle_run range 0 1 [0] spotA 2 9 8 1 (by omega) (by omega) (by omega)
    (by omega) hr
  have hidle : Wrap.runCycles range gridOps (soloState (gridTrack 0 spotA spotA 8 8 0 true) 1 [0])
      (List.replicate 3 emptyFrame)
      = some (soloState (gridTrack 0 spotA spotA 11 8 3 false) 1 [0]) := by
    have hsplit : List.replicate 3 emptyFrame = emptyFrame :: List.replicate 2 emptyFrame := rfl
    have hstep : Wrap.processCycle range gridOps
        (soloState (gridTrack 0 spotA spotA 8 8 0 true) 1 [0]) emptyFrame
        = some (soloState (gridTrack 0 spotA spotA 9 8 1 false) 1 [0]) := hidle1
    rw [hsplit, wrap_runCycles_cons_of_some range gridOps _ _ _ _ hstep]
    exact hidle2
  have hstep := wrap_steady_step range 0 1 [0] spotA 11 8 3 false (by omega) (by omega) (by omega)
  have hsteady := wrap_steady_run range 0 1 [0] (range - 13) 12 9 (by omega) (by omega) (by omega)
  have hsingles : Wrap.runCycles range gridOps
      (soloState (gridTrack 0 spotA spotA 11 8 3 false) 1 [0])
      (List.replicate (range - 12) singleFrame)
      = some (soloState (gridTrack 0 spotA spotA (range - 1) (range - 4) 0 true) 1 [0]) := by
    have hsplit : List.replicate (range - 12) singleFrame
        = singleFrame :: List.replicate (range - 13) singleFrame := by
      rw [← List.replicate_succ]
      congr 1
      omega
    rw [hsplit, wrap_runCycles_cons_of_some range gridOps _ _ _ _ hstep, hsteady]
    rw [show 12 + (range - 13) = range - 1 by omega, show 9 + (range - 13) = range - 4 by omega]
  rw [wrap_runCycles_append_of_some range gridOps _ _ _ _
    (by rw [wrap_runCycles_append_of_some range gridOps _ _ _ _ h8]; exact hidle)]
  exact hsingles

/-- Claim C1 fails on counters with `2^32` values: from the empty tracker, 8 cycles
with one detection at (10, 10) (cutoff 5), 3 cycles without detections and
`2^32 - 12` cycles with that detection again leave the track with age `2^32 - 1`
and `totalVisibleCount = 2^32 - 4`; one more cycle with three detections at
(10, 10), all assigned to the track, wraps the age to 2 while `totalVisibleCount`
becomes `2^32 - 1`, and `deleteLostTracks` keeps the track. -/
theorem visible_count_exceeds_age_after_wrap :
    Wrap.runCycles counterRange gridOps MotionTracker.empty
        (List.replicate 8 singleFrame ++ List.replicate 3 emptyFrame
          ++ List.replicate (counterRange - 12) singleFrame ++ [tripleFrame])
      = some (soloState (gridTrack 0 spotA spotA 2 4294967295 0 true) 1 [0]) ∧
    (∃ t ∈ (soloState (gridTrack 0 spotA spotA 2 4294967295 0 true) 1 [0]).tracks,
      t.age < t.totalVisibleCount) ∧
    (List.replicate 8 singleFrame ++ List.replicate 3 emptyFrame
      ++ List.replicate (counterRange - 12) singleFrame ++ [tripleFrame]).length = counterRange := by
  refine ⟨?_, ⟨_, List.mem_singleton_self _, by decide⟩, ?_⟩
  · have htriple := wrap_cycle_triple counterRange 0 1 [0] spotA spotA spotA 5 (counterRange - 1)
      (counterRange - 4) 0 true normLt_spotA normLt_spotA (by decide)
    have h1 : Wrap.increment counterRange (Wrap.increment counterRange
        (Wrap.increment counterRange (counterRange - 1))) = 2 := by decide
    have h2 : Wrap.increment counterRange (Wrap.increment counterRange
        (Wrap.increment counterRange (counterRange - 4))) = 4294967295 := by decide
    rw [h1, h2] at htriple
    have hstep : Wrap.processCycle counterRange gridOps
        (soloState (gridTrack 0 spotA spotA (counterRange - 1) (counterRange - 4) 0 true) 1 [0])
        tripleFrame = some (soloState (gridTrack 0 spotA spotA 2 4294967295 0 true) 1 [0]) :=
      htriple
    rw [wrap_runCycles_append_of_some counterRange gridOps _ _ _ _
      (wrap_run_to_gap counterRange (by decide)),
      wrap_runCycles_cons_of_some counterRange gridOps _ _ _ _ hstep]
    rfl
  · rw [List.length_append, List.length_append, List.length_append, List.length_replicate,
      List.length_replicate, List.length_replicate, List.length_singleton]
    decide

theorem altState_history (range k : Nat) :
    (altState range k).history = (List.range k).map fun i => i % range := rfl

theorem altState_ids (range k : Nat) :
    (altState range k).tracks.map (fun t => t.id) = [(k - 1) % range] := rfl

theorem altState_numTracks (range k : Nat) : (altState range k).numTracks = k % range := rfl

/-- Claim C8 fails on counters with `2^32` values: in the run from the empty tracker
whose frames hold one detection each, alternately at (10, 10) and (30, 10) with
cutoff 5, every cycle creates one track (the track of the cycle before is out of
range and is deleted). After `2^32 + 1` cycles `2^32 + 1` ids have been handed out,
the first and the last of them are both 0, the live track carries id 0 although
`2^32` tracks were created before it, and `numTracks` is 1. -/
theorem id_handed_out_twice_after_wrap :
    ∃ s, Wrap.runCycles counterRange gridOps MotionTracker.empty
        (altFrame 0 :: altFrames 1 counterRange) = some s ∧
      s.history.length = counterRange + 1 ∧
      s.history[0]? = some 0 ∧ s.history[counterRange]? = some 0 ∧
      ¬ s.history.Nodup ∧
      s.tracks.map (fun t => t.id) = [0] ∧ s.numTracks = 1 := by
  have hR : 0 < counterRange := by decide
  have hmod : counterRange % counterRange = 0 := Nat.mod_self _
  have hhist : ∀ i, i < 1 + counterRange →
      (altState counterRange (1 + counterRange)).history[i]? = some (i % counterRange) := by
    intro i hi
    rw [altState_history, List.getElem?_map, List.getElem?_range hi]
    rfl
  refine ⟨_, wrap_alt_run_from_empty counterRange (by decide) counterRange, ?_, ?_, ?_, ?_, ?_, ?_⟩
  · rw [altState_history, List.length_map, List.length_range]
    omega
  · rw [hhist 0 (by omega), Nat.zero_mod]
  · rw [hhist counterRange (by omega), hmod]
  · intro hnd
    rw [altState_history] at hnd
    have hinj := List.inj_on_of_nodup_map hnd
    have h0 : 0 ∈ List.range (1 + counterRange) := List.mem_range.mpr (by omega)
    have h1 : counterRange ∈ List.range (1 + counterRange) := List.mem_range.mpr (by omega)
    have := hinj h0 h1 (by simp only [Nat.zero_mod, hmod])
    omega
  · rw [altState_ids, Nat.add_sub_cancel_left, hmod]
  · rw [altState_numTracks, Nat.add_mod, hmod]
    decide

theorem wrap_run_to_fading (range : Nat) (hr : 30 ≤ range) :
    Wrap.runCycles range gridOps MotionTracker.empty
        (List.replicate 8 singleFrame ++ List.replicate 19 emptyFrame)
      = some fadingState := by
  have h8 := wrap_run_to_eight range (by omega)
  have hidle1 := wrap_idle_step range 0 1 [0] spotA spotA 5 8 8 0 true (by omega) (by omega)
    (by omega) (by omega) (by omega)
  have hidle2 := wrap_idle_run range 0 1 [0] spotA 18 9 8 1 (by omega) (by omega) (by omega)
    (by omega) (by omega)
  rw [wrap_runCycles_append_of_some range gridOps _ _ _ _ h8]
  have hsplit : List.replicate 19 emptyFrame = emptyFrame :: List.replicate 18 emptyFrame := rfl
  have hstep : Wrap.processCycle range gridOps
      (soloState (gridTrack 0 spotA spotA 8 8 0 true) 1 [0]) emptyFrame
      = some (soloState (gridTrack 0 spotA spotA 9 8 1 false) 1 [0]) := hidle1
  rw [hsplit, wrap_runCycles_cons_of_some range gridOps _ _ _ _ hstep, hidle2]
  rfl

theorem altState_two (range : Nat) (hr : 2 < range) :
    altState range 2 = soloState (gridTrack 1 origin spotB 1 1 0 true) 2 [0, 1] := by
  have h1 : 1 % range = 1 := Nat.mod_eq_of_lt (by omega)
  have h2 : 2 % range = 2 := Nat.mod_eq_of_lt (by omega)
  simp [altState, altSpot, h1, h2, List.range_succ]

theorem wrap_alt_run_from_vacant (range : Nat) (hr : 2 < range) (n : Nat) :
    Wrap.runCycles range gridOps (vacantState 1 [0]) (altFrame 1 :: altFrames 2 n)
      = some (altState range (2 + n)) := by
  have hcreate := wrap_cycle_vacant range 1 [0] spotB 5
  have h2 : Wrap.increment range 1 = 2 := increment_eq range 1 (by omega)
  have hlist : ([0] : List Nat) ++ [1] = [0, 1] := rfl
  rw [h2, hlist, ← altState_two range hr] at hcreate
  have hstep : Wrap.processCycle range gridOps (vacantState 1 [0]) (altFrame 1)
      = some (altState range 2) := hcreate
  rw [wrap_runCycles_cons_of_some range gridOps _ _ _ _ hstep]
  exact wrap_alt_run range hr n 2 (by omega)

/-- Claim C12 fails on counters with `2^32` values: the track with id 0, matched
in 8 cycles and then unmatched, reaches `consecutiveInvisibleCount = 20` in cycle 28
and is absent after that cycle. In the `2^32` cycles that follow, each with one
detection, alternately at (30, 10) and (10, 10), every cycle creates one track;
`numTracks` wraps around and the track created in the last of these cycles carries
id 0 again. -/
theorem removed_id_returns_after_wrap :
    Wrap.runCycles counterRange gridOps MotionTracker.empty
        (List.replicate 8 singleFrame ++ List.replicate 19 emptyFrame) = some fadingState ∧
    fadedTrack ∈ (Wrap.assignDetectionsToTracks counterRange gridOps
      (predictNewLocationsOfTracks gridOps fadingState) emptyFrame.1 emptyFrame.2).tracks ∧
    fadedTrack.consecutiveInvisibleCount = 20 ∧ fadedTrack.id = 0 ∧
    Wrap.processCycle counterRange gridOps fadingState emptyFrame = some (vacantState 1 [0]) ∧
    ∃ s, Wrap.runCycles counterRange gridOps (vacantState 1 [0])
        (altFrame 1 :: altFrames 2 (counterRange - 1)) = some s ∧
      s.tracks.map (fun t => t.id) = [0] := by
  have hfading : fadingState = soloState (gridTrack 0 spotA spotA 27 8 19 false) 1 [0] := rfl
  have hassign := wrap_assign_idle counterRange 0 1 [0] spotA spotA 5 27 8 19 false
  have h28 : Wrap.increment counterRange 27 = 28 := by decide
  have h20 : Wrap.increment counterRange 19 = 20 := by decide
  rw [h28, h20] at hassign
  refine ⟨wrap_run_to_fading counterRange (by decide), ?_, rfl, rfl, ?_, ?_⟩
  · have he : emptyFrame = ([], 5) := rfl
    rw [hfading, he]
    simp only
    rw [hassign]
    simp only [soloState, List.mem_singleton]
    rfl
  · have := wrap_cycle_idle_drop counterRange 0 1 [0] spotA spotA 5 27 8 19 false (by
      rw [h28, h20]
      exact deletionTest_unseen _ _ _ 28 8 20 false (by omega) (by omega) (Or.inl (by omega)))
    exact this
  · have hrun := wrap_alt_run_from_vacant counterRange (by decide) (counterRange - 1)
    have hsum : 2 + (counterRange - 1) = counterRange + 1 := by decide
    rw [hsum] at hrun
    refine ⟨altState counterRange (counterRange + 1), hrun, ?_⟩
    rw [altState_ids, Nat.add_sub_cancel, Nat.mod_self]

/-- Claim C29 fails on counters with `2^32` values: in the alternating run every
cycle creates one track, so after `2^32` cycles the live track carries id
`2^32 - 1`, stands at (30, 10), and `numTracks` has wrapped to 0. A further cycle
with a detection at (30, 10), assigned to that track, followed by a detection at
(10, 10), which starts a track, leaves the track list with the ids `2^32 - 1`, 0 in
this order. -/
theorem ids_out_of_order_after_wrap :
    ∃ s, Wrap.runCycles counterRange gridOps MotionTracker.empty
        ((altFrame 0 :: altFrames 1 (counterRange - 1)) ++ [bothFrame]) = some s ∧
      s.tracks.map (fun t => t.id) = [4294967295, 0] ∧
      ¬ (s.tracks.map fun t => t.id).Pairwise (fun a b => a < b) := by
  have hrun := wrap_alt_run_from_empty counterRange (by decide) (counterRange - 1)
  have hstate : altState counterRange (1 + (counterRange - 1))
      = soloState (gridTrack 4294967295 origin spotB 1 1 0 true) 0
          ((List.range counterRange).map fun i => i % counterRange) := by
    have h1 : 1 + (counterRange - 1) = counterRange := by decide
    have h2 : (counterRange - 1) % counterRange = 4294967295 := by decide
    have h3 : altSpot (counterRange - 1) = spotB := by decide
    rw [h1]
    simp only [altState, h2, h3, Nat.mod_self]
  have hboth := wrap_cycle_both counterRange 4294967295 0
    ((List.range counterRange).map fun i => i % counterRange) origin spotB spotB spotA 5 1 1 0 true
    (by decide) (by decide) (by decide)
  have h1 : Wrap.increment counterRange 1 = 2 := by decide
  have h0 : Wrap.increment counterRange 0 = 1 := by decide
  rw [h1, h0] at hboth
  have hstep : Wrap.processCycle counterRange gridOps
      (soloState (gridTrack 4294967295 origin spotB 1 1 0 true) 0
        ((List.range counterRange).map fun i => i % counterRange)) bothFrame
      = some { tracks := [gridTrack 4294967295 spotB spotB 2 2 0 true,
                 gridTrack 0 origin spotA 1 1 0 true],
               numTracks := 1,
               history := ((List.range counterRange).map fun i => i % counterRange) ++ [0] } :=
    hboth
  refine ⟨{ tracks := [gridTrack 4294967295 spotB spotB 2 2 0 true,
              gridTrack 0 origin spotA 1 1 0 true],
            numTracks := 1,
            history := ((List.range counterRange).map fun i => i % counterRange) ++ [0] },
    ?_, rfl, ?_⟩
  · rw [wrap_runCycles_append_of_some counterRange gridOps _ _ _ _ hrun, hstate,
      wrap_runCycles_cons_of_some counterRange gridOps _ _ _ _ hstep]
    rfl
  · intro hp
    have hlt : 4294967295 < 0 := List.rel_of_pairwise_cons hp (List.mem_singleton_self _)
    omega

theorem detectionCount_append {F D : Type} (a b : List (List (KeyPoint F) × D)) :
    detectionCount (a ++ b) = detectionCount a + detectionCount b := by
  induction a with
  | nil => simp [detectionCount]
  | cons f fs ih =>
    show f.1.length + detectionCount (fs ++ b) = f.1.length + detectionCount fs + detectionCount b
    rw [ih]
    omega

theorem wrap_reachable_within_range {F M D : Type} (range : Nat) (ops : CvOps F M D)
    (frames : List (List (KeyPoint F) × D))
    (hfit : frames.length + detectionCount frames < range) :
    ∃ s, Wrap.runCycles range ops MotionTracker.empty frames = some s ∧
      Tracking.runCycles ops MotionTracker.empty frames = some s ∧ StateInv s ∧
      Fits (frames.length + detectionCount frames) s := by
  obtain ⟨s, hrun, hinv⟩ := runCycles_inv ops frames MotionTracker.empty StateInv_empty
  obtain ⟨h1, h2⟩ := wrap_runCycles_eq_of_fits range ops frames MotionTracker.empty 0 Fits_empty
    (by omega)
  refine ⟨s, by rw [h1]; exact hrun, hrun, hinv, ?_⟩
  have := h2 s hrun
  simpa using this

/-- Claim C1 as amended. With counters that have `range` values, starting from the
tracker with no tracks, every sequence of processing cycles (predict, assign with
any detections and cutoff, delete) in which the number of cycles plus the number of
detections is below `range` runs to completion and leaves every track with
`totalVisibleCount <= age`. -/
theorem totalVisibleCount_le_age_within_range {F M D : Type} (range : Nat) (ops : CvOps F M D)
    (frames : List (List (KeyPoint F) × D))
    (hfit : frames.length + detectionCount frames < range) :
    ∃ s, Wrap.runCycles range ops MotionTracker.empty frames = some s ∧
      ∀ t ∈ s.tracks, t.totalVisibleCount ≤ t.age := by
  obtain ⟨s, hrun, _, hinv, _⟩ := wrap_reachable_within_range range ops frames hfit
  exact ⟨s, hrun, fun t ht => (hinv.1 t ht).2⟩

theorem totalVisibleCount_le_age_within_range_witness :
    [singleFrame, doubleFrame].length + detectionCount [singleFrame, doubleFrame] < counterRange ∧
    ∃ s, Wrap.runCycles counterRange gridOps MotionTracker.empty [singleFrame, doubleFrame] = some s ∧
      ∀ t ∈ s.tracks, t.totalVisibleCount ≤ t.age :=
  ⟨by decide,
    totalVisibleCount_le_age_within_range counterRange gridOps [singleFrame, doubleFrame]
      (by decide)⟩

/-- Claim C21 as amended. With counters that have `range` values, every run of
processing cycles from the empty tracker in which the number of cycles plus the
number of detections is below `range` goes through, and in the state reached every
track has an age of at least 1 and a defined deletion test; and for every further
frame that keeps the run below `range`, every track on which `deleteLostTracks`
then evaluates `totalVisibleCount / age` has age at least 1, so that
`deleteLostTracks` has a result. -/
theorem age_positive_within_range {F M D : Type} (range : Nat) (ops : CvOps F M D)
    (frames : List (List (KeyPoint F) × D))
    (hfit : frames.length + detectionCount frames < range) :
    ∃ s, Wrap.runCycles range ops MotionTracker.empty frames = some s ∧
      (∀ t ∈ s.tracks, 1 ≤ t.age ∧ ∃ b, deletionTest t = some b) ∧
      (∃ s', deleteLostTracks s = some s') ∧
      ∀ (frame : List (KeyPoint F) × D),
        frames.length + detectionCount frames + frame.1.length + 1 < range →
        (∀ t ∈ (Wrap.assignDetectionsToTracks range ops (predictNewLocationsOfTracks ops s)
            frame.1 frame.2).tracks, 1 ≤ t.age ∧ ∃ b, deletionTest t = some b) ∧
        ∃ s', Wrap.processCycle range ops s frame = some s' := by
  obtain ⟨s, hrun, _, hinv, hfits⟩ := wrap_reachable_within_range range ops frames hfit
  refine ⟨s, hrun, ?_, ?_, ?_⟩
  · intro t ht
    have h1 := (hinv.1 t ht).1
    exact ⟨h1, deletionTest_isSome t h1⟩
  · obtain ⟨s', h, _⟩ := deleteLostTracks_inv s hinv
    exact ⟨s', h⟩
  · intro frame hframe
    have hp := predictNewLocationsOfTracks_fits ops s _ hfits
    obtain ⟨heq, _⟩ := wrap_assignDetectionsToTracks_eq range ops _ frame.1 frame.2 _ hp hframe
    have ha := assignDetectionsToTracks_inv ops _ frame.1 frame.2
      (predictNewLocationsOfTracks_inv ops s hinv)
    refine ⟨?_, ?_⟩
    · intro t ht
      rw [heq] at ht
      have h1 := (ha.1 t ht).1
      exact ⟨h1, deletionTest_isSome t h1⟩
    · obtain ⟨s', h, _⟩ := deleteLostTracks_inv _ ha
      refine ⟨s', ?_⟩
      show deleteLostTracks (Wrap.assignDetectionsToTracks range ops
        (predictNewLocationsOfTracks ops s) frame.1 frame.2) = some s'
      rw [heq]
      exact h

theorem age_positive_within_range_witness :
    [singleFrame, doubleFrame].length + detectionCount [singleFrame, doubleFrame] < counterRange ∧
    ∃ s, Wrap.runCycles counterRange gridOps MotionTracker.empty [singleFrame, doubleFrame] = some s ∧
      (∀ t ∈ s.tracks, 1 ≤ t.age ∧ ∃ b, deletionTest t = some b) ∧
      (∃ s', deleteLostTracks s = some s') ∧
      ∀ (frame : List (KeyPoint Int) × Int),
        [singleFrame, doubleFrame].length + detectionCount [singleFrame, doubleFrame]
            + frame.1.length + 1 < counterRange →
        (∀ t ∈ (Wrap.assignDetectionsToTracks counterRange gridOps
            (predictNewLocationsOfTracks gridOps s) frame.1 frame.2).tracks,
          1 ≤ t.age ∧ ∃ b, deletionTest t = some b) ∧
        ∃ s', Wrap.processCycle counterRange gridOps s frame = some s' :=
  ⟨by decide,
    age_positive_within_range counterRange gridOps [singleFrame, doubleFrame] (by decide)⟩

/-- Claim C8 as amended. With counters that have `range` values, after any sequence
of processing cycles from the empty tracker in which the number of cycles plus the
number of detections is below `range`, the ids handed out so far are
`0, 1, ..., numTracks - 1` in order of creation, hence pairwise distinct, and every
live track carries one of them, no two the same one. `createNewTrack` always gives
the new track the current `numTracks` as id and increments the counter (by exactly 1
while `numTracks + 1` is below `range`), and `deleteLostTracks` changes neither the
counter nor the ids handed out. -/
theorem track_ids_distinct_within_range {F M D : Type} (range : Nat) (ops : CvOps F M D)
    (frames : List (List (KeyPoint F) × D))
    (hfit : frames.length + detectionCount frames < range) :
    (∃ s, Wrap.runCycles range ops MotionTracker.empty frames = some s ∧
      s.history = List.range s.numTracks ∧ s.history.Nodup ∧
      (∀ t ∈ s.tracks, t.id ∈ s.history) ∧
      (s.tracks.map fun t => t.id).Nodup) ∧
    (∀ (s0 : MotionTracker F M) (c : KeyPoint F), ∃ t,
      (Wrap.createNewTrack range ops s0 c).tracks = s0.tracks ++ [t] ∧ t.id = s0.numTracks ∧
      (Wrap.createNewTrack range ops s0 c).history = s0.history ++ [s0.numTracks] ∧
      (Wrap.createNewTrack range ops s0 c).numTracks = Wrap.increment range s0.numTracks ∧
      (s0.numTracks + 1 < range →
        (Wrap.createNewTrack range ops s0 c).numTracks = s0.numTracks + 1)) ∧
    (∀ (s0 s1 : MotionTracker F M), deleteLostTracks s0 = some s1 →
      s1.numTracks = s0.numTracks ∧ s1.history = s0.history) := by
  obtain ⟨h1, _, h3⟩ := track_ids_never_reused ops frames
  refine ⟨?_, ?_, h3⟩
  · obtain ⟨s, hs, hrest⟩ := h1
    refine ⟨s, ?_, hrest⟩
    rw [wrap_runCycles_eq range ops frames hfit]
    exact hs
  · intro s0 c
    exact ⟨_, rfl, rfl, rfl, rfl, fun h => increment_eq range s0.numTracks h⟩

theorem track_ids_distinct_within_range_witness :
    [singleFrame, farFrame].length + detectionCount [singleFrame, farFrame] < counterRange ∧
    (∃ s, Wrap.runCycles counterRange gridOps MotionTracker.empty [singleFrame, farFrame] = some s ∧
      s.history = List.range s.numTracks ∧ s.history.Nodup ∧
      (∀ t ∈ s.tracks, t.id ∈ s.history) ∧
      (s.tracks.map fun t => t.id).Nodup) ∧
    (∀ (s0 : MotionTracker Int Unit) (c : KeyPoint Int), ∃ t,
      (Wrap.createNewTrack counterRange gridOps s0 c).tracks = s0.tracks ++ [t] ∧
      t.id = s0.numTracks ∧
      (Wrap.createNewTrack counterRange gridOps s0 c).history = s0.history ++ [s0.numTracks] ∧
      (Wrap.createNewTrack counterRange gridOps s0 c).numTracks
        = Wrap.increment counterRange s0.numTracks ∧
      (s0.numTracks + 1 < counterRange →
        (Wrap.createNewTrack counterRange gridOps s0 c).numTracks = s0.numTracks + 1)) ∧
    (∀ (s0 s1 : MotionTracker Int Unit), deleteLostTracks s0 = some s1 →
      s1.numTracks = s0.numTracks ∧ s1.history = s0.history) :=
  ⟨by decide,
    track_ids_distinct_within_range counterRange gridOps [singleFrame, farFrame] (by decide)⟩

/-- Claim C12 as amended. With counters that have `range` values, in a run of
processing cycles from the empty tracker in which the number of cycles plus the
number of detections is below `range`: a track whose `consecutiveInvisibleCount` is
at least 20 after `assignDetectionsToTracks` of a cycle is absent from the track
list after that cycle's `deleteLostTracks`, and no track carrying its id is in the
track list after that cycle or after any later cycle of the run. -/
theorem invisible_track_removed_within_range {F M D : Type} (range : Nat) (ops : CvOps F M D)
    (before : List (List (KeyPoint F) × D)) (frame : List (KeyPoint F) × D)
    (later : List (List (KeyPoint F) × D)) (s : MotionTracker F M) (t : track F M)
    (hfit : (before ++ frame :: later).length + detectionCount (before ++ frame :: later) < range)
    (hs : Wrap.runCycles range ops MotionTracker.empty before = some s)
    (ht : t ∈ (Wrap.assignDetectionsToTracks range ops (predictNewLocationsOfTracks ops s)
      frame.1 frame.2).tracks)
    (h20 : 20 ≤ t.consecutiveInvisibleCount) :
    ∃ s1 s2, Wrap.processCycle range ops s frame = some s1 ∧
      Wrap.runCycles range ops s1 later = some s2 ∧
      t ∉ s1.tracks ∧ (∀ u ∈ s1.tracks, u.id ≠ t.id) ∧ (∀ u ∈ s2.tracks, u.id ≠ t.id) := by
  have hlen : (before ++ frame :: later).length + detectionCount (before ++ frame :: later)
      = before.length + detectionCount before + (frame.1.length + 1)
        + (later.length + detectionCount later) := by
    simp only [List.length_append, List.length_cons, detectionCount_append, detectionCount]
    omega
  rw [hlen] at hfit
  obtain ⟨s0, hrun0, _, hinv, hfits⟩ := wrap_reachable_within_range range ops before (by omega)
  rw [hs] at hrun0
  simp only [Option.some.injEq] at hrun0
  subst hrun0
  have hp := predictNewLocationsOfTracks_fits ops s _ hfits
  obtain ⟨heq, _⟩ := wrap_assignDetectionsToTracks_eq range ops _ frame.1 frame.2 _ hp
    (by omega)
  rw [heq] at ht
  obtain ⟨s1, s2, h1, h2, h3, h4, h5⟩ :=
    invisible_track_removed_for_good ops s frame later t hinv ht h20
  obtain ⟨hc1, hc2⟩ := wrap_processCycle_eq_of_fits range ops s frame _ hfits (by omega)
  obtain ⟨hr1, _⟩ := wrap_runCycles_eq_of_fits range ops later s1 _ (hc2 s1 h1) (by omega)
  exact ⟨s1, s2, by rw [hc1]; exact h1, by rw [hr1]; exact h2, h3, h4, h5⟩

theorem invisible_track_removed_within_range_witness :
    ((List.replicate 8 singleFrame ++ List.replicate 19 emptyFrame)
        ++ emptyFrame :: [singleFrame]).length
      + detectionCount ((List.replicate 8 singleFrame ++ List.replicate 19 emptyFrame)
        ++ emptyFrame :: [singleFrame]) < counterRange ∧
    Wrap.runCycles counterRange gridOps MotionTracker.empty
        (List.replicate 8 singleFrame ++ List.replicate 19 emptyFrame) = some fadingState ∧
    fadedTrack ∈ (Wrap.assignDetectionsToTracks counterRange gridOps
      (predictNewLocationsOfTracks gridOps fadingState) emptyFrame.1 emptyFrame.2).tracks ∧
    20 ≤ fadedTrack.consecutiveInvisibleCount ∧
    ∃ s1 s2, Wrap.processCycle counterRange gridOps fadingState emptyFrame = some s1 ∧
      Wrap.runCycles counterRange gridOps s1 [singleFrame] = some s2 ∧
      fadedTrack ∉ s1.tracks ∧ (∀ u ∈ s1.tracks, u.id ≠ fadedTrack.id) ∧
      (∀ u ∈ s2.tracks, u.id ≠ fadedTrack.id) :=
  ⟨by decide, wrap_run_to_fading counterRange (by decide), by decide, by decide,
    invisible_track_removed_within_range counterRange gridOps
      (List.replicate 8 singleFrame ++ List.replicate 19 emptyFrame) emptyFrame [singleFrame]
      fadingState fadedTrack (by decide) (wrap_run_to_fading counterRange (by decide))
      (by decide) (by decide)⟩

/-- Claim C29 as amended. With counters that have `range` values, after any sequence
of processing cycles from the empty tracker in which the number of cycles plus the
number of detections is below `range`, the ids are strictly increasing along the
track list, and for every further frame that keeps the run below `range` the list of
ids after `assignDetectionsToTracks` is the list of ids before it followed by the
ids of the tracks created in the call, each at least the value of `numTracks` before
the call. `predictNewLocationsOfTracks` keeps the list of ids, and the track list
after `deleteLostTracks` is a sublist of the list before it. -/
theorem track_list_sorted_within_range {F M D : Type} (range : Nat) (ops : CvOps F M D)
    (frames : List (List (KeyPoint F) × D))
    (hfit : frames.length + detectionCount frames < range) :
    (∃ s, Wrap.runCycles range ops MotionTracker.empty frames = some s ∧
      (s.tracks.map fun t => t.id).Pairwise (fun a b => a < b) ∧
      ∀ (frame : List (KeyPoint F) × D),
        frames.length + detectionCount frames + frame.1.length + 1 < range →
        ∃ new, (Wrap.assignDetectionsToTracks range ops (predictNewLocationsOfTracks ops s)
            frame.1 frame.2).tracks.map (fun t => t.id)
          = s.tracks.map (fun t => t.id) ++ new ∧ ∀ i ∈ new, s.numTracks ≤ i) ∧
    (∀ (s : MotionTracker F M),
      (predictNewLocationsOfTracks ops s).tracks.map (fun t => t.id)
        = s.tracks.map (fun t => t.id)) ∧
    (∀ (s s' : MotionTracker F M), deleteLostTracks s = some s' →
      s'.tracks.Sublist s.tracks) := by
  obtain ⟨_, hpred, _, hdel⟩ := track_list_sorted_by_id ops frames
  obtain ⟨s, hrun, _, hinv, hfits⟩ := wrap_reachable_within_range range ops frames hfit
  refine ⟨⟨s, hrun, hinv.2.2.1, ?_⟩, hpred, hdel⟩
  intro frame hframe
  have hp := predictNewLocationsOfTracks_fits ops s _ hfits
  obtain ⟨heq, _⟩ := wrap_assignDetectionsToTracks_eq range ops _ frame.1 frame.2 _ hp hframe
  rw [heq]
  obtain ⟨new, h1, h2⟩ :=
    assignDetectionsToTracks_ids ops (predictNewLocationsOfTracks ops s) frame.1 frame.2
  rw [hpred s] at h1
  exact ⟨new, h1, h2⟩

theorem track_list_sorted_within_range_witness :
    [singleFrame, bothFrame].length + detectionCount [singleFrame, bothFrame] < counterRange ∧
    (∃ s, Wrap.runCycles counterRange gridOps MotionTracker.empty [singleFrame, bothFrame] = some s ∧
      (s.tracks.map fun t => t.id).Pairwise (fun a b => a < b) ∧
      ∀ (frame : List (KeyPoint Int) × Int),
        [singleFrame, bothFrame].length + detectionCount [singleFrame, bothFrame]
            + frame.1.length + 1 < counterRange →
        ∃ new, (Wrap.assignDetectionsToTracks counterRange gridOps
            (predictNewLocationsOfTracks gridOps s) frame.1 frame.2).tracks.map (fun t => t.id)
          = s.tracks.map (fun t => t.id) ++ new ∧ ∀ i ∈ new, s.numTracks ≤ i) ∧
    (∀ (s : MotionTracker Int Unit),
      (predictNewLocationsOfTracks gridOps s).tracks.map (fun t => t.id)
        = s.tracks.map (fun t => t.id)) ∧
    (∀ (s s' : MotionTracker Int Unit), deleteLostTracks s = some s' →
      s'.tracks.Sublist s.tracks) :=
  ⟨by decide,
    track_list_sorted_within_range counterRange gridOps [singleFrame, bothFrame] (by decide)⟩

end Tracking
